import Mathlib

/-!
# Helio Workstation: the audio monitor and the automation track map

A shallow embedding of `Source/Core/Audio/Monitoring/AudioMonitor.cpp` and of the event
handling of `Source/UI/MidiEditor/AutomationMap/AutomationTrackMap.cpp`.

Arithmetic is idealised: a C++ `float` is either an exact element of an ordered
field `K` or one of the three IEEE special values.  Rounding, overflow to
infinity and the sign of zero are not modelled; a zero divisor counts as `+0`.
Division by zero is modelled the IEEE way (`0/0` is NaN, `x/0` is an infinity),
and every comparison with NaN is false.

Where the rounding of `float` decides a question, the metering of the callback is taken
with a rounding applied to the result of every operation of `float`
(`audioDeviceIOCallbackWith`); the identity as rounding gives the exact arithmetic again,
`Flt.rounded` gives that of `float`.
-/

set_option linter.unusedSectionVars false

namespace Helio

/-! ## Values of type `float` -/

/-- A value of the C++ type `float` in idealised arithmetic. -/
inductive Flt (K : Type) where
  | nan : Flt K
  | negInf : Flt K
  | posInf : Flt K
  | fin (x : K) : Flt K
  deriving DecidableEq, Repr

namespace Flt

variable {K : Type} [LinearOrderedField K]

/-- Conversion `int -> float` of a non-negative count. -/
def ofNat (n : Nat) : Flt K := fin (n : K)

/-- Conversion `int -> float`. -/
def ofInt (n : Int) : Flt K := fin (n : K)

/-- Whether the value is an ordinary number (neither NaN nor an infinity). -/
def isFinite : Flt K → Bool
  | fin _ => true
  | _ => false

/-- IEEE addition. -/
def add : Flt K → Flt K → Flt K
  | fin x, fin y => fin (x + y)
  | nan, _ => nan
  | _, nan => nan
  | posInf, negInf => nan
  | negInf, posInf => nan
  | posInf, _ => posInf
  | negInf, _ => negInf
  | fin _, posInf => posInf
  | fin _, negInf => negInf

/-- IEEE negation. -/
def neg : Flt K → Flt K
  | fin x => fin (-x)
  | nan => nan
  | posInf => negInf
  | negInf => posInf

/-- IEEE subtraction. -/
def sub (a b : Flt K) : Flt K := add a (neg b)

/-- The infinity that a product or quotient with a finite factor `y` yields:
    `pos` tells the sign of the infinite operand. -/
def infTimes (pos : Bool) (y : K) : Flt K :=
  if y = 0 then nan else if (0 < y) = pos then posInf else negInf

/-- IEEE multiplication. -/
def mul : Flt K → Flt K → Flt K
  | fin x, fin y => fin (x * y)
  | nan, _ => nan
  | _, nan => nan
  | posInf, posInf => posInf
  | negInf, negInf => posInf
  | posInf, negInf => negInf
  | negInf, posInf => negInf
  | posInf, fin y => infTimes true y
  | negInf, fin y => infTimes false y
  | fin x, posInf => infTimes true x
  | fin x, negInf => infTimes false x

/-- IEEE division; a zero divisor is `+0`. -/
def div : Flt K → Flt K → Flt K
  | fin x, fin y =>
    if y = 0 then (if x = 0 then nan else if 0 < x then posInf else negInf)
    else fin (x / y)
  | nan, _ => nan
  | _, nan => nan
  | fin _, posInf => fin 0
  | fin _, negInf => fin 0
  | posInf, fin y => if 0 ≤ y then posInf else negInf
  | negInf, fin y => if 0 ≤ y then negInf else posInf
  | posInf, posInf => nan
  | posInf, negInf => nan
  | negInf, posInf => nan
  | negInf, negInf => nan

/-- The comparison `a < b` of C++; false as soon as one side is NaN. -/
def lt : Flt K → Flt K → Bool
  | fin x, fin y => decide (x < y)
  | nan, _ => false
  | _, nan => false
  | negInf, negInf => false
  | negInf, _ => true
  | posInf, _ => false
  | fin _, posInf => true
  | fin _, negInf => false

/-- The comparison `a > b` of C++. -/
def gt (a b : Flt K) : Bool := lt b a

/-- The function `sqrtf`, given the square root `sq` of the non-negative numbers. -/
def sqrt (sq : K → K) : Flt K → Flt K
  | fin x => if x < 0 then nan else fin (sq x)
  | posInf => posInf
  | _ => nan

/-- A base-10 logarithm for the examples, given the logarithm `lg` of the positive numbers.
    `AudioCore::fastLog10` is not part of the sources at hand and is a parameter of the
    query (`Env.fastLog10`); the examples use this function at positive numbers only, and
    nothing rests on its values at 0 and below, which are those of `log10f`. -/
def log10 (lg : K → K) : Flt K → Flt K
  | fin x => if x < 0 then nan else if x = 0 then negInf else fin (lg x)
  | posInf => posInf
  | _ => nan

end Flt

/-! ## JUCE helpers -/

section Juce

variable {K : Type} [LinearOrderedField K]

/-- JUCE `jmax (a, b)`, which is `a < b ? b : a`. -/
def jmax (a b : Flt K) : Flt K := if Flt.lt a b then b else a

/-- JUCE `jmin (a, b)` on `int`, which is `b < a ? b : a`. -/
def jmin (a b : Nat) : Nat := if b < a then b else a

/-- JUCE `jlimit (lo, hi, v)` on `int`, which is `v < lo ? lo : (hi < v ? hi : v)`. -/
def jlimit (lo hi v : Int) : Int := if v < lo then lo else if hi < v then hi else v

/-- JUCE `FloatVectorOperations::clear (dest, num)`: zero the first `num` values. -/
def clear (dest : List (Flt K)) (num : Nat) : List (Flt K) :=
  List.replicate (min num dest.length) (Flt.fin 0) ++ dest.drop num

end Juce

/-! ## The monitor -/

/-- Modelled from the spec: the constant `AudioMonitor::numChannels` of the header
    `AudioMonitor.h`, which is not part of the sources at hand; the spec fixes the
    number of channel slots at 2. -/
def numChannels : Nat := 2

/-- What `AudioMonitor.cpp` takes from elsewhere: the threshold constants and the
    spectrum size of `AudioMonitor.h`, the square root of the C library, the
    transform of `SpectrumFFT` and `AudioCore::fastLog10`. -/
structure Env (K : Type) where
  clipThreshold : K
  oversaturationThreshold : K
  oversaturationRate : K
  spectrumSize : Nat
  /-- Square root of a non-negative number. -/
  sqrtf : K → K
  /-- The call `fft.computeSpectrum (pcm, offset, length, spectrum, len, channel, numchannels)`:
      the new content of the spectrum row. The sample buffer is left as it is. -/
  computeSpectrum : List (Flt K) → Nat → Nat → List (Flt K) → Nat → Nat → Nat → List (Flt K)
  fastLog10 : Flt K → Flt K

/-- Modelled from the spec: the JUCE class `AsyncUpdater`, a state machine with the two
    states Idle (`pending = false`) and Pending (`pending = true`). -/
structure AsyncUpdater where
  pending : Bool
  deriving DecidableEq, Repr

/-- Modelled from the spec: `AsyncUpdater::triggerAsyncUpdate`. If Idle, go to Pending
    (and schedule the deferred callback); if already Pending, do nothing. -/
def AsyncUpdater.triggerAsyncUpdate (u : AsyncUpdater) : AsyncUpdater :=
  if u.pending then u else { pending := true }

/-- The two kinds of warning. -/
inductive Warning where
  | clipping
  | oversaturation
  deriving DecidableEq, Repr

/-- A listener is known by its handle. -/
abbrev ClippingListener := Nat

/-- The fields of `AudioMonitor`. The arrays `peak` and `rms` are indexed by channel,
    `spectrum` by channel and then by bin. -/
structure AudioMonitor (K : Type) where
  sampleRate : Flt K
  spectrum : Nat → List (Flt K)
  peak : Nat → Flt K
  rms : Nat → Flt K
  asyncClippingWarning : AsyncUpdater
  asyncOversaturationWarning : AsyncUpdater
  clippingListeners : List ClippingListener

/-- One call of `triggerAsyncUpdate` made by the audio callback. -/
structure TriggerCall where
  channel : Nat
  kind : Warning
  deriving DecidableEq, Repr

section Callback

variable {K : Type} [LinearOrderedField K]

/-- `AudioMonitor::getPeak`. -/
def AudioMonitor.getPeak (m : AudioMonitor K) (channel : Nat) : Flt K := m.peak channel

/-- `AudioMonitor::getRootMeanSquare`. -/
def AudioMonitor.getRootMeanSquare (m : AudioMonitor K) (channel : Nat) : Flt K :=
  m.rms channel

/-- The block of a channel: the first `numSamples` values of its buffer, the values
    that the loop over `samplePosition` reads. The audio device hands over at least
    `numSamples` values for each of the `numOutputChannels` channels. -/
def blockOf (outputChannelData : List (List (Flt K))) (channel numSamples : Nat) :
    List (Flt K) :=
  (outputChannelData.getD channel []).take numSamples

/-- Body of the loop over the sample positions; the pair is
    `(pcmSquaresSum, pcmPeak)`. -/
def meterStep (acc : Flt K × Flt K) (pcmData : Flt K) : Flt K × Flt K :=
  (Flt.add acc.1 (Flt.mul pcmData pcmData), jmax acc.2 pcmData)

/-- The loop over the sample positions, started at `(0.f, 0.f)`. -/
def meterLoop (block : List (Flt K)) : Flt K × Flt K :=
  block.foldl meterStep (Flt.fin 0, Flt.fin 0)

/-- The value `sqrtf (pcmSquaresSum / numSamples)`. -/
def rootMeanSquareOf (env : Env K) (block : List (Flt K)) (numSamples : Nat) : Flt K :=
  Flt.sqrt env.sqrtf (Flt.div (meterLoop block).1 (Flt.ofNat numSamples))

/-- The test of the clipping warning. -/
def clipTest (env : Env K) (pcmPeak : Flt K) : Bool :=
  Flt.gt pcmPeak (Flt.fin env.clipThreshold)

/-- The test of the oversaturation warning; `&&` evaluates the quotient only when the
    first comparison holds. -/
def oversaturationTest (env : Env K) (pcmPeak rootMeanSquare : Flt K) : Bool :=
  Flt.gt pcmPeak (Flt.fin env.oversaturationThreshold) &&
    Flt.gt (Flt.div pcmPeak rootMeanSquare) (Flt.fin env.oversaturationRate)

/-- State threaded through the loops of the callback: the monitor and the calls of
    `triggerAsyncUpdate` made so far. -/
abbrev CallbackState (K : Type) := AudioMonitor K × List TriggerCall

/-- Body of the first loop over the channels: the spectrum of one channel. -/
def spectrumChannel (env : Env K) (outputChannelData : List (List (Flt K)))
    (numOutputChannels numSamples : Nat) (m : AudioMonitor K) (channel : Nat) :
    AudioMonitor K :=
  let row := env.computeSpectrum (outputChannelData.getD channel []) 0 numSamples
    (m.spectrum channel) env.spectrumSize channel numOutputChannels
  { m with spectrum := Function.update m.spectrum channel row }

/-- Body of the second loop over the channels: levels and warnings of one channel. -/
def meterChannel (env : Env K) (outputChannelData : List (List (Flt K)))
    (numSamples : Nat) (st : CallbackState K) (channel : Nat) : CallbackState K :=
  let block := blockOf outputChannelData channel numSamples
  let pcmPeak := (meterLoop block).2
  let rootMeanSquare := rootMeanSquareOf env block numSamples
  let m1 : AudioMonitor K :=
    { st.1 with rms := Function.update st.1.rms channel rootMeanSquare,
                peak := Function.update st.1.peak channel pcmPeak }
  let st2 : CallbackState K :=
    if clipTest env pcmPeak then
      ({ m1 with asyncClippingWarning := m1.asyncClippingWarning.triggerAsyncUpdate },
        st.2 ++ [{ channel := channel, kind := Warning.clipping }])
    else (m1, st.2)
  if oversaturationTest env pcmPeak rootMeanSquare then
    ({ st2.1 with asyncOversaturationWarning :=
          st2.1.asyncOversaturationWarning.triggerAsyncUpdate },
      st2.2 ++ [{ channel := channel, kind := Warning.oversaturation }])
  else st2

/-- The third loop: every output channel is cleared. -/
def clearChannels (outputChannelData : List (List (Flt K)))
    (numOutputChannels numSamples : Nat) : List (List (Flt K)) :=
  outputChannelData.mapIdx
    (fun i buf => if i < numOutputChannels then clear buf numSamples else buf)

/-- What a call of the audio callback leaves behind. -/
structure CallbackResult (K : Type) where
  monitor : AudioMonitor K
  outputChannelData : List (List (Flt K))
  triggers : List TriggerCall

/-- `AudioMonitor::audioDeviceIOCallback`. The input channels are not used. -/
def audioDeviceIOCallback (env : Env K) (m : AudioMonitor K)
    (outputChannelData : List (List (Flt K))) (numOutputChannels numSamples : Nat) :
    CallbackResult K :=
  let minNumChannels := jmin numChannels numOutputChannels
  let m1 := (List.range minNumChannels).foldl
    (spectrumChannel env outputChannelData numOutputChannels numSamples) m
  let st := (List.range minNumChannels).foldl
    (meterChannel env outputChannelData numSamples) (m1, [])
  { monitor := st.1,
    outputChannelData := clearChannels outputChannelData numOutputChannels numSamples,
    triggers := st.2 }

/-- The calls of `triggerAsyncUpdate` that the second loop makes for one channel. -/
def channelTriggers (env : Env K) (outputChannelData : List (List (Flt K)))
    (numSamples channel : Nat) : List TriggerCall :=
  let block := blockOf outputChannelData channel numSamples
  (if clipTest env (meterLoop block).2 then
      [{ channel := channel, kind := Warning.clipping }] else []) ++
  (if oversaturationTest env (meterLoop block).2 (rootMeanSquareOf env block numSamples) then
      [{ channel := channel, kind := Warning.oversaturation }] else [])

/-- Sum of the squares of a list of numbers. -/
def sumSquares (xs : List K) : K := (xs.map (fun x => x * x)).sum

end Callback

/-! ## Delivery of the warnings -/

/-- One call of a listener method: `onClippingWarning` or `onOversaturationWarning`
    of the listener `listener`. -/
structure Notification where
  listener : ClippingListener
  kind : Warning
  deriving DecidableEq, Repr

/-- Modelled from the spec: JUCE `ListenerList::call`, which calls the method on every
    registered listener, in registration order. -/
def listenerCall (listeners : List ClippingListener) (kind : Warning) : List Notification :=
  listeners.map (fun l => { listener := l, kind := kind })

section Dispatch

variable {K : Type}

/-- `AudioMonitor::getListeners`. -/
def AudioMonitor.getListeners (m : AudioMonitor K) : List ClippingListener :=
  m.clippingListeners

/-- `handleAsyncUpdate` of `ClippingWarningAsyncCallback` (for `Warning.clipping`) and of
    `OversaturationWarningAsyncCallback` (for `Warning.oversaturation`). -/
def handleAsyncUpdate (m : AudioMonitor K) (kind : Warning) : List Notification :=
  listenerCall m.getListeners kind

/-- The dispatcher of a kind of warning. -/
def AudioMonitor.updater (m : AudioMonitor K) : Warning → AsyncUpdater
  | Warning.clipping => m.asyncClippingWarning
  | Warning.oversaturation => m.asyncOversaturationWarning

/-- Replace the dispatcher of a kind of warning. -/
def AudioMonitor.setUpdater (m : AudioMonitor K) (kind : Warning) (u : AsyncUpdater) :
    AudioMonitor K :=
  match kind with
  | Warning.clipping => { m with asyncClippingWarning := u }
  | Warning.oversaturation => { m with asyncOversaturationWarning := u }

/-- A call of `triggerAsyncUpdate` on the dispatcher of a kind of warning. -/
def trigger (kind : Warning) (m : AudioMonitor K) : AudioMonitor K :=
  m.setUpdater kind (m.updater kind).triggerAsyncUpdate

/-- Modelled from the spec: one drain of the dispatcher of a kind of warning on the
    consumer thread. If Pending, go to Idle and run `handleAsyncUpdate`; if Idle, nothing
    is delivered. -/
def drain (kind : Warning) (m : AudioMonitor K) : AudioMonitor K × List Notification :=
  if (m.updater kind).pending then
    (m.setUpdater kind { pending := false }, handleAsyncUpdate m kind)
  else (m, [])

/-- Modelled from the spec: JUCE `ListenerList::add`. A listener that is not yet
    registered goes to the end of the registry; the registry holds a listener at most
    once. -/
def listenerAdd (listeners : List ClippingListener) (listener : ClippingListener) :
    List ClippingListener :=
  if listener ∈ listeners then listeners else listeners ++ [listener]

/-- Modelled from the spec: JUCE `ListenerList::remove`. The listener leaves the registry,
    the others keep their order. -/
def listenerRemove (listeners : List ClippingListener) (listener : ClippingListener) :
    List ClippingListener :=
  listeners.erase listener

/-- `AudioMonitor::addClippingListener`. -/
def AudioMonitor.addClippingListener (m : AudioMonitor K) (listener : ClippingListener) :
    AudioMonitor K :=
  { m with clippingListeners := listenerAdd m.clippingListeners listener }

/-- `AudioMonitor::removeClippingListener`. -/
def AudioMonitor.removeClippingListener (m : AudioMonitor K) (listener : ClippingListener) :
    AudioMonitor K :=
  { m with clippingListeners := listenerRemove m.clippingListeners listener }

end Dispatch

/-! ## Spectrum data -/

/-- What makes a query undefined: an overflow of `int`, an array index outside the array. -/
inductive Fault where
  | overflow
  | outOfBounds
  deriving DecidableEq, Repr

section Spectrum

variable {K : Type} [LinearOrderedField K] [FloorRing K]

/-- Rounding to the nearest integer, ties to the even one. -/
def roundHalfEven (x : K) : Int :=
  let fl := Int.floor x
  let d := x - (fl : K)
  if d < 1 / 2 then fl else if 1 / 2 < d then fl + 1 else if fl % 2 = 0 then fl else fl + 1

/-- The low 32 bits of the `double` nearest to `s`: a `double` has a significand of 53 bits
    at the exponent of `s` (at least -1022), rounded to nearest with ties to even, and its
    low 32 bits are the low word of the representation; beyond the range of `double` the
    value is an infinity, whose low word is 0. -/
def doubleLowWord (s : K) : Int :=
  let e := max (Int.log 2 |s|) (-1022)
  if 1024 ≤ e then 0 else roundHalfEven (|s| / 2 ^ (e - 52)) % 2 ^ 32

/-- A word of 32 bits read as an `int`. -/
def toInt32 (w : Int) : Int := if w < 2 ^ 31 then w else w - 2 ^ 32

/-- JUCE `roundToInt`, which is
    `n.asDouble = ((double) value) + 6755399441055744.0; return n.asInt[0];`: the low word
    of the sum of the value and `1.5 * 2^52`. For a value that rounds into the range of
    `int` this is the value rounded to the nearest integer, ties to the even one; for an
    infinity and for NaN the sum is the value itself and its low word is 0. -/
def roundToInt : Flt K → Int
  | Flt.fin x => toInt32 (doubleLowWord (x + 6755399441055744))
  | _ => 0

/-- The read `this->spectrum[channel][index].get()`. Modelled from the spec: a row of the
    array holds `spectrumSize` bins, so the row is the list `m.spectrum channel`. -/
def readSpectrum (m : AudioMonitor K) (channel : Nat) (index : Int) : Except Fault (Flt K) :=
  if index < 0 then Except.error Fault.outOfBounds
  else match (m.spectrum channel)[index.toNat]? with
    | some v => Except.ok v
    | none => Except.error Fault.outOfBounds

/-- The sum `index + 1` on `int`. -/
def succInt (index : Int) : Except Fault Int :=
  if index + 1 < 2 ^ 31 then Except.ok (index + 1) else Except.error Fault.overflow

/-- `AudioMonitor::getInterpolatedSpectrumAtFrequency`. -/
def getInterpolatedSpectrumAtFrequency (env : Env K) (m : AudioMonitor K)
    (frequency : Flt K) : Except Fault (Flt K) := do
  let resolution := Flt.div (Flt.div m.sampleRate (Flt.fin 2)) (Flt.ofNat env.spectrumSize)
  let index1 := roundToInt (Flt.div frequency resolution)
  let safeIndex1 := jlimit 0 env.spectrumSize index1
  let f1 := Flt.mul (Flt.ofInt index1) resolution
  let s01 ← readSpectrum m 0 safeIndex1
  let s11 ← readSpectrum m 1 safeIndex1
  let y1 := Flt.div (Flt.add s01 s11) (Flt.fin 2)
  let index2 ← succInt index1
  let safeIndex2 := jlimit 0 env.spectrumSize index2
  let f2 := Flt.mul (Flt.ofInt index2) resolution
  let s02 ← readSpectrum m 0 safeIndex2
  let s12 ← readSpectrum m 1 safeIndex2
  let y2 := Flt.div (Flt.add s02 s12) (Flt.fin 2)
  return Flt.add y1
    (Flt.mul
      (Flt.div (Flt.sub (env.fastLog10 frequency) (env.fastLog10 f1))
        (Flt.sub (env.fastLog10 f2) (env.fastLog10 f1)))
      (Flt.sub y2 y1))

end Spectrum

/-! ## The metering with the rounding of `float` -/

section FloatCallback

variable {K : Type} [LinearOrderedField K]

/-- Body of the loop over the sample positions, with the rounding `rnd` applied to the
    product `pcmData * pcmData` and to the sum; `jmax` does not round. -/
def meterStepWith (rnd : Flt K → Flt K) (acc : Flt K × Flt K) (pcmData : Flt K) :
    Flt K × Flt K :=
  (rnd (Flt.add acc.1 (rnd (Flt.mul pcmData pcmData))), jmax acc.2 pcmData)

/-- The loop over the sample positions, started at `(0.f, 0.f)`. -/
def meterLoopWith (rnd : Flt K → Flt K) (block : List (Flt K)) : Flt K × Flt K :=
  block.foldl (meterStepWith rnd) (Flt.fin 0, Flt.fin 0)

/-- The value `sqrtf (pcmSquaresSum / numSamples)`: the conversion of `numSamples` to
    `float`, the quotient and the square root are rounded. -/
def rootMeanSquareOfWith (rnd : Flt K → Flt K) (env : Env K) (block : List (Flt K))
    (numSamples : Nat) : Flt K :=
  rnd (Flt.sqrt env.sqrtf
    (rnd (Flt.div (meterLoopWith rnd block).1 (rnd (Flt.ofNat numSamples)))))

/-- The test of the oversaturation warning, with the quotient rounded. -/
def oversaturationTestWith (rnd : Flt K → Flt K) (env : Env K)
    (pcmPeak rootMeanSquare : Flt K) : Bool :=
  Flt.gt pcmPeak (Flt.fin env.oversaturationThreshold) &&
    Flt.gt (rnd (Flt.div pcmPeak rootMeanSquare)) (Flt.fin env.oversaturationRate)

/-- Body of the second loop over the channels, with the rounding `rnd`. -/
def meterChannelWith (rnd : Flt K → Flt K) (env : Env K)
    (outputChannelData : List (List (Flt K)))
    (numSamples : Nat) (st : CallbackState K) (channel : Nat) : CallbackState K :=
  let block := blockOf outputChannelData channel numSamples
  let pcmPeak := (meterLoopWith rnd block).2
  let rootMeanSquare := rootMeanSquareOfWith rnd env block numSamples
  let m1 : AudioMonitor K :=
    { st.1 with rms := Function.update st.1.rms channel rootMeanSquare,
                peak := Function.update st.1.peak channel pcmPeak }
  let st2 : CallbackState K :=
    if clipTest env pcmPeak then
      ({ m1 with asyncClippingWarning := m1.asyncClippingWarning.triggerAsyncUpdate },
        st.2 ++ [{ channel := channel, kind := Warning.clipping }])
    else (m1, st.2)
  if oversaturationTestWith rnd env pcmPeak rootMeanSquare then
    ({ st2.1 with asyncOversaturationWarning :=
          st2.1.asyncOversaturationWarning.triggerAsyncUpdate },
      st2.2 ++ [{ channel := channel, kind := Warning.oversaturation }])
  else st2

/-- `AudioMonitor::audioDeviceIOCallback`, with the rounding `rnd` applied to the result of
    every operation of `float` in the metering. -/
def audioDeviceIOCallbackWith (rnd : Flt K → Flt K) (env : Env K) (m : AudioMonitor K)
    (outputChannelData : List (List (Flt K))) (numOutputChannels numSamples : Nat) :
    CallbackResult K :=
  let minNumChannels := jmin numChannels numOutputChannels
  let m1 := (List.range minNumChannels).foldl
    (spectrumChannel env outputChannelData numOutputChannels numSamples) m
  let st := (List.range minNumChannels).foldl
    (meterChannelWith rnd env outputChannelData numSamples) (m1, [])
  { monitor := st.1,
    outputChannelData := clearChannels outputChannelData numOutputChannels numSamples,
    triggers := st.2 }

end FloatCallback

section FloatRounding

variable {K : Type} [LinearOrderedField K] [FloorRing K]

end FloatRounding

/-! ## Concrete data used by the examples -/

section Examples

variable (K : Type) [LinearOrderedField K]

/-- An environment with the square root `sq`: four bins, a transform that leaves the
    spectrum as it is and the identity in the place of the logarithm. -/
def envOf (sq : K → K) : Env K where
  clipThreshold := 1
  oversaturationThreshold := 1 / 2
  oversaturationRate := 4
  spectrumSize := 4
  sqrtf := sq
  computeSpectrum := fun _ _ _ row _ _ _ => row
  fastLog10 := fun x => x

/-- The environment `envOf` with the logarithm `Flt.log10 lg`. -/
def envLog (sq lg : K → K) : Env K :=
  { envOf K sq with fastLog10 := Flt.log10 lg }

/-- A monitor at the sample rate 8 whose level slots all hold `v`. -/
def monitorOf (v : K) : AudioMonitor K where
  sampleRate := Flt.fin 8
  spectrum := fun _ => [Flt.fin 1, Flt.fin 2, Flt.fin 3, Flt.fin 4]
  peak := fun _ => Flt.fin v
  rms := fun _ => Flt.fin v
  asyncClippingWarning := { pending := false }
  asyncOversaturationWarning := { pending := false }
  clippingListeners := [10, 11]

/-- A monitor without listeners whose two dispatchers are Pending. -/
def monitorPending : AudioMonitor K where
  sampleRate := Flt.fin 8
  spectrum := fun _ => [Flt.fin 1, Flt.fin 2, Flt.fin 3, Flt.fin 4]
  peak := fun _ => Flt.fin 0
  rms := fun _ => Flt.fin 0
  asyncClippingWarning := { pending := true }
  asyncOversaturationWarning := { pending := true }
  clippingListeners := []

end Examples

/-- The environment over the rationals; `Rat.sqrt` is exact on squares. -/
def envQ : Env ℚ := envOf ℚ Rat.sqrt

/-- The monitor over the rationals. -/
def monitorQ (v : ℚ) : AudioMonitor ℚ := monitorOf ℚ v

/-- An `AutomationEvent`: its identity, its beat and the layer it belongs to. The beat is
    an integer here; of the beats only the order is used. -/
structure AutomationEvent where
  id : Nat
  beat : Int
  layer : Nat
  deriving DecidableEq, Repr

/-- An `AutomationEventComponent` is known by its handle (the pointer). -/
abbrev EventComponent := Nat

/-- The fields of `AutomationTrackMap` and of its components: `nextNeighbour` is the link
    that `setNextNeighbour` sets (`none` is `nullptr`), `beat` is what `getBeat ()` of a
    component returns, the beat of the event it refers to, and `allocated` counts the
    components created so far, so that `new` yields the handle `allocated`. -/
structure AutomationTrackMap where
  layer : Nat
  eventComponents : List EventComponent
  eventsHash : List (AutomationEvent × EventComponent)
  nextNeighbour : EventComponent → Option EventComponent
  beat : EventComponent → Int
  allocated : Nat

/-- JUCE `isPositiveAndBelow (value, upper)`. -/
def isPositiveAndBelow (value upper : Int) : Bool := decide (0 ≤ value) && decide (value < upper)

/-- JUCE `findInsertIndexInSortedArray` for a sorted array: behind the elements that do
    not come after the new one. The comparator of the components, whose source is not at
    hand, is taken to order them by their beat. -/
def findInsertIndexInSortedArray (beat : EventComponent → Int) (array : List EventComponent)
    (newBeat : Int) : Nat :=
  (array.takeWhile (fun x => decide (beat x ≤ newBeat))).length

/-- JUCE `Array::insert`. -/
def insertAt (array : List EventComponent) (index : Nat) (element : EventComponent) :
    List EventComponent :=
  array.take index ++ element :: array.drop index

/-- JUCE `Array::indexOfSorted`: the index of the element, or -1. No two components compare
    as equal. -/
def indexOfSorted (array : List EventComponent) (element : EventComponent) : Int :=
  if element ∈ array then (array.indexOf element : Int) else -1

/-- Insertion of a component into a list sorted by beat. -/
def insertByBeat (beat : EventComponent → Int) (element : EventComponent) :
    List EventComponent → List EventComponent
  | [] => [element]
  | x :: rest =>
    if beat element < beat x then element :: x :: rest
    else x :: insertByBeat beat element rest

/-- JUCE `Array::sort`: the elements in the order of the comparator. -/
def sortByBeat (beat : EventComponent → Int) (array : List EventComponent) :
    List EventComponent :=
  array.foldr (insertByBeat beat) []

/-- JUCE `HashMap::remove`. -/
def hashRemove (hash : List (AutomationEvent × EventComponent)) (key : AutomationEvent) :
    List (AutomationEvent × EventComponent) :=
  hash.filter (fun entry => decide (entry.1 ≠ key))

/-- JUCE `HashMap::set`. -/
def hashSet (hash : List (AutomationEvent × EventComponent)) (key : AutomationEvent)
    (value : EventComponent) : List (AutomationEvent × EventComponent) :=
  (key, value) :: hashRemove hash key

namespace AutomationTrackMap

/-- `AutomationEventComponent::setNextNeighbour`. -/
def setNextNeighbour (tm : AutomationTrackMap) (component : EventComponent)
    (next : Option EventComponent) : AutomationTrackMap :=
  { tm with nextNeighbour := Function.update tm.nextNeighbour component next }

/-- `AutomationTrackMap::getPreviousEventComponent`. -/
def getPreviousEventComponent (tm : AutomationTrackMap) (indexOfSorted : Int) :
    Option EventComponent :=
  let indexOfPrevious := indexOfSorted - 1
  if isPositiveAndBelow indexOfPrevious tm.eventComponents.length then
    tm.eventComponents[indexOfPrevious.toNat]?
  else none

/-- `AutomationTrackMap::getNextEventComponent`. -/
def getNextEventComponent (tm : AutomationTrackMap) (indexOfSorted : Int) :
    Option EventComponent :=
  let indexOfNext := indexOfSorted + 1
  if isPositiveAndBelow indexOfNext tm.eventComponents.length then
    tm.eventComponents[indexOfNext.toNat]?
  else none

/-- What `onEventAdded` and the loop of `reloadTrack` both do for an event: create the
    component, add it to the sorted array, link it to its neighbours and enter it into
    the hash. -/
def addComponent (tm : AutomationTrackMap) (event : AutomationEvent) : AutomationTrackMap :=
  let component : EventComponent := tm.allocated
  let tm1 : AutomationTrackMap :=
    { tm with allocated := tm.allocated + 1,
              beat := Function.update tm.beat component event.beat }
  let indexOfSorted := findInsertIndexInSortedArray tm1.beat tm1.eventComponents event.beat
  let tm2 : AutomationTrackMap :=
    { tm1 with eventComponents := insertAt tm1.eventComponents indexOfSorted component }
  let previousEventComponent := tm2.getPreviousEventComponent indexOfSorted
  let nextEventComponent := tm2.getNextEventComponent indexOfSorted
  let tm3 := tm2.setNextNeighbour component nextEventComponent
  let tm4 :=
    match previousEventComponent with
    | some previous => tm3.setNextNeighbour previous (some component)
    | none => tm3
  { tm4 with eventsHash := hashSet tm4.eventsHash event component }

/-- `AutomationTrackMap::onEventAdded`. -/
def onEventAdded (tm : AutomationTrackMap) (event : AutomationEvent) : AutomationTrackMap :=
  if event.layer = tm.layer then tm.addComponent event else tm

/-- `AutomationTrackMap::onEventRemoved`. -/
def onEventRemoved (tm : AutomationTrackMap) (event : AutomationEvent) : AutomationTrackMap :=
  if event.layer = tm.layer then
    match tm.eventsHash.lookup event with
    | some component =>
      let tm1 : AutomationTrackMap := { tm with eventsHash := hashRemove tm.eventsHash event }
      let indexOfSorted := Helio.indexOfSorted tm1.eventComponents component
      let previousEventComponent := tm1.getPreviousEventComponent indexOfSorted
      let nextEventComponent := tm1.getNextEventComponent indexOfSorted
      let tm2 :=
        match previousEventComponent with
        | some previous => tm1.setNextNeighbour previous nextEventComponent
        | none => tm1
      { tm2 with eventComponents := tm2.eventComponents.erase component }
    | none => tm
  else tm

/-- `AutomationTrackMap::onEventChanged`. The component refers to the event of the layer,
    which has the new beat when the listener is called: `updateTempoComponent` places the
    component by its `getBeat ()`. -/
def onEventChanged (tm : AutomationTrackMap) (oldEvent newEvent : AutomationEvent) :
    AutomationTrackMap :=
  if newEvent.layer = tm.layer then
    match tm.eventsHash.lookup oldEvent with
    | some component =>
      let tm0 : AutomationTrackMap :=
        { tm with beat := Function.update tm.beat component newEvent.beat }
      let tm1 : AutomationTrackMap :=
        { tm0 with eventComponents := sortByBeat tm0.beat tm0.eventComponents }
      let indexOfSorted := Helio.indexOfSorted tm1.eventComponents component
      let previousEventComponent := tm1.getPreviousEventComponent indexOfSorted
      let nextEventComponent := tm1.getNextEventComponent indexOfSorted
      let tm2 := tm1.setNextNeighbour component nextEventComponent
      let tm3 :=
        match previousEventComponent with
        | some previous =>
          let tm21 := tm2.setNextNeighbour previous (some component)
          match tm21.getPreviousEventComponent (indexOfSorted - 1) with
          | some oneMorePrevious => tm21.setNextNeighbour oneMorePrevious (some previous)
          | none => tm21
        | none => tm2
      let tm4 :=
        match nextEventComponent with
        | some next => tm3.setNextNeighbour next (tm3.getNextEventComponent (indexOfSorted + 1))
        | none => tm3
      { tm4 with eventsHash := hashSet (hashRemove tm4.eventsHash oldEvent) newEvent component }
    | none => tm
  else tm

/-- `AutomationTrackMap::reloadTrack`, given the automation events of the layer in the
    order of the layer. -/
def reloadTrack (tm : AutomationTrackMap) (layerEvents : List AutomationEvent) :
    AutomationTrackMap :=
  let cleared : AutomationTrackMap := { tm with eventComponents := [], eventsHash := [] }
  layerEvents.foldl addComponent cleared

/-- The array is sorted by the comparator of the components. -/
def SortedByBeat (tm : AutomationTrackMap) : Prop :=
  tm.eventComponents.Pairwise (fun a b => tm.beat a ≤ tm.beat b)

/-- For every index `i` the next neighbour of `eventComponents[i]` is
    `eventComponents[i + 1]`, and `nullptr` for the last element. -/
def NeighbourLinked (tm : AutomationTrackMap) : Prop :=
  ∀ (i : Nat) (c : EventComponent), tm.eventComponents[i]? = some c →
    tm.nextNeighbour c = tm.eventComponents[i + 1]?

/-- A track map in the state its operations are written for: no component is twice in the
    array, the handles of the array are already allocated, the array is sorted and linked. -/
def WellFormed (tm : AutomationTrackMap) : Prop :=
  tm.eventComponents.Nodup ∧ (∀ c ∈ tm.eventComponents, c < tm.allocated) ∧
    tm.SortedByBeat ∧ tm.NeighbourLinked

end AutomationTrackMap

/-- What is used of `AutomationLayer`, whose source is not at hand: the number of events,
    the undo checkpoint, the undoable removal of an event, and whether an event is in the
    layer. -/
structure AutomationLayerOps (L : Type) where
  size : L → Nat
  checkpoint : L → L
  remove : L → AutomationEvent → L
  contains : L → AutomationEvent → Bool

/-- `AutomationTrackMap::removeEventIfPossible`, as a function of the layer `e.getLayer ()`
    of the event. -/
def removeEventIfPossible {L : Type} (ops : AutomationLayerOps L) (autoLayer : L)
    (e : AutomationEvent) : L :=
  if ops.size autoLayer > 1 then ops.remove (ops.checkpoint autoLayer) e else autoLayer

/-- A layer as the list of its events together with the number of checkpoints made. -/
structure ListLayer where
  events : List AutomationEvent
  checkpoints : Nat
  deriving DecidableEq, Repr

/-- The operations of a layer that is a list of events. -/
def listLayerOps : AutomationLayerOps ListLayer where
  size := fun l => l.events.length
  checkpoint := fun l => { l with checkpoints := l.checkpoints + 1 }
  remove := fun l e => { l with events := l.events.erase e }
  contains := fun l e => decide (e ∈ l.events)

/-- The empty track map on layer 0. -/
def emptyTrackMap : AutomationTrackMap where
  layer := 0
  eventComponents := []
  eventsHash := []
  nextNeighbour := fun _ => none
  beat := fun _ => 0
  allocated := 0

/-- The event with identity `id` at beat `beat` on layer 0. -/
def eventAt (id : Nat) (beat : Int) : AutomationEvent := { id := id, beat := beat, layer := 0 }

/-- The track map of a layer with four events at the beats 10, 20, 30 and 40. -/
def fourEvents : AutomationTrackMap :=
  emptyTrackMap.reloadTrack [eventAt 0 10, eventAt 1 20, eventAt 2 30, eventAt 3 40]

/-! ## The loop over the samples -/

section SampleLoop

variable {K : Type} [LinearOrderedField K]

theorem Flt.add_eq_fin {a b : Flt K} {s : K} (h : Flt.add a b = Flt.fin s) :
    ∃ x y, a = Flt.fin x ∧ b = Flt.fin y ∧ s = x + y := by
  cases a <;> cases b <;> simp [Flt.add] at h
  exact ⟨_, _, rfl, rfl, h.symm⟩

theorem Flt.mul_self_eq_fin {a : Flt K} {s : K} (h : Flt.mul a a = Flt.fin s) :
    ∃ x, a = Flt.fin x ∧ s = x * x := by
  cases a <;> simp [Flt.mul] at h
  exact ⟨_, rfl, h.symm⟩

theorem jmax_fin (p x : K) : jmax (Flt.fin p) (Flt.fin x) = Flt.fin (max p x) := by
  unfold jmax
  by_cases h : p < x
  · simp [Flt.lt, h, max_eq_right h.le]
  · simp [Flt.lt, h, max_eq_left (not_lt.mp h)]

theorem meterFold_fin (xs : List K) (s p : K) :
    (xs.map Flt.fin).foldl meterStep (Flt.fin s, Flt.fin p) =
      (Flt.fin (s + sumSquares xs), Flt.fin (xs.foldl max p)) := by
  induction xs generalizing s p with
  | nil => simp [sumSquares]
  | cons x xs ih =>
    simp only [List.map_cons, List.foldl_cons, meterStep, Flt.mul, Flt.add, jmax_fin]
    rw [ih]
    simp [sumSquares, add_assoc]

/-- On a block of ordinary numbers the loop yields the sum of the squares and the
    running maximum started at 0. -/
theorem meterLoop_fin (xs : List K) :
    meterLoop (xs.map Flt.fin) = (Flt.fin (sumSquares xs), Flt.fin (xs.foldl max 0)) := by
  unfold meterLoop
  rw [meterFold_fin]
  simp

/-- A sum of squares that is an ordinary number comes from ordinary numbers only:
    NaN and the infinities never leave the accumulator. -/
theorem meterFold_sum_fin (block : List (Flt K)) (a p : Flt K) (s : K)
    (h : (block.foldl meterStep (a, p)).1 = Flt.fin s) :
    (∃ a0, a = Flt.fin a0) ∧ ∃ xs : List K, block = xs.map Flt.fin := by
  induction block generalizing a p s with
  | nil => exact ⟨⟨s, h⟩, [], rfl⟩
  | cons b block ih =>
    rw [List.foldl_cons] at h
    obtain ⟨⟨a1, ha1⟩, xs, hxs⟩ := ih _ _ _ h
    obtain ⟨x, y, hx, hy, -⟩ := Flt.add_eq_fin ha1
    obtain ⟨z, hz, -⟩ := Flt.mul_self_eq_fin hy
    exact ⟨⟨x, hx⟩, z :: xs, by rw [hz, hxs]; rfl⟩

theorem meterLoop_sum_fin (block : List (Flt K)) (s : K)
    (h : (meterLoop block).1 = Flt.fin s) : ∃ xs : List K, block = xs.map Flt.fin :=
  (meterFold_sum_fin block _ _ s h).2

theorem foldl_max_ge (xs : List K) (p : K) : p ≤ xs.foldl max p := by
  induction xs generalizing p with
  | nil => simp
  | cons x xs ih => exact le_trans (le_max_left p x) (ih (max p x))

theorem foldl_max_mem_le (xs : List K) (p : K) : ∀ x ∈ xs, x ≤ xs.foldl max p := by
  induction xs generalizing p with
  | nil => simp
  | cons y xs ih =>
    intro x hx
    rcases List.mem_cons.mp hx with rfl | hx
    · exact le_trans (le_max_right p x) (foldl_max_ge xs (max p x))
    · exact ih (max p y) x hx

theorem foldl_max_mem (xs : List K) (p : K) : xs.foldl max p = p ∨ xs.foldl max p ∈ xs := by
  induction xs generalizing p with
  | nil => simp
  | cons y xs ih =>
    rcases ih (max p y) with h | h
    · rcases max_choice p y with hm | hm
      · left; rw [List.foldl_cons, h, hm]
      · right; rw [List.foldl_cons, h, hm]; exact List.mem_cons_self _ _
    · right; exact List.mem_cons_of_mem _ h

/-- The running maximum started at 0 is the larger of 0 and the maximum. -/
theorem foldl_max_zero (xs : List K) (M : K) (hM : M ∈ xs) (hmax : ∀ x ∈ xs, x ≤ M) :
    xs.foldl max 0 = max 0 M := by
  apply le_antisymm
  · rcases foldl_max_mem xs 0 with h | h
    · rw [h]; exact le_max_left _ _
    · exact le_trans (hmax _ h) (le_max_right _ _)
  · exact max_le (foldl_max_ge xs 0) (foldl_max_mem_le xs 0 M hM)

theorem sumSquares_nonneg (xs : List K) : 0 ≤ sumSquares xs := by
  unfold sumSquares
  apply List.sum_nonneg
  intro y hy
  obtain ⟨x, -, rfl⟩ := List.mem_map.mp hy
  exact mul_self_nonneg x

theorem sumSquares_eq_zero (xs : List K) (h : sumSquares xs = 0) : ∀ x ∈ xs, x = 0 := by
  induction xs with
  | nil => simp
  | cons y xs ih =>
    have hy : 0 ≤ y * y := mul_self_nonneg y
    have hs : 0 ≤ sumSquares xs := sumSquares_nonneg xs
    have hsum : y * y + sumSquares xs = 0 := by simpa [sumSquares] using h
    have h1 : y * y = 0 := by linarith
    have h2 : sumSquares xs = 0 := by linarith
    intro x hx
    rcases List.mem_cons.mp hx with rfl | hx
    · exact mul_self_eq_zero.mp h1
    · exact ih h2 x hx

theorem foldl_max_zeros (xs : List K) (h : ∀ x ∈ xs, x = 0) : xs.foldl max 0 = 0 := by
  rcases foldl_max_mem xs 0 with h0 | h0
  · exact h0
  · exact h _ h0

end SampleLoop

/-! ## The loops over the channels -/

section ChannelLoops

variable {K : Type} [LinearOrderedField K]

theorem meterChannel_peak (env : Env K) (out : List (List (Flt K))) (n : Nat)
    (st : CallbackState K) (c : Nat) :
    (meterChannel env out n st c).1.peak =
      Function.update st.1.peak c (meterLoop (blockOf out c n)).2 := by
  unfold meterChannel
  simp only
  split_ifs <;> rfl

theorem meterChannel_rms (env : Env K) (out : List (List (Flt K))) (n : Nat)
    (st : CallbackState K) (c : Nat) :
    (meterChannel env out n st c).1.rms =
      Function.update st.1.rms c (rootMeanSquareOf env (blockOf out c n) n) := by
  unfold meterChannel
  simp only
  split_ifs <;> rfl

theorem meterChannel_triggers (env : Env K) (out : List (List (Flt K))) (n : Nat)
    (st : CallbackState K) (c : Nat) :
    (meterChannel env out n st c).2 = st.2 ++ channelTriggers env out n c := by
  unfold meterChannel channelTriggers
  simp only
  split_ifs <;> simp

theorem meterFold_peak (env : Env K) (out : List (List (Flt K))) (n k : Nat)
    (st : CallbackState K) (c : Nat) :
    ((List.range k).foldl (meterChannel env out n) st).1.peak c =
      if c < k then (meterLoop (blockOf out c n)).2 else st.1.peak c := by
  induction k with
  | zero => simp
  | succ k ih =>
    rw [List.range_succ, List.foldl_append, List.foldl_cons, List.foldl_nil, meterChannel_peak]
    by_cases hc : c = k
    · subst hc; simp
    · rw [Function.update_noteq hc, ih]
      have : c < k + 1 ↔ c < k := by omega
      simp only [this]

theorem meterFold_rms (env : Env K) (out : List (List (Flt K))) (n k : Nat)
    (st : CallbackState K) (c : Nat) :
    ((List.range k).foldl (meterChannel env out n) st).1.rms c =
      if c < k then rootMeanSquareOf env (blockOf out c n) n else st.1.rms c := by
  induction k with
  | zero => simp
  | succ k ih =>
    rw [List.range_succ, List.foldl_append, List.foldl_cons, List.foldl_nil, meterChannel_rms]
    by_cases hc : c = k
    · subst hc; simp
    · rw [Function.update_noteq hc, ih]
      have : c < k + 1 ↔ c < k := by omega
      simp only [this]

theorem meterFold_triggers (env : Env K) (out : List (List (Flt K))) (n k : Nat)
    (st : CallbackState K) :
    ((List.range k).foldl (meterChannel env out n) st).2 =
      st.2 ++ (List.range k).flatMap (channelTriggers env out n) := by
  induction k with
  | zero => simp
  | succ k ih =>
    rw [List.range_succ, List.foldl_append, List.foldl_cons, List.foldl_nil,
      meterChannel_triggers, ih, List.flatMap_append]
    simp

theorem spectrumFold_peak (env : Env K) (out : List (List (Flt K))) (no n k : Nat)
    (m : AudioMonitor K) :
    ((List.range k).foldl (spectrumChannel env out no n) m).peak = m.peak ∧
    ((List.range k).foldl (spectrumChannel env out no n) m).rms = m.rms := by
  induction k with
  | zero => simp
  | succ k ih =>
    rw [List.range_succ, List.foldl_append, List.foldl_cons, List.foldl_nil]
    exact ih

/-- After the callback the peak slot of a monitored channel holds the running
    maximum of its block. -/
theorem getPeak_after (env : Env K) (m : AudioMonitor K) (out : List (List (Flt K)))
    (no n c : Nat) (hc : c < jmin numChannels no) :
    (audioDeviceIOCallback env m out no n).monitor.getPeak c =
      (meterLoop (blockOf out c n)).2 := by
  simp only [audioDeviceIOCallback, AudioMonitor.getPeak]
  rw [meterFold_peak, if_pos hc]

/-- After the callback the rms slot of a monitored channel holds the value
    `sqrtf (pcmSquaresSum / numSamples)` of its block. -/
theorem getRootMeanSquare_after (env : Env K) (m : AudioMonitor K)
    (out : List (List (Flt K))) (no n c : Nat) (hc : c < jmin numChannels no) :
    (audioDeviceIOCallback env m out no n).monitor.getRootMeanSquare c =
      rootMeanSquareOf env (blockOf out c n) n := by
  simp only [audioDeviceIOCallback, AudioMonitor.getRootMeanSquare]
  rw [meterFold_rms, if_pos hc]

/-- The calls of `triggerAsyncUpdate` of one callback, channel after channel. -/
theorem triggers_after (env : Env K) (m : AudioMonitor K) (out : List (List (Flt K)))
    (no n : Nat) :
    (audioDeviceIOCallback env m out no n).triggers =
      (List.range (jmin numChannels no)).flatMap (channelTriggers env out n) := by
  simp only [audioDeviceIOCallback]
  rw [meterFold_triggers]
  simp

end ChannelLoops


/-! ## Level meter -/

section LevelMeter

variable {K : Type} [LinearOrderedField K]

theorem channelTriggers_count_clipping (env : Env K) (out : List (List (Flt K)))
    (n d c : Nat) :
    (channelTriggers env out n d).count { channel := c, kind := Warning.clipping } =
      if d = c ∧ clipTest env (meterLoop (blockOf out d n)).2 = true then 1 else 0 := by
  unfold channelTriggers
  by_cases hd : d = c
  · subst hd
    by_cases h1 : clipTest env (meterLoop (blockOf out d n)).2 = true <;>
    by_cases h2 : oversaturationTest env (meterLoop (blockOf out d n)).2
        (rootMeanSquareOf env (blockOf out d n) n) = true <;>
    simp [h1, h2, List.count_cons]
  · by_cases h1 : clipTest env (meterLoop (blockOf out d n)).2 = true <;>
    by_cases h2 : oversaturationTest env (meterLoop (blockOf out d n)).2
        (rootMeanSquareOf env (blockOf out d n) n) = true <;>
    simp [h1, h2, hd, List.count_cons]

theorem rangeTriggers_count_clipping (env : Env K) (out : List (List (Flt K)))
    (n k c : Nat) :
    ((List.range k).flatMap (channelTriggers env out n)).count
        { channel := c, kind := Warning.clipping } =
      if c < k ∧ clipTest env (meterLoop (blockOf out c n)).2 = true then 1 else 0 := by
  induction k with
  | zero => simp
  | succ k ih =>
    rw [List.range_succ, List.flatMap_append, List.count_append, ih]
    simp only [List.flatMap_cons, List.flatMap_nil, List.append_nil,
      channelTriggers_count_clipping]
    by_cases hk : k = c
    · subst hk; simp
    · have h1 : c < k + 1 ↔ c < k := by omega
      simp [hk, h1]

/-- C1, counterexample: on the one-sample block `[-1]` the maximum sample is `-1`, yet the
    peak stored for channel 0 is not that maximum. -/
theorem peak_signed_max_fails :
    ¬ ∃ M : ℚ, M ∈ [(-1 : ℚ)] ∧ (∀ x ∈ [(-1 : ℚ)], x ≤ M) ∧
      (audioDeviceIOCallback envQ (monitorQ 7) [[Flt.fin (-1)]] 1 1).monitor.getPeak 0 =
        Flt.fin M := by
  rintro ⟨M, hM, -, h⟩
  rw [getPeak_after _ _ _ _ _ _ (by decide)] at h
  have hb : blockOf [[(Flt.fin (-1) : Flt ℚ)]] 0 1 = [(-1 : ℚ)].map Flt.fin := rfl
  rw [hb, meterLoop_fin] at h
  simp at hM
  subst hM
  simp at h

/-- C1, amended: for a monitored channel whose block consists of ordinary numbers with
    maximum `M`, the peak returned by `getPeak` after the callback is `max 0 M`: the
    signed maximum when it is positive and 0 otherwise. -/
theorem peak_eq_max_zero_sample (env : Env K) (m : AudioMonitor K)
    (out : List (List (Flt K))) (no n c : Nat) (xs : List K) (M : K)
    (hc : c < jmin numChannels no) (hblock : blockOf out c n = xs.map Flt.fin)
    (hM : M ∈ xs) (hmax : ∀ x ∈ xs, x ≤ M) :
    (audioDeviceIOCallback env m out no n).monitor.getPeak c = Flt.fin (max 0 M) := by
  rw [getPeak_after _ _ _ _ _ _ hc, hblock, meterLoop_fin, foldl_max_zero xs M hM hmax]

/-- C1, amended, at the block `[-1]`. -/
theorem peak_eq_max_zero_sample_witness :
    0 < jmin numChannels 1 ∧
    blockOf [[(Flt.fin (-1) : Flt ℚ)]] 0 1 = [(-1 : ℚ)].map Flt.fin ∧
    (-1 : ℚ) ∈ [(-1 : ℚ)] ∧ (∀ x ∈ [(-1 : ℚ)], x ≤ -1) ∧
    (audioDeviceIOCallback envQ (monitorQ 7) [[Flt.fin (-1)]] 1 1).monitor.getPeak 0 =
      Flt.fin (max 0 (-1)) :=
  ⟨by decide, rfl, by simp, by simp,
    peak_eq_max_zero_sample envQ (monitorQ 7) [[Flt.fin (-1)]] 1 1 0 [-1] (-1)
      (by decide) rfl (by simp) (by simp)⟩

/-- C2: for a non-empty block of ordinary numbers on a monitored channel, and an exact
    square root, `getRootMeanSquare` returns after the callback a number `r` with
    `0 ≤ r` and `r ^ 2 = (sum of the squares) / numSamples`. -/
theorem rms_is_root_mean_square (env : Env K) (m : AudioMonitor K)
    (out : List (List (Flt K))) (no n c : Nat) (xs : List K)
    (hn : 1 ≤ n) (hc : c < jmin numChannels no)
    (hblock : blockOf out c n = xs.map Flt.fin)
    (hsqrt : ∀ x : K, 0 ≤ x → 0 ≤ env.sqrtf x ∧ env.sqrtf x * env.sqrtf x = x) :
    ∃ r : K, (audioDeviceIOCallback env m out no n).monitor.getRootMeanSquare c = Flt.fin r ∧
      0 ≤ r ∧ r ^ 2 = sumSquares xs / (n : K) := by
  have hn0 : (n : K) ≠ 0 := by
    have : (0 : K) < n := by exact_mod_cast hn
    exact ne_of_gt this
  have hq : 0 ≤ sumSquares xs / (n : K) :=
    div_nonneg (sumSquares_nonneg xs) (Nat.cast_nonneg n)
  refine ⟨env.sqrtf (sumSquares xs / (n : K)), ?_, (hsqrt _ hq).1, ?_⟩
  · rw [getRootMeanSquare_after _ _ _ _ _ _ hc, hblock]
    unfold rootMeanSquareOf
    rw [meterLoop_fin]
    simp [Flt.div, Flt.ofNat, hn0, Flt.sqrt, not_lt.mpr hq]
  · rw [pow_two]; exact (hsqrt _ hq).2

/-- C2 at the block `[3, 4]` over the real numbers. -/
theorem rms_is_root_mean_square_witness :
    1 ≤ 2 ∧ 0 < jmin numChannels 1 ∧
    blockOf [[(Flt.fin 3 : Flt ℝ), Flt.fin 4]] 0 2 = [(3 : ℝ), 4].map Flt.fin ∧
    (∀ x : ℝ, 0 ≤ x → 0 ≤ (envOf ℝ Real.sqrt).sqrtf x ∧
      (envOf ℝ Real.sqrt).sqrtf x * (envOf ℝ Real.sqrt).sqrtf x = x) ∧
    ∃ r : ℝ, (audioDeviceIOCallback (envOf ℝ Real.sqrt) (monitorOf ℝ 7)
        [[Flt.fin 3, Flt.fin 4]] 1 2).monitor.getRootMeanSquare 0 = Flt.fin r ∧
      0 ≤ r ∧ r ^ 2 = sumSquares [(3 : ℝ), 4] / ((2 : ℕ) : ℝ) :=
  ⟨by decide, by decide, rfl, fun x hx => ⟨Real.sqrt_nonneg x, Real.mul_self_sqrt hx⟩,
    rms_is_root_mean_square (envOf ℝ Real.sqrt) (monitorOf ℝ 7) [[Flt.fin 3, Flt.fin 4]]
      1 2 0 [3, 4] (by decide) (by decide) rfl
      (fun x hx => ⟨Real.sqrt_nonneg x, Real.mul_self_sqrt hx⟩)⟩

/-- C3, counterexample: a call with `numSamples == 0` on a monitor whose rms slot holds 7
    leaves NaN in the slot, which is neither 0 nor the value from before. -/
theorem empty_block_rms_is_nan :
    (audioDeviceIOCallback envQ (monitorQ 7) [[Flt.fin 1]] 1 0).monitor.getRootMeanSquare 0 =
      Flt.nan ∧
    ¬ ((audioDeviceIOCallback envQ (monitorQ 7) [[Flt.fin 1]] 1 0).monitor.getRootMeanSquare 0 =
        Flt.fin 0 ∨
      (audioDeviceIOCallback envQ (monitorQ 7) [[Flt.fin 1]] 1 0).monitor.getRootMeanSquare 0 =
        (monitorQ 7).getRootMeanSquare 0) := by
  have h : (audioDeviceIOCallback envQ (monitorQ 7) [[Flt.fin 1]] 1 0).monitor.getRootMeanSquare 0
      = Flt.nan := by
    rw [getRootMeanSquare_after _ _ _ _ _ _ (by decide)]
    simp [rootMeanSquareOf, blockOf, meterLoop, Flt.div, Flt.ofNat, Flt.sqrt]
  rw [h]
  simp [AudioMonitor.getRootMeanSquare, monitorQ, monitorOf]

/-- C3, amended: after a call with `numSamples == 0` every monitored channel has the
    peak 0 and the rms NaN, the value of `sqrtf (0.f / 0)`. -/
theorem empty_block_levels (env : Env K) (m : AudioMonitor K)
    (out : List (List (Flt K))) (no c : Nat) (hc : c < jmin numChannels no) :
    (audioDeviceIOCallback env m out no 0).monitor.getPeak c = Flt.fin 0 ∧
    (audioDeviceIOCallback env m out no 0).monitor.getRootMeanSquare c = Flt.nan := by
  rw [getPeak_after _ _ _ _ _ _ hc, getRootMeanSquare_after _ _ _ _ _ _ hc]
  simp [rootMeanSquareOf, blockOf, meterLoop, Flt.div, Flt.ofNat, Flt.sqrt]

/-- C3, amended, at a call with two channels. -/
theorem empty_block_levels_witness :
    1 < jmin numChannels 2 ∧
    (audioDeviceIOCallback envQ (monitorQ 7) [[Flt.fin 1], [Flt.fin 2]] 2 0).monitor.getPeak 1 =
      Flt.fin 0 ∧
    (audioDeviceIOCallback envQ (monitorQ 7)
      [[Flt.fin 1], [Flt.fin 2]] 2 0).monitor.getRootMeanSquare 1 = Flt.nan :=
  ⟨by decide, empty_block_levels envQ (monitorQ 7) [[Flt.fin 1], [Flt.fin 2]] 2 1 (by decide)⟩

/-- C4: in one callback the number of clipping triggers made for channel `c` is 1 when
    `c` is monitored and its computed peak is strictly greater than `clipThreshold`, and
    0 otherwise; a peak equal to the threshold and a channel of index 2 or more give 0. -/
theorem clipping_trigger_iff (env : Env K) (m : AudioMonitor K)
    (out : List (List (Flt K))) (no n c : Nat) :
    ((audioDeviceIOCallback env m out no n).triggers.count
        { channel := c, kind := Warning.clipping } =
      if c < jmin numChannels no ∧
          Flt.gt ((audioDeviceIOCallback env m out no n).monitor.getPeak c)
            (Flt.fin env.clipThreshold) = true
        then 1 else 0) ∧
    ((audioDeviceIOCallback env m out no n).monitor.getPeak c = Flt.fin env.clipThreshold →
      (audioDeviceIOCallback env m out no n).triggers.count
        { channel := c, kind := Warning.clipping } = 0) ∧
    (2 ≤ c → (audioDeviceIOCallback env m out no n).triggers.count
        { channel := c, kind := Warning.clipping } = 0) := by
  have key : (audioDeviceIOCallback env m out no n).triggers.count
        { channel := c, kind := Warning.clipping } =
      if c < jmin numChannels no ∧
          Flt.gt ((audioDeviceIOCallback env m out no n).monitor.getPeak c)
            (Flt.fin env.clipThreshold) = true
        then 1 else 0 := by
    rw [triggers_after, rangeTriggers_count_clipping]
    by_cases hc : c < jmin numChannels no
    · rw [getPeak_after _ _ _ _ _ _ hc]; rfl
    · simp [hc]
  refine ⟨key, ?_, ?_⟩
  · intro hp
    rw [key, hp]
    simp [Flt.gt, Flt.lt]
  · intro h2
    rw [key]
    have : ¬ c < jmin numChannels no := by
      unfold jmin numChannels
      split_ifs <;> omega
    simp [this]

end LevelMeter

/-! ## Threshold detector -/

section Thresholds

variable {K : Type} [LinearOrderedField K]

theorem channelTriggers_count_oversaturation (env : Env K) (out : List (List (Flt K)))
    (n d c : Nat) :
    (channelTriggers env out n d).count { channel := c, kind := Warning.oversaturation } =
      if d = c ∧ oversaturationTest env (meterLoop (blockOf out d n)).2
          (rootMeanSquareOf env (blockOf out d n) n) = true then 1 else 0 := by
  unfold channelTriggers
  by_cases hd : d = c
  · subst hd
    by_cases h1 : clipTest env (meterLoop (blockOf out d n)).2 = true <;>
    by_cases h2 : oversaturationTest env (meterLoop (blockOf out d n)).2
        (rootMeanSquareOf env (blockOf out d n) n) = true <;>
    simp [h1, h2, List.count_cons]
  · by_cases h1 : clipTest env (meterLoop (blockOf out d n)).2 = true <;>
    by_cases h2 : oversaturationTest env (meterLoop (blockOf out d n)).2
        (rootMeanSquareOf env (blockOf out d n) n) = true <;>
    simp [h1, h2, hd, List.count_cons]

theorem rangeTriggers_count_oversaturation (env : Env K) (out : List (List (Flt K)))
    (n k c : Nat) :
    ((List.range k).flatMap (channelTriggers env out n)).count
        { channel := c, kind := Warning.oversaturation } =
      if c < k ∧ oversaturationTest env (meterLoop (blockOf out c n)).2
          (rootMeanSquareOf env (blockOf out c n) n) = true then 1 else 0 := by
  induction k with
  | zero => simp
  | succ k ih =>
    rw [List.range_succ, List.flatMap_append, List.count_append, ih]
    simp only [List.flatMap_cons, List.flatMap_nil, List.append_nil,
      channelTriggers_count_oversaturation]
    by_cases hk : k = c
    · subst hk; simp
    · have h1 : c < k + 1 ↔ c < k := by omega
      simp [hk, h1]

/-- The oversaturation triggers of one callback, counted for a monitored channel by the
    test on the levels stored for that channel. -/
theorem oversaturation_count_after (env : Env K) (m : AudioMonitor K)
    (out : List (List (Flt K))) (no n c : Nat) (hc : c < jmin numChannels no) :
    (audioDeviceIOCallback env m out no n).triggers.count
        { channel := c, kind := Warning.oversaturation } =
      if oversaturationTest env ((audioDeviceIOCallback env m out no n).monitor.getPeak c)
          ((audioDeviceIOCallback env m out no n).monitor.getRootMeanSquare c) = true
        then 1 else 0 := by
  rw [triggers_after, rangeTriggers_count_oversaturation, getPeak_after _ _ _ _ _ _ hc,
    getRootMeanSquare_after _ _ _ _ _ _ hc]
  simp [hc]

/-- C5: for a monitored channel whose stored peak `p` and stored rms `r` are ordinary
    numbers with `r > 0` (which needs `numSamples >= 1`), the callback triggers the
    oversaturation dispatcher for that channel, and then exactly once, if and only if
    `p > oversaturationThreshold` and `p / r > oversaturationRate`. -/
theorem oversaturation_trigger_iff (env : Env K) (m : AudioMonitor K)
    (out : List (List (Flt K))) (no n c : Nat) (p r : K)
    (hc : c < jmin numChannels no)
    (hp : (audioDeviceIOCallback env m out no n).monitor.getPeak c = Flt.fin p)
    (hr : (audioDeviceIOCallback env m out no n).monitor.getRootMeanSquare c = Flt.fin r)
    (hr0 : 0 < r) :
    (({ channel := c, kind := Warning.oversaturation } : TriggerCall) ∈
        (audioDeviceIOCallback env m out no n).triggers ↔
      env.oversaturationThreshold < p ∧ env.oversaturationRate < p / r) ∧
    (audioDeviceIOCallback env m out no n).triggers.count
        { channel := c, kind := Warning.oversaturation } =
      if env.oversaturationThreshold < p ∧ env.oversaturationRate < p / r then 1 else 0 := by
  have hcount := oversaturation_count_after env m out no n c hc
  rw [hp, hr] at hcount
  have htest : oversaturationTest env (Flt.fin p) (Flt.fin r) = true ↔
      env.oversaturationThreshold < p ∧ env.oversaturationRate < p / r := by
    simp [oversaturationTest, Flt.gt, Flt.lt, Flt.div, ne_of_gt hr0]
  simp only [htest] at hcount
  refine ⟨?_, hcount⟩
  rw [← List.count_pos_iff, hcount]
  split_ifs with h <;> simp [h]

/-- In exact arithmetic an rms of 0 is only computed from a block of zeros: when the rms
    computed for a monitored channel is 0 and the oversaturation threshold is not negative,
    the peak is 0, the first comparison of the oversaturation test is false, the quotient
    `peak / rms` is not evaluated and no oversaturation trigger is made for the channel.
    With the rounding of `float` a block of tiny samples has the rms 0 as well. -/
theorem zero_rms_no_oversaturation (env : Env K) (m : AudioMonitor K)
    (out : List (List (Flt K))) (no n c : Nat)
    (hc : c < jmin numChannels no)
    (hthr : 0 ≤ env.oversaturationThreshold)
    (hsqrt : ∀ x : K, 0 ≤ x → env.sqrtf x = 0 → x = 0)
    (hr : (audioDeviceIOCallback env m out no n).monitor.getRootMeanSquare c = Flt.fin 0) :
    Flt.gt ((audioDeviceIOCallback env m out no n).monitor.getPeak c)
        (Flt.fin env.oversaturationThreshold) = false ∧
    ({ channel := c, kind := Warning.oversaturation } : TriggerCall) ∉
        (audioDeviceIOCallback env m out no n).triggers := by
  have hpeak : (audioDeviceIOCallback env m out no n).monitor.getPeak c = Flt.fin 0 := by
    rw [getRootMeanSquare_after _ _ _ _ _ _ hc] at hr
    rw [getPeak_after _ _ _ _ _ _ hc]
    unfold rootMeanSquareOf at hr
    cases hsum : (meterLoop (blockOf out c n)).1 with
    | nan => simp [hsum, Flt.div, Flt.ofNat, Flt.sqrt] at hr
    | negInf => simp [hsum, Flt.div, Flt.ofNat, Flt.sqrt] at hr
    | posInf => simp [hsum, Flt.div, Flt.ofNat, Flt.sqrt] at hr
    | fin s =>
      obtain ⟨xs, hxs⟩ := meterLoop_sum_fin _ s hsum
      rw [hxs, meterLoop_fin] at hsum hr ⊢
      by_cases hn : (n : K) = 0
      · by_cases hs : sumSquares xs = 0
        · simp [Flt.div, Flt.ofNat, Flt.sqrt, hn, hs] at hr
        · have hpos : 0 < sumSquares xs := lt_of_le_of_ne (sumSquares_nonneg xs) (Ne.symm hs)
          simp [Flt.div, Flt.ofNat, Flt.sqrt, hn, hs, hpos] at hr
      · have hq : 0 ≤ sumSquares xs / (n : K) :=
          div_nonneg (sumSquares_nonneg xs) (Nat.cast_nonneg n)
        simp only [Flt.div, Flt.ofNat, Flt.sqrt, hn, not_lt.mpr hq, if_false,
          Flt.fin.injEq] at hr
        have h0 : sumSquares xs / (n : K) = 0 := hsqrt _ hq hr
        have hs : sumSquares xs = 0 := by
          rcases div_eq_zero_iff.mp h0 with h | h
          · exact h
          · exact absurd h hn
        simp only
        rw [foldl_max_zeros xs (sumSquares_eq_zero xs hs)]
  have hgt : Flt.gt ((audioDeviceIOCallback env m out no n).monitor.getPeak c)
      (Flt.fin env.oversaturationThreshold) = false := by
    rw [hpeak]
    simp [Flt.gt, Flt.lt, hthr]
  refine ⟨hgt, ?_⟩
  rw [← List.count_pos_iff, oversaturation_count_after env m out no n c hc]
  simp [oversaturationTest, hgt]

/-- A one-sample block `[1]` over the rationals stores the peak 1. -/
theorem unit_block_peak :
    (audioDeviceIOCallback envQ (monitorQ 7) [[Flt.fin 1]] 1 1).monitor.getPeak 0 =
      Flt.fin 1 := by
  rw [getPeak_after _ _ _ _ _ _ (by decide)]
  simp [blockOf, meterLoop, meterStep, jmax, Flt.lt]

/-- A one-sample block `[1]` over the rationals stores the rms 1. -/
theorem unit_block_rms :
    (audioDeviceIOCallback envQ (monitorQ 7) [[Flt.fin 1]] 1 1).monitor.getRootMeanSquare 0 =
      Flt.fin 1 := by
  rw [getRootMeanSquare_after _ _ _ _ _ _ (by decide)]
  simp [rootMeanSquareOf, blockOf, meterLoop, meterStep, Flt.add, Flt.mul, Flt.div,
    Flt.ofNat, Flt.sqrt, envQ, envOf]

/-- C5 at the block `[1]`: peak 1 and rms 1. -/
theorem oversaturation_trigger_iff_witness :
    0 < jmin numChannels 1 ∧
    (audioDeviceIOCallback envQ (monitorQ 7) [[Flt.fin 1]] 1 1).monitor.getPeak 0 =
      Flt.fin 1 ∧
    (audioDeviceIOCallback envQ (monitorQ 7) [[Flt.fin 1]] 1 1).monitor.getRootMeanSquare 0 =
      Flt.fin 1 ∧
    (0 : ℚ) < 1 ∧
    ((({ channel := 0, kind := Warning.oversaturation } : TriggerCall) ∈
        (audioDeviceIOCallback envQ (monitorQ 7) [[Flt.fin 1]] 1 1).triggers ↔
      envQ.oversaturationThreshold < 1 ∧ envQ.oversaturationRate < (1 : ℚ) / 1) ∧
    (audioDeviceIOCallback envQ (monitorQ 7) [[Flt.fin 1]] 1 1).triggers.count
        { channel := 0, kind := Warning.oversaturation } =
      if envQ.oversaturationThreshold < 1 ∧ envQ.oversaturationRate < (1 : ℚ) / 1
        then 1 else 0) :=
  ⟨by decide, unit_block_peak, unit_block_rms, by norm_num,
    oversaturation_trigger_iff envQ (monitorQ 7) [[Flt.fin 1]] 1 1 0 1 1 (by decide)
      unit_block_peak unit_block_rms (by norm_num)⟩

/-- A one-sample block `[0]` over the reals stores the rms 0. -/
theorem zero_block_rms :
    (audioDeviceIOCallback (envOf ℝ Real.sqrt) (monitorOf ℝ 7)
      [[Flt.fin 0]] 1 1).monitor.getRootMeanSquare 0 = Flt.fin 0 := by
  rw [getRootMeanSquare_after _ _ _ _ _ _ (by decide)]
  simp [rootMeanSquareOf, blockOf, meterLoop, meterStep, Flt.add, Flt.mul, Flt.div,
    Flt.ofNat, Flt.sqrt, envOf]

/-- The block `[0]` over the real numbers in exact arithmetic. -/
theorem zero_rms_no_oversaturation_witness :
    0 < jmin numChannels 1 ∧
    0 ≤ (envOf ℝ Real.sqrt).oversaturationThreshold ∧
    (∀ x : ℝ, 0 ≤ x → (envOf ℝ Real.sqrt).sqrtf x = 0 → x = 0) ∧
    (audioDeviceIOCallback (envOf ℝ Real.sqrt) (monitorOf ℝ 7)
      [[Flt.fin 0]] 1 1).monitor.getRootMeanSquare 0 = Flt.fin 0 ∧
    (Flt.gt ((audioDeviceIOCallback (envOf ℝ Real.sqrt) (monitorOf ℝ 7)
        [[Flt.fin 0]] 1 1).monitor.getPeak 0)
        (Flt.fin (envOf ℝ Real.sqrt).oversaturationThreshold) = false ∧
    ({ channel := 0, kind := Warning.oversaturation } : TriggerCall) ∉
        (audioDeviceIOCallback (envOf ℝ Real.sqrt) (monitorOf ℝ 7)
          [[Flt.fin 0]] 1 1).triggers) :=
  ⟨by decide, by simp [envOf], fun x hx h => (Real.sqrt_eq_zero hx).mp h, zero_block_rms,
    zero_rms_no_oversaturation (envOf ℝ Real.sqrt) (monitorOf ℝ 7) [[Flt.fin 0]] 1 1 0
      (by decide) (by simp [envOf]) (fun x hx h => (Real.sqrt_eq_zero hx).mp h)
      zero_block_rms⟩

/-- C7: when the block is non-empty and every sample of every monitored channel is 0,
    and neither threshold is negative, the callback stores the peak 0 and the rms 0 for
    each monitored channel and triggers neither dispatcher. -/
theorem silent_block (env : Env K) (m : AudioMonitor K)
    (out : List (List (Flt K))) (no n : Nat)
    (hn : 1 ≤ n)
    (hzero : ∀ c, c < jmin numChannels no → ∀ x ∈ blockOf out c n, x = Flt.fin 0)
    (hsqrt : env.sqrtf 0 = 0)
    (hclip : 0 ≤ env.clipThreshold) (hover : 0 ≤ env.oversaturationThreshold) :
    (∀ c, c < jmin numChannels no →
      (audioDeviceIOCallback env m out no n).monitor.getPeak c = Flt.fin 0 ∧
      (audioDeviceIOCallback env m out no n).monitor.getRootMeanSquare c = Flt.fin 0) ∧
    (audioDeviceIOCallback env m out no n).triggers = [] := by
  have hn0 : (n : K) ≠ 0 := by
    have : (0 : K) < n := by exact_mod_cast hn
    exact ne_of_gt this
  have hloop : ∀ c, c < jmin numChannels no →
      meterLoop (blockOf out c n) = (Flt.fin 0, Flt.fin 0) := by
    intro c hc
    have hb : blockOf out c n =
        (List.replicate (blockOf out c n).length (0 : K)).map Flt.fin := by
      rw [List.map_replicate]
      exact List.eq_replicate_iff.mpr ⟨rfl, hzero c hc⟩
    rw [hb, meterLoop_fin]
    have h1 : sumSquares (List.replicate (blockOf out c n).length (0 : K)) = 0 := by
      simp [sumSquares]
    have h2 : (List.replicate (blockOf out c n).length (0 : K)).foldl max 0 = 0 :=
      foldl_max_zeros _ (fun x hx => (List.mem_replicate.mp hx).2)
    rw [h1, h2]
  have hrms : ∀ c, c < jmin numChannels no →
      rootMeanSquareOf env (blockOf out c n) n = Flt.fin 0 := by
    intro c hc
    unfold rootMeanSquareOf
    rw [hloop c hc]
    simp [Flt.div, Flt.ofNat, Flt.sqrt, hn0, hsqrt]
  refine ⟨fun c hc => ⟨?_, ?_⟩, ?_⟩
  · rw [getPeak_after _ _ _ _ _ _ hc, hloop c hc]
  · rw [getRootMeanSquare_after _ _ _ _ _ _ hc, hrms c hc]
  · rw [triggers_after, List.flatMap_eq_nil_iff]
    intro c hc
    have hc2 : c < jmin numChannels no := List.mem_range.mp hc
    unfold channelTriggers
    simp [hloop c hc2, clipTest, oversaturationTest, Flt.gt, Flt.lt, hclip, hover]

/-- C7 at a two-channel block of two zero samples each. -/
theorem silent_block_witness :
    1 ≤ 2 ∧
    (∀ c, c < jmin numChannels 2 →
      ∀ x ∈ blockOf [[(Flt.fin 0 : Flt ℚ), Flt.fin 0], [Flt.fin 0, Flt.fin 0]] c 2,
        x = Flt.fin 0) ∧
    envQ.sqrtf 0 = 0 ∧ 0 ≤ envQ.clipThreshold ∧ 0 ≤ envQ.oversaturationThreshold ∧
    ((∀ c, c < jmin numChannels 2 →
      (audioDeviceIOCallback envQ (monitorQ 7)
        [[Flt.fin 0, Flt.fin 0], [Flt.fin 0, Flt.fin 0]] 2 2).monitor.getPeak c = Flt.fin 0 ∧
      (audioDeviceIOCallback envQ (monitorQ 7)
        [[Flt.fin 0, Flt.fin 0], [Flt.fin 0, Flt.fin 0]] 2 2).monitor.getRootMeanSquare c =
          Flt.fin 0) ∧
    (audioDeviceIOCallback envQ (monitorQ 7)
      [[Flt.fin 0, Flt.fin 0], [Flt.fin 0, Flt.fin 0]] 2 2).triggers = []) := by
  have hz : ∀ c, c < jmin numChannels 2 →
      ∀ x ∈ blockOf [[(Flt.fin 0 : Flt ℚ), Flt.fin 0], [Flt.fin 0, Flt.fin 0]] c 2,
        x = Flt.fin 0 := by
    intro c hc x hx
    have hc2 : c < 2 := hc
    interval_cases c <;> simpa [blockOf] using hx
  exact ⟨by decide, hz, by simp [envQ, envOf], by simp [envQ, envOf], by simp [envQ, envOf],
    silent_block envQ (monitorQ 7) [[Flt.fin 0, Flt.fin 0], [Flt.fin 0, Flt.fin 0]] 2 2
      (by decide) hz (by simp [envQ, envOf]) (by simp [envQ, envOf]) (by simp [envQ, envOf])⟩

end Thresholds

/-! ## Clearing of the output -/

section Clearing

variable {K : Type} [LinearOrderedField K]

theorem clear_length (buf : List (Flt K)) (n : Nat) : (clear buf n).length = buf.length := by
  simp [clear]
  omega

theorem clear_getElem? (buf : List (Flt K)) (n j : Nat) (hj : j < n) (hlen : j < buf.length) :
    (clear buf n)[j]? = some (Flt.fin 0) := by
  unfold clear
  have hlt : j < min n buf.length := lt_min hj hlen
  rw [List.getElem?_append_left (by simpa using hlt)]
  simp [List.getElem?_replicate, hlt]

/-- C8: after the callback every output channel `i < numOutputChannels` keeps its length
    and holds 0 at each of its first `numSamples` positions, whether the channel is
    monitored or not, while the peak and the rms stored for the monitored channels are
    those of the samples handed in, before the clearing. -/
theorem output_cleared_after_metering (env : Env K) (m : AudioMonitor K)
    (out : List (List (Flt K))) (no n i : Nat) (buf : List (Flt K))
    (hi : i < no) (hbuf : out[i]? = some buf) :
    (∃ cleared, (audioDeviceIOCallback env m out no n).outputChannelData[i]? = some cleared ∧
      cleared.length = buf.length ∧
      ∀ j, j < n → j < buf.length → cleared[j]? = some (Flt.fin 0)) ∧
    (∀ c, c < jmin numChannels no →
      (audioDeviceIOCallback env m out no n).monitor.getPeak c =
        (meterLoop (blockOf out c n)).2 ∧
      (audioDeviceIOCallback env m out no n).monitor.getRootMeanSquare c =
        rootMeanSquareOf env (blockOf out c n) n) := by
  refine ⟨⟨clear buf n, ?_, clear_length buf n, fun j hj hlen => clear_getElem? buf n j hj hlen⟩,
    fun c hc => ⟨getPeak_after _ _ _ _ _ _ hc, getRootMeanSquare_after _ _ _ _ _ _ hc⟩⟩
  simp [audioDeviceIOCallback, clearChannels, List.getElem?_mapIdx, hbuf, hi]

/-- C8 at three output channels, for the third one, which is not monitored. -/
theorem output_cleared_after_metering_witness :
    2 < 3 ∧
    [[(Flt.fin 1 : Flt ℚ), Flt.fin 2], [Flt.fin 3, Flt.fin 4], [Flt.fin 5, Flt.fin 6]][2]? =
      some [Flt.fin 5, Flt.fin 6] ∧
    ((∃ cleared, (audioDeviceIOCallback envQ (monitorQ 7)
        [[Flt.fin 1, Flt.fin 2], [Flt.fin 3, Flt.fin 4], [Flt.fin 5, Flt.fin 6]]
          3 2).outputChannelData[2]? = some cleared ∧
      cleared.length = [(Flt.fin 5 : Flt ℚ), Flt.fin 6].length ∧
      ∀ j, j < 2 → j < [(Flt.fin 5 : Flt ℚ), Flt.fin 6].length →
        cleared[j]? = some (Flt.fin 0)) ∧
    (∀ c, c < jmin numChannels 3 →
      (audioDeviceIOCallback envQ (monitorQ 7)
        [[Flt.fin 1, Flt.fin 2], [Flt.fin 3, Flt.fin 4], [Flt.fin 5, Flt.fin 6]]
          3 2).monitor.getPeak c =
        (meterLoop (blockOf
          [[Flt.fin 1, Flt.fin 2], [Flt.fin 3, Flt.fin 4], [Flt.fin 5, Flt.fin 6]] c 2)).2 ∧
      (audioDeviceIOCallback envQ (monitorQ 7)
        [[Flt.fin 1, Flt.fin 2], [Flt.fin 3, Flt.fin 4], [Flt.fin 5, Flt.fin 6]]
          3 2).monitor.getRootMeanSquare c =
        rootMeanSquareOf envQ (blockOf
          [[Flt.fin 1, Flt.fin 2], [Flt.fin 3, Flt.fin 4], [Flt.fin 5, Flt.fin 6]] c 2) 2)) :=
  ⟨by decide, rfl,
    output_cleared_after_metering envQ (monitorQ 7)
      [[Flt.fin 1, Flt.fin 2], [Flt.fin 3, Flt.fin 4], [Flt.fin 5, Flt.fin 6]] 3 2 2
      [Flt.fin 5, Flt.fin 6] (by decide) rfl⟩

end Clearing

/-! ## Cross-thread delivery -/

section Delivery

variable {K : Type}

theorem triggerAsyncUpdate_pending (u : AsyncUpdater) : u.triggerAsyncUpdate.pending = true := by
  unfold AsyncUpdater.triggerAsyncUpdate
  split_ifs with h
  · exact h
  · rfl

theorem updater_setUpdater (m : AudioMonitor K) (kind : Warning) (u : AsyncUpdater) :
    (m.setUpdater kind u).updater kind = u := by
  cases kind <;> rfl

theorem listeners_setUpdater (m : AudioMonitor K) (kind : Warning) (u : AsyncUpdater) :
    (m.setUpdater kind u).clippingListeners = m.clippingListeners := by
  cases kind <;> rfl

theorem trigger_pending (kind : Warning) (m : AudioMonitor K) :
    ((trigger kind m).updater kind).pending = true := by
  unfold trigger
  rw [updater_setUpdater, triggerAsyncUpdate_pending]

theorem trigger_listeners (kind : Warning) (m : AudioMonitor K) :
    (trigger kind m).clippingListeners = m.clippingListeners :=
  listeners_setUpdater _ _ _

theorem iterate_trigger_pending (kind : Warning) (m : AudioMonitor K) (N : Nat) (hN : 1 ≤ N) :
    (((trigger kind)^[N] m).updater kind).pending = true := by
  obtain ⟨k, rfl⟩ : ∃ k, N = k + 1 := ⟨N - 1, by omega⟩
  rw [Function.iterate_succ_apply']
  exact trigger_pending _ _

theorem iterate_trigger_listeners (kind : Warning) (m : AudioMonitor K) (N : Nat) :
    ((trigger kind)^[N] m).clippingListeners = m.clippingListeners := by
  induction N with
  | zero => rfl
  | succ k ih => rw [Function.iterate_succ_apply', trigger_listeners, ih]

/-- A drain of a Pending dispatcher calls every listener of the registry, in order. -/
theorem drain_pending (kind : Warning) (m : AudioMonitor K)
    (h : (m.updater kind).pending = true) :
    (drain kind m).2 = listenerCall m.clippingListeners kind := by
  unfold drain
  rw [if_pos h]
  rfl

/-- After the drain of a Pending dispatcher a further drain delivers nothing. -/
theorem drain_twice (kind : Warning) (m : AudioMonitor K) :
    (drain kind (drain kind m).1).2 = [] := by
  unfold drain
  by_cases h : (m.updater kind).pending = true
  · simp [h, updater_setUpdater]
  · simp [h]

theorem listenerCall_count (listeners : List ClippingListener) (kind : Warning)
    (hnodup : listeners.Nodup) (l : ClippingListener) (hl : l ∈ listeners) :
    (listenerCall listeners kind).count { listener := l, kind := kind } = 1 := by
  unfold listenerCall
  have hinj : Function.Injective
      (fun l : ClippingListener => ({ listener := l, kind := kind } : Notification)) := by
    intro a b hab
    simpa using hab
  rw [List.count_map_of_injective _ _ hinj]
  exact List.count_eq_one_of_mem hnodup hl

end Delivery

section CallbackDelivery

variable {K : Type} [LinearOrderedField K]

theorem meterChannel_listeners (env : Env K) (out : List (List (Flt K))) (n : Nat)
    (st : CallbackState K) (c : Nat) :
    (meterChannel env out n st c).1.clippingListeners = st.1.clippingListeners := by
  unfold meterChannel
  simp only
  split_ifs <;> rfl

theorem meterChannel_pending (env : Env K) (out : List (List (Flt K))) (n : Nat)
    (st : CallbackState K) (c : Nat)
    (h : ∀ t ∈ st.2, (st.1.updater t.kind).pending = true) :
    ∀ t ∈ (meterChannel env out n st c).2,
      ((meterChannel env out n st c).1.updater t.kind).pending = true := by
  unfold meterChannel
  simp only
  split_ifs <;> intro t ht <;> simp only [List.mem_append, List.mem_singleton] at ht
  · rcases ht with (ht | ht) | ht
    · have := h t ht
      cases hk : t.kind <;> simp_all [AudioMonitor.updater, triggerAsyncUpdate_pending]
    · subst ht; simp [AudioMonitor.updater, triggerAsyncUpdate_pending]
    · subst ht; simp [AudioMonitor.updater, triggerAsyncUpdate_pending]
  · rcases ht with ht | ht
    · have := h t ht
      cases hk : t.kind <;> simp_all [AudioMonitor.updater, triggerAsyncUpdate_pending]
    · subst ht; simp [AudioMonitor.updater, triggerAsyncUpdate_pending]
  · rcases ht with ht | ht
    · have := h t ht
      cases hk : t.kind <;> simp_all [AudioMonitor.updater, triggerAsyncUpdate_pending]
    · subst ht; simp [AudioMonitor.updater, triggerAsyncUpdate_pending]
  · have := h t ht
    cases hk : t.kind <;> simp_all [AudioMonitor.updater]

theorem meterFold_pending (env : Env K) (out : List (List (Flt K))) (n k : Nat)
    (st : CallbackState K) (h : ∀ t ∈ st.2, (st.1.updater t.kind).pending = true) :
    ∀ t ∈ ((List.range k).foldl (meterChannel env out n) st).2,
      (((List.range k).foldl (meterChannel env out n) st).1.updater t.kind).pending = true := by
  induction k with
  | zero => simpa using h
  | succ k ih =>
    rw [List.range_succ, List.foldl_append, List.foldl_cons, List.foldl_nil]
    exact meterChannel_pending env out n _ k ih

theorem meterFold_listeners (env : Env K) (out : List (List (Flt K))) (n k : Nat)
    (st : CallbackState K) :
    ((List.range k).foldl (meterChannel env out n) st).1.clippingListeners =
      st.1.clippingListeners := by
  induction k with
  | zero => rfl
  | succ k ih =>
    rw [List.range_succ, List.foldl_append, List.foldl_cons, List.foldl_nil,
      meterChannel_listeners, ih]

theorem spectrumFold_listeners (env : Env K) (out : List (List (Flt K))) (no n k : Nat)
    (m : AudioMonitor K) :
    ((List.range k).foldl (spectrumChannel env out no n) m).clippingListeners =
      m.clippingListeners := by
  induction k with
  | zero => rfl
  | succ k ih =>
    rw [List.range_succ, List.foldl_append, List.foldl_cons, List.foldl_nil]
    exact ih

/-- The callback leaves the registry of listeners as it is. -/
theorem listeners_after (env : Env K) (m : AudioMonitor K) (out : List (List (Flt K)))
    (no n : Nat) :
    (audioDeviceIOCallback env m out no n).monitor.clippingListeners = m.clippingListeners := by
  simp only [audioDeviceIOCallback]
  rw [meterFold_listeners, spectrumFold_listeners]

/-- A dispatcher that the callback has triggered is Pending after the callback. -/
theorem pending_after (env : Env K) (m : AudioMonitor K) (out : List (List (Flt K)))
    (no n : Nat) (t : TriggerCall) (ht : t ∈ (audioDeviceIOCallback env m out no n).triggers) :
    (((audioDeviceIOCallback env m out no n).monitor.updater t.kind).pending) = true := by
  simp only [audioDeviceIOCallback] at ht ⊢
  exact meterFold_pending env out n _ _ (by simp) t ht

/-- C9: `N >= 1` calls of `triggerAsyncUpdate` on the dispatcher of a kind of warning,
    followed by one drain, deliver exactly the calls of the registry in order, one call
    to each registered listener, and a further drain delivers nothing; the same holds
    after one audio callback that has triggered the dispatcher, however many of its
    channels did so. -/
theorem coalescing (kind : Warning) (m : AudioMonitor K) (N : Nat)
    (hN : 1 ≤ N) (hnodup : m.clippingListeners.Nodup) :
    ((drain kind ((trigger kind)^[N] m)).2 = listenerCall m.clippingListeners kind ∧
      (∀ l ∈ m.clippingListeners,
        (drain kind ((trigger kind)^[N] m)).2.count { listener := l, kind := kind } = 1) ∧
      (drain kind (drain kind ((trigger kind)^[N] m)).1).2 = []) ∧
    (∀ (env : Env K) (out : List (List (Flt K))) (no n : Nat) (t : TriggerCall),
      t ∈ (audioDeviceIOCallback env m out no n).triggers → t.kind = kind →
      (drain kind (audioDeviceIOCallback env m out no n).monitor).2 =
        listenerCall m.clippingListeners kind ∧
      (∀ l ∈ m.clippingListeners,
        (drain kind (audioDeviceIOCallback env m out no n).monitor).2.count
          { listener := l, kind := kind } = 1) ∧
      (drain kind (drain kind (audioDeviceIOCallback env m out no n).monitor).1).2 = []) := by
  constructor
  · have h1 : (drain kind ((trigger kind)^[N] m)).2 = listenerCall m.clippingListeners kind := by
      rw [drain_pending kind _ (iterate_trigger_pending kind m N hN),
        iterate_trigger_listeners]
    refine ⟨h1, fun l hl => ?_, drain_twice kind _⟩
    rw [h1]
    exact listenerCall_count _ kind hnodup l hl
  · intro env out no n t ht hk
    have hp := pending_after env m out no n t ht
    rw [hk] at hp
    have h1 : (drain kind (audioDeviceIOCallback env m out no n).monitor).2 =
        listenerCall m.clippingListeners kind := by
      rw [drain_pending kind _ hp, listeners_after]
    refine ⟨h1, fun l hl => ?_, drain_twice kind _⟩
    rw [h1]
    exact listenerCall_count _ kind hnodup l hl

/-- C9 at three clipping triggers on a monitor with the listeners 10 and 11. -/
theorem coalescing_witness :
    1 ≤ 3 ∧ (monitorQ 7).clippingListeners.Nodup ∧
    (((drain Warning.clipping ((trigger Warning.clipping)^[3] (monitorQ 7))).2 =
        listenerCall (monitorQ 7).clippingListeners Warning.clipping ∧
      (∀ l ∈ (monitorQ 7).clippingListeners,
        (drain Warning.clipping ((trigger Warning.clipping)^[3] (monitorQ 7))).2.count
          { listener := l, kind := Warning.clipping } = 1) ∧
      (drain Warning.clipping
        (drain Warning.clipping ((trigger Warning.clipping)^[3] (monitorQ 7))).1).2 = []) ∧
    (∀ (env : Env ℚ) (out : List (List (Flt ℚ))) (no n : Nat) (t : TriggerCall),
      t ∈ (audioDeviceIOCallback env (monitorQ 7) out no n).triggers →
      t.kind = Warning.clipping →
      (drain Warning.clipping (audioDeviceIOCallback env (monitorQ 7) out no n).monitor).2 =
        listenerCall (monitorQ 7).clippingListeners Warning.clipping ∧
      (∀ l ∈ (monitorQ 7).clippingListeners,
        (drain Warning.clipping
          (audioDeviceIOCallback env (monitorQ 7) out no n).monitor).2.count
            { listener := l, kind := Warning.clipping } = 1) ∧
      (drain Warning.clipping (drain Warning.clipping
        (audioDeviceIOCallback env (monitorQ 7) out no n).monitor).1).2 = [])) :=
  ⟨by decide, by simp [monitorQ, monitorOf],
    coalescing Warning.clipping (monitorQ 7) 3 (by decide) (by simp [monitorQ, monitorOf])⟩

/-- A callback in which both channels clip makes two clipping triggers, and the drain
    that follows calls `onClippingWarning` once on each of the two listeners. -/
theorem both_channels_clip_one_delivery :
    (audioDeviceIOCallback envQ (monitorQ 7) [[Flt.fin 2], [Flt.fin 3]] 2 1).triggers =
      [{ channel := 0, kind := Warning.clipping }, { channel := 1, kind := Warning.clipping }] ∧
    (drain Warning.clipping
      (audioDeviceIOCallback envQ (monitorQ 7) [[Flt.fin 2], [Flt.fin 3]] 2 1).monitor).2 =
      [{ listener := 10, kind := Warning.clipping },
       { listener := 11, kind := Warning.clipping }] := by
  have ht : (audioDeviceIOCallback envQ (monitorQ 7) [[Flt.fin 2], [Flt.fin 3]] 2 1).triggers =
      [{ channel := 0, kind := Warning.clipping },
       { channel := 1, kind := Warning.clipping }] := by
    rw [triggers_after]
    have hk : jmin numChannels 2 = 2 := by decide
    rw [hk]
    norm_num [List.range_succ, channelTriggers, blockOf, meterLoop, meterStep, jmax,
      Flt.lt, Flt.gt, clipTest, oversaturationTest, rootMeanSquareOf, Flt.add, Flt.mul,
      Flt.div, Flt.ofNat, Flt.sqrt, envQ, envOf, Rat.sqrt_eq]
  refine ⟨ht, ?_⟩
  have hp := pending_after envQ (monitorQ 7) [[Flt.fin 2], [Flt.fin 3]] 2 1
    { channel := 0, kind := Warning.clipping } (by rw [ht]; simp)
  rw [drain_pending _ _ hp, listeners_after]
  rfl

end CallbackDelivery

/-! ## Spectrum query -/

section SpectrumQuery

variable {K : Type} [LinearOrderedField K] [FloorRing K]

theorem ok_bind {α β : Type} (a : α) (f : α → Except Fault β) :
    (Except.ok a >>= f) = f a := rfl

theorem error_bind {α β : Type} (e : Fault) (f : α → Except Fault β) :
    (Except.error e >>= f) = Except.error e := rfl

theorem pure_eq_ok {α : Type} (a : α) : (pure a : Except Fault α) = Except.ok a := rfl

theorem roundHalfEven_natCast (i : Nat) : roundHalfEven ((i : K)) = (i : Int) := by
  unfold roundHalfEven
  simp

/-- The rounded value is at most one half away. -/
theorem roundHalfEven_bounds (x : K) :
    ((roundHalfEven x : Int) : K) - 1 / 2 ≤ x ∧ x ≤ ((roundHalfEven x : Int) : K) + 1 / 2 := by
  have h1 : ((Int.floor x : Int) : K) ≤ x := Int.floor_le x
  have h2 : x < ((Int.floor x : Int) : K) + 1 := Int.lt_floor_add_one x
  unfold roundHalfEven
  simp only
  split_ifs with ha hb hc
  · constructor <;> linarith
  · push_cast; constructor <;> linarith
  · have hd : x - ((Int.floor x : Int) : K) = 1 / 2 :=
      le_antisymm (not_lt.mp hb) (not_lt.mp ha)
    constructor <;> linarith
  · have hd : x - ((Int.floor x : Int) : K) = 1 / 2 :=
      le_antisymm (not_lt.mp hb) (not_lt.mp ha)
    push_cast; constructor <;> linarith

/-- A number strictly less than one half away from an integer rounds to it. -/
theorem roundHalfEven_of_near (x : K) (i : Int) (h1 : (i : K) - 1 / 2 < x)
    (h2 : x < (i : K) + 1 / 2) : roundHalfEven x = i := by
  obtain ⟨hlo, hhi⟩ := roundHalfEven_bounds x
  have ha : ((roundHalfEven x : Int) : K) < (i : K) + 1 := by linarith
  have hb : (i : K) < ((roundHalfEven x : Int) : K) + 1 := by linarith
  have ha2 : roundHalfEven x < i + 1 := by exact_mod_cast ha
  have hb2 : i < roundHalfEven x + 1 := by exact_mod_cast hb
  omega

/-- A number that is at least an integer rounds to at least that integer. -/
theorem roundHalfEven_ge (x : K) (s : Int) (h : (s : K) ≤ x) : s ≤ roundHalfEven x := by
  obtain ⟨-, hhi⟩ := roundHalfEven_bounds x
  have ha : (s : K) < ((roundHalfEven x : Int) : K) + 1 := by linarith
  have ha2 : s < roundHalfEven x + 1 := by exact_mod_cast ha
  omega

/-- Rounding commutes with the addition of an even integer. -/
theorem roundHalfEven_add_even (x : K) (k : Int) (hk : k % 2 = 0) :
    roundHalfEven (x + (k : K)) = roundHalfEven x + k := by
  unfold roundHalfEven
  simp only [Int.floor_add_int]
  have hd : x + (k : K) - ((Int.floor x + k : Int) : K) = x - ((Int.floor x : Int) : K) := by
    push_cast; ring
  rw [hd]
  have hpar : (Int.floor x + k) % 2 = (Int.floor x) % 2 := by omega
  rw [hpar]
  split_ifs <;> omega

/-- For a value that rounds into the range of `int`, `roundToInt` is the rounding to the
    nearest integer, ties to the even one: the sum with `1.5 * 2^52` lies between `2^52` and
    `2^53`, where a `double` is an integer, and its low word is the rounded value. -/
theorem roundToInt_fin (x : K) (h1 : -2 ^ 31 ≤ roundHalfEven x) (h2 : roundHalfEven x < 2 ^ 31) :
    roundToInt (Flt.fin x) = roundHalfEven x := by
  obtain ⟨hlo, hhi⟩ := roundHalfEven_bounds x
  have h1K : (-2 ^ 31 : K) ≤ ((roundHalfEven x : Int) : K) := by exact_mod_cast h1
  have h2K : ((roundHalfEven x : Int) : K) ≤ 2 ^ 31 - 1 := by
    have : roundHalfEven x ≤ 2 ^ 31 - 1 := by omega
    exact_mod_cast this
  have hs1 : (2 : K) ^ (52 : ℤ) ≤ x + 6755399441055744 := by
    norm_num
    linarith
  have hs2 : x + 6755399441055744 < (2 : K) ^ (53 : ℤ) := by
    norm_num
    linarith
  have hpos : (0 : K) < x + 6755399441055744 := lt_of_lt_of_le (by positivity) hs1
  have habs : |x + 6755399441055744| = x + 6755399441055744 := abs_of_pos hpos
  have hlog : Int.log 2 (x + 6755399441055744) = 52 := by
    have ha : (52 : ℤ) ≤ Int.log 2 (x + 6755399441055744) :=
      (Int.zpow_le_iff_le_log (by norm_num) hpos).mp (by exact_mod_cast hs1)
    have hb : Int.log 2 (x + 6755399441055744) < 53 :=
      (Int.lt_zpow_iff_log_lt (by norm_num) hpos).mp (by exact_mod_cast hs2)
    omega
  have hadd : roundHalfEven (x + 6755399441055744) = roundHalfEven x + 6755399441055744 := by
    have := roundHalfEven_add_even x 6755399441055744 (by norm_num)
    simpa using this
  unfold roundToInt doubleLowWord toInt32
  simp only [habs, hlog]
  norm_num
  rw [hadd]
  split_ifs <;> omega

/-- For a value that rounds to an integer of magnitude below `2^51`, `roundToInt` is that
    integer taken modulo `2^32` and read as an `int`: outside the range of `int` the
    conversion wraps. -/
theorem roundToInt_wrap (x : K) (h1 : -2 ^ 51 < roundHalfEven x) (h2 : roundHalfEven x < 2 ^ 51) :
    roundToInt (Flt.fin x) = toInt32 (roundHalfEven x % 2 ^ 32) := by
  obtain ⟨hlo, hhi⟩ := roundHalfEven_bounds x
  have h1K : (-2 ^ 51 + 1 : K) ≤ ((roundHalfEven x : Int) : K) := by
    have : -2 ^ 51 + 1 ≤ roundHalfEven x := by omega
    exact_mod_cast this
  have h2K : ((roundHalfEven x : Int) : K) ≤ 2 ^ 51 - 1 := by
    have : roundHalfEven x ≤ 2 ^ 51 - 1 := by omega
    exact_mod_cast this
  have hs1 : (2 : K) ^ (52 : ℤ) ≤ x + 6755399441055744 := by
    norm_num
    norm_num at h1K
    linarith
  have hs2 : x + 6755399441055744 < (2 : K) ^ (53 : ℤ) := by
    norm_num
    norm_num at h2K
    linarith
  have hpos : (0 : K) < x + 6755399441055744 := lt_of_lt_of_le (by positivity) hs1
  have habs : |x + 6755399441055744| = x + 6755399441055744 := abs_of_pos hpos
  have hlog : Int.log 2 (x + 6755399441055744) = 52 := by
    have ha : (52 : ℤ) ≤ Int.log 2 (x + 6755399441055744) :=
      (Int.zpow_le_iff_le_log (by norm_num) hpos).mp (by exact_mod_cast hs1)
    have hb : Int.log 2 (x + 6755399441055744) < 53 :=
      (Int.lt_zpow_iff_log_lt (by norm_num) hpos).mp (by exact_mod_cast hs2)
    omega
  have hadd : roundHalfEven (x + 6755399441055744) = roundHalfEven x + 6755399441055744 := by
    have := roundHalfEven_add_even x 6755399441055744 (by norm_num)
    simpa using this
  unfold roundToInt doubleLowWord
  simp only [habs, hlog]
  norm_num
  rw [hadd]
  congr 1
  omega

theorem roundToInt_natCast (i : Nat) (hi : i < 2 ^ 31) :
    roundToInt (Flt.fin (i : K)) = (i : Int) := by
  have h2 : (i : Int) < 2 ^ 31 := by exact_mod_cast hi
  have h1 : -2 ^ 31 ≤ (i : Int) := by
    have : (0 : Int) ≤ (i : Int) := Int.natCast_nonneg i
    omega
  have h := roundToInt_fin (i : K) (by rw [roundHalfEven_natCast]; exact h1)
    (by rw [roundHalfEven_natCast]; exact h2)
  rw [h, roundHalfEven_natCast]

/-- The conversion of an infinity or of NaN yields 0. -/
theorem roundToInt_posInf : roundToInt (Flt.posInf : Flt K) = 0 := rfl

theorem jlimit_inside (s : Nat) (i : Nat) (hi : i ≤ s) : jlimit 0 (s : Int) (i : Int) = i := by
  unfold jlimit
  have h1 : ¬ ((i : Int) < 0) := by omega
  have h2 : ¬ ((s : Int) < (i : Int)) := by omega
  simp [h1, h2]

theorem readSpectrum_natCast (m : AudioMonitor K) (c i : Nat) (v : Flt K)
    (h : (m.spectrum c)[i]? = some v) : readSpectrum m c (i : Int) = Except.ok v := by
  unfold readSpectrum
  have h1 : ¬ ((i : Int) < 0) := by omega
  simp [h1, h]

theorem readSpectrum_beyond (m : AudioMonitor K) (c i : Nat)
    (h : (m.spectrum c).length ≤ i) :
    readSpectrum m c (i : Int) = Except.error Fault.outOfBounds := by
  unfold readSpectrum
  have h1 : ¬ ((i : Int) < 0) := by omega
  have h2 : (m.spectrum c)[i]? = none := List.getElem?_eq_none h
  simp [h1, h2]

theorem succInt_natCast (i : Nat) (hi : i + 1 < 2 ^ 31) :
    succInt (i : Int) = Except.ok ((i : Int) + 1) := by
  unfold succInt
  have h : (i : Int) + 1 < 2 ^ 31 := by exact_mod_cast hi
  rw [if_pos h]

/-- The resolution at a positive sample rate `r` with `s > 0` bins. -/
theorem resolution_eq (r : K) (s : Nat) (hs : 0 < s) :
    Flt.div (Flt.div (Flt.fin r) (Flt.fin 2)) (Flt.ofNat s) = Flt.fin (r / 2 / (s : K)) := by
  have hs0 : (s : K) ≠ 0 := by
    have : (0 : K) < s := by exact_mod_cast hs
    exact ne_of_gt this
  simp [Flt.div, Flt.ofNat, hs0]

/-- At the centre frequency of bin `i` the quotient `frequency / resolution` is `i`. -/
theorem centre_div_resolution (r : K) (s i : Nat) (hr : 0 < r) (hs : 0 < s) :
    Flt.div (Flt.fin ((i : K) * (r / 2) / (s : K))) (Flt.fin (r / 2 / (s : K))) =
      Flt.fin (i : K) := by
  have hs0 : (0 : K) < s := by exact_mod_cast hs
  have hres : r / 2 / (s : K) ≠ 0 := ne_of_gt (by positivity)
  simp only [Flt.div, hres, if_false, Flt.fin.injEq]
  field_simp

/-- At the centre frequency of the last bin the second pair of reads uses the index
    `spectrumSize`, one past the end of a row of `spectrumSize` bins. -/
theorem last_bin_centre_out_of_bounds (env : Env K) (m : AudioMonitor K) (r : K) (i : Nat)
    (hrate : m.sampleRate = Flt.fin r) (hr : 0 < r)
    (hi : i + 1 = env.spectrumSize) (hsize : env.spectrumSize < 2 ^ 31)
    (hlen0 : (m.spectrum 0).length = env.spectrumSize)
    (hlen1 : (m.spectrum 1).length = env.spectrumSize) :
    getInterpolatedSpectrumAtFrequency env m
        (Flt.fin ((i : K) * (r / 2) / (env.spectrumSize : K))) =
      Except.error Fault.outOfBounds := by
  have hs : 0 < env.spectrumSize := by omega
  have hj1 : jlimit 0 (env.spectrumSize : Int) (i : Int) = (i : Int) :=
    jlimit_inside env.spectrumSize i (by omega)
  have hj2 : jlimit 0 (env.spectrumSize : Int) ((i : Int) + 1) = (i : Int) + 1 := by
    have := jlimit_inside env.spectrumSize (i + 1) (by omega)
    simpa using this
  have hi0 : i < (m.spectrum 0).length := by omega
  have hi1 : i < (m.spectrum 1).length := by omega
  have hr01 := readSpectrum_natCast m 0 i _ (List.getElem?_eq_getElem hi0)
  have hr11 := readSpectrum_natCast m 1 i _ (List.getElem?_eq_getElem hi1)
  have hr02 : readSpectrum m 0 ((i : Int) + 1) = Except.error Fault.outOfBounds := by
    have := readSpectrum_beyond m 0 (i + 1) (by omega)
    simpa using this
  have hround : roundToInt (Flt.fin (i : K)) = (i : Int) :=
    roundToInt_natCast i (by omega)
  have hsucc : succInt (i : Int) = Except.ok ((i : Int) + 1) := succInt_natCast i (by omega)
  have hres := resolution_eq r _ hs
  have hcen := centre_div_resolution r _ i hr hs
  unfold getInterpolatedSpectrumAtFrequency
  simp only [hrate, hres, hcen, hround, ok_bind, error_bind, hj1, hr01, hr11, hsucc, hj2, hr02]

/-- C10, at a failing input: with 4 bins per row, the sample rate 8 and both spectrum rows
    equal to `[1, 2, 3, 4]`, the centre frequency `3 * (8 / 2) / 4` of the last bin rounds to
    `index1 = 3`, so that `index2 = 4`, which `jlimit (0, spectrumSize, index2)` leaves at 4;
    the reads `spectrum[0][4]` and `spectrum[1][4]` are one past a row of 4 bins, whatever
    `fastLog10` is, and the query does not yield `(4 + 4) / 2` as a defined result. -/
theorem last_bin_centre_outside_row :
    roundToInt (Flt.fin ((3 * (8 / 2) / 4 : ℚ) / (8 / 2 / 4))) = 3 ∧
    jlimit 0 4 3 = 3 ∧ jlimit 0 4 (3 + 1) = 4 ∧
    envQ.spectrumSize = 4 ∧
    ((monitorQ 7).spectrum 0).length = 4 ∧ ((monitorQ 7).spectrum 1).length = 4 ∧
    ∀ lg : Flt ℚ → Flt ℚ,
      getInterpolatedSpectrumAtFrequency { envQ with fastLog10 := lg } (monitorQ 7)
          (Flt.fin (3 * (8 / 2) / 4)) = Except.error Fault.outOfBounds ∧
      getInterpolatedSpectrumAtFrequency { envQ with fastLog10 := lg } (monitorQ 7)
          (Flt.fin (3 * (8 / 2) / 4)) ≠ Except.ok (Flt.fin ((4 + 4) / 2)) := by
  have hround : roundHalfEven ((3 * (8 / 2) / 4 : ℚ) / (8 / 2 / 4)) = 3 := by
    apply roundHalfEven_of_near <;> norm_num
  have hrt : roundToInt (Flt.fin ((3 * (8 / 2) / 4 : ℚ) / (8 / 2 / 4))) = 3 := by
    rw [roundToInt_fin _ (by rw [hround]; norm_num) (by rw [hround]; norm_num), hround]
  refine ⟨hrt, by decide, by decide, rfl, rfl, rfl, ?_⟩
  intro lg
  have h := last_bin_centre_out_of_bounds { envQ with fastLog10 := lg } (monitorQ 7) 8 3 rfl
    (by norm_num) rfl (by simp [envQ, envOf]) rfl rfl
  have hf : ((3 : Nat) : ℚ) * (8 / 2) /
      ((({ envQ with fastLog10 := lg } : Env ℚ).spectrumSize : Nat) : ℚ) = 3 * (8 / 2) / 4 := by
    simp [envQ, envOf]
  rw [hf] at h
  rw [h]
  exact ⟨rfl, by simp⟩

/-- At the centre frequency of a bin `i` with `i + 1 < spectrumSize`, where the four spectrum
    values read are ordinary numbers and `fastLog10` yields two different ordinary numbers at
    the two bin frequencies, the interpolation fraction is 0 and the query returns exactly
    `(spectrum[0][i] + spectrum[1][i]) / 2`. -/
theorem bin_centre_value (env : Env K) (m : AudioMonitor K) (r : K) (i : Nat)
    (a b a2 b2 l1 l2 : K)
    (hrate : m.sampleRate = Flt.fin r) (hr : 0 < r)
    (hi : i + 1 < env.spectrumSize) (hsize : env.spectrumSize < 2 ^ 31)
    (h01 : (m.spectrum 0)[i]? = some (Flt.fin a))
    (h11 : (m.spectrum 1)[i]? = some (Flt.fin b))
    (h02 : (m.spectrum 0)[i + 1]? = some (Flt.fin a2))
    (h12 : (m.spectrum 1)[i + 1]? = some (Flt.fin b2))
    (hl1 : env.fastLog10 (Flt.fin ((i : K) * (r / 2) / (env.spectrumSize : K))) = Flt.fin l1)
    (hl2 : env.fastLog10
      (Flt.fin (((i : K) + 1) * (r / 2 / (env.spectrumSize : K)))) = Flt.fin l2)
    (hne : l2 ≠ l1) :
    getInterpolatedSpectrumAtFrequency env m
        (Flt.fin ((i : K) * (r / 2) / (env.spectrumSize : K))) =
      Except.ok (Flt.fin ((a + b) / 2)) := by
  have hs : 0 < env.spectrumSize := by omega
  have hf1 : (i : K) * (r / 2 / (env.spectrumSize : K)) =
      (i : K) * (r / 2) / (env.spectrumSize : K) := by rw [mul_div_assoc]
  have hden : l2 + -l1 ≠ 0 := by
    intro h
    exact hne (by linarith)
  have hj1 : jlimit 0 (env.spectrumSize : Int) (i : Int) = (i : Int) :=
    jlimit_inside env.spectrumSize i (by omega)
  have hj2 : jlimit 0 (env.spectrumSize : Int) ((i : Int) + 1) = (i : Int) + 1 := by
    have := jlimit_inside env.spectrumSize (i + 1) (by omega)
    simpa using this
  have hr02 : readSpectrum m 0 ((i : Int) + 1) = Except.ok (Flt.fin a2) := by
    have := readSpectrum_natCast m 0 (i + 1) _ h02
    simpa using this
  have hr12 : readSpectrum m 1 ((i : Int) + 1) = Except.ok (Flt.fin b2) := by
    have := readSpectrum_natCast m 1 (i + 1) _ h12
    simpa using this
  have hround : roundToInt (Flt.fin (i : K)) = (i : Int) :=
    roundToInt_natCast i (by omega)
  have hsucc : succInt (i : Int) = Except.ok ((i : Int) + 1) := succInt_natCast i (by omega)
  have hr01 := readSpectrum_natCast m 0 i _ h01
  have hr11 := readSpectrum_natCast m 1 i _ h11
  have hres := resolution_eq r _ hs
  have hcen := centre_div_resolution r _ i hr hs
  unfold getInterpolatedSpectrumAtFrequency
  simp only [hrate, hres, hcen, hround, ok_bind, hj1, hr01, hr11, hsucc, hj2, hr02, hr12,
    pure_eq_ok, Flt.ofInt, Flt.mul, Int.cast_natCast, Int.cast_add, Int.cast_one, hf1, hl1, hl2]
  simp [Flt.sub, Flt.add, Flt.neg, Flt.div, Flt.mul, hden]

/-- The value at the centre frequency of bin 1 of 4 with the sample rate 8. -/
theorem bin_centre_value_witness :
    (monitorQ 7).sampleRate = Flt.fin 8 ∧ (0 : ℚ) < 8 ∧
    1 + 1 < envQ.spectrumSize ∧ envQ.spectrumSize < 2 ^ 31 ∧
    ((monitorQ 7).spectrum 0)[1]? = some (Flt.fin 2) ∧
    ((monitorQ 7).spectrum 1)[1]? = some (Flt.fin 2) ∧
    ((monitorQ 7).spectrum 0)[1 + 1]? = some (Flt.fin 3) ∧
    ((monitorQ 7).spectrum 1)[1 + 1]? = some (Flt.fin 3) ∧
    envQ.fastLog10 (Flt.fin (((1 : Nat) : ℚ) * (8 / 2) / (envQ.spectrumSize : ℚ))) =
      Flt.fin 1 ∧
    envQ.fastLog10 (Flt.fin ((((1 : Nat) : ℚ) + 1) * (8 / 2 / (envQ.spectrumSize : ℚ)))) =
      Flt.fin 2 ∧
    (2 : ℚ) ≠ 1 ∧
    getInterpolatedSpectrumAtFrequency envQ (monitorQ 7)
        (Flt.fin (((1 : Nat) : ℚ) * (8 / 2) / (envQ.spectrumSize : ℚ))) =
      Except.ok (Flt.fin ((2 + 2) / 2)) := by
  have hl1 : envQ.fastLog10 (Flt.fin (((1 : Nat) : ℚ) * (8 / 2) / (envQ.spectrumSize : ℚ))) =
      Flt.fin 1 := by
    norm_num [envQ, envOf]
  have hl2 : envQ.fastLog10
      (Flt.fin ((((1 : Nat) : ℚ) + 1) * (8 / 2 / (envQ.spectrumSize : ℚ)))) = Flt.fin 2 := by
    norm_num [envQ, envOf]
  exact ⟨rfl, by norm_num, by simp [envQ, envOf], by simp [envQ, envOf], rfl, rfl, rfl, rfl,
    hl1, hl2, by norm_num,
    bin_centre_value envQ (monitorQ 7) 8 1 2 2 3 3 1 2 rfl (by norm_num)
      (by simp [envQ, envOf]) (by simp [envQ, envOf]) rfl rfl rfl rfl hl1 hl2 (by norm_num)⟩

end SpectrumQuery

/-! ## Bounds of the spectrum query -/

section QueryBounds

variable {K : Type} [LinearOrderedField K] [FloorRing K]

/-- The clamped index always lies between 0 and `spectrumSize`, both included. -/
theorem jlimit_range (s : Nat) (j : Int) : 0 ≤ jlimit 0 (s : Int) j ∧ jlimit 0 (s : Int) j ≤ s := by
  unfold jlimit
  split_ifs <;> omega

theorem jlimit_above (s : Nat) (j : Int) (h : (s : Int) ≤ j) : jlimit 0 (s : Int) j = s := by
  unfold jlimit
  split_ifs <;> omega

theorem div_resolution (f r : K) (s : Nat) (hr : 0 < r) (hs : 0 < s) :
    Flt.div (Flt.fin f) (Flt.fin (r / 2 / (s : K))) = Flt.fin (f / (r / 2 / (s : K))) := by
  have hs0 : (0 : K) < s := by exact_mod_cast hs
  have hres : r / 2 / (s : K) ≠ 0 := ne_of_gt (by positivity)
  simp [Flt.div, hres]

/-- At and beyond half the sample rate the first clamped index is `spectrumSize`, and the
    read at that index is outside a row of `spectrumSize` bins. -/
theorem beyond_nyquist_out_of_bounds (env : Env K) (m : AudioMonitor K) (r f : K)
    (hrate : m.sampleRate = Flt.fin r) (hr : 0 < r) (hs : 0 < env.spectrumSize)
    (hlen : (m.spectrum 0).length ≤ env.spectrumSize)
    (hf : r / 2 ≤ f)
    (hint : roundHalfEven (f / (r / 2 / (env.spectrumSize : K))) < 2 ^ 31) :
    jlimit 0 (env.spectrumSize : Int) (roundHalfEven (f / (r / 2 / (env.spectrumSize : K)))) =
      env.spectrumSize ∧
    getInterpolatedSpectrumAtFrequency env m (Flt.fin f) = Except.error Fault.outOfBounds := by
  have hs0 : (0 : K) < env.spectrumSize := by exact_mod_cast hs
  have hres : 0 < r / 2 / (env.spectrumSize : K) := by positivity
  have hx : ((env.spectrumSize : Int) : K) ≤ f / (r / 2 / (env.spectrumSize : K)) := by
    rw [le_div_iff₀ hres]
    have : ((env.spectrumSize : Int) : K) * (r / 2 / (env.spectrumSize : K)) = r / 2 := by
      push_cast
      field_simp
      ring
    rw [this]
    exact hf
  have hge := roundHalfEven_ge _ _ hx
  have hj := jlimit_above env.spectrumSize _ hge
  refine ⟨hj, ?_⟩
  have hround := roundToInt_fin (f / (r / 2 / (env.spectrumSize : K))) (by omega) hint
  have hread := readSpectrum_beyond m 0 env.spectrumSize hlen
  unfold getInterpolatedSpectrumAtFrequency
  simp only [hrate, resolution_eq r _ hs, div_resolution f r _ hr hs, hround, ok_bind, hj,
    hread, error_bind]

theorem roundHalfEven_lt (x : K) (b : Int) (h : x + 1 / 2 < (b : K)) : roundHalfEven x < b := by
  obtain ⟨hlo, -⟩ := roundHalfEven_bounds x
  have ha : ((roundHalfEven x : Int) : K) < (b : K) := by linarith
  exact_mod_cast ha

/-- C11, at a failing input: with 4 bins per row and the sample rate 8 the frequency 100
    rounds to the bin index 100, which `jlimit (0, spectrumSize, index1)` clamps to 4, an
    index that is not below `spectrumSize`; the read `spectrum[0][4]` is outside the row. -/
theorem clamped_index_outside_row :
    jlimit 0 4 (roundHalfEven ((100 : ℚ) / (8 / 2 / 4))) = 4 ∧
    ¬ (jlimit 0 4 (roundHalfEven ((100 : ℚ) / (8 / 2 / 4))) < (envQ.spectrumSize : Int)) ∧
    ((monitorQ 7).spectrum 0).length = envQ.spectrumSize ∧
    getInterpolatedSpectrumAtFrequency envQ (monitorQ 7) (Flt.fin 100) =
      Except.error Fault.outOfBounds := by
  have hint : roundHalfEven ((100 : ℚ) / (8 / 2 / (envQ.spectrumSize : ℚ))) < 2 ^ 31 := by
    apply roundHalfEven_lt
    norm_num [envQ, envOf]
  have h := beyond_nyquist_out_of_bounds envQ (monitorQ 7) 8 100 rfl (by norm_num)
    (by simp [envQ, envOf]) (by simp [monitorQ, monitorOf, envQ, envOf]) (by norm_num) hint
  have hsz : ((envQ.spectrumSize : Nat) : ℚ) = 4 := by simp [envQ, envOf]
  have hszi : ((envQ.spectrumSize : Nat) : Int) = 4 := by simp [envQ, envOf]
  rw [hsz, hszi] at h
  refine ⟨h.1, ?_, rfl, h.2⟩
  rw [h.1, hszi]
  decide

/-- C12, at a failing input: with 4 bins per row and the sample rate 8 the frequency 4,
    half the sample rate, rounds to the bin index 4; both clamped indices are 4, one past
    the last bin, and the query reads outside the row instead of returning the value of a
    bin. -/
theorem nyquist_frequency_out_of_bounds :
    roundHalfEven ((4 : ℚ) / (8 / 2 / 4)) = 4 ∧
    jlimit 0 4 4 = 4 ∧ jlimit 0 4 (4 + 1) = 4 ∧
    ((monitorQ 7).spectrum 0).length = 4 ∧ ((monitorQ 7).spectrum 1).length = 4 ∧
    getInterpolatedSpectrumAtFrequency envQ (monitorQ 7) (Flt.fin 4) =
      Except.error Fault.outOfBounds := by
  have hround : roundHalfEven ((4 : ℚ) / (8 / 2 / 4)) = 4 := by
    apply roundHalfEven_of_near <;> norm_num
  have hint : roundHalfEven ((4 : ℚ) / (8 / 2 / (envQ.spectrumSize : ℚ))) < 2 ^ 31 := by
    apply roundHalfEven_lt
    norm_num [envQ, envOf]
  have h := beyond_nyquist_out_of_bounds envQ (monitorQ 7) 8 4 rfl (by norm_num)
    (by simp [envQ, envOf]) (by simp [monitorQ, monitorOf, envQ, envOf]) (by norm_num) hint
  exact ⟨hround, by decide, by decide, rfl, rfl, h.2⟩

end QueryBounds

/-! ## Interpolation between two bins -/

section Interpolation

variable {K : Type} [LinearOrderedField K] [FloorRing K]

/-- When the frequency rounds to a bin index `i` with `i + 1 < spectrumSize`, the clamping
    changes neither index, the four reads are inside the rows and the query returns the
    interpolation formula of the source, in the arithmetic of `float`. -/
theorem query_interior (env : Env K) (m : AudioMonitor K) (r f : K) (i : Nat)
    (v01 v11 v02 v12 : Flt K)
    (hrate : m.sampleRate = Flt.fin r) (hr : 0 < r)
    (hround : roundHalfEven (f / (r / 2 / (env.spectrumSize : K))) = (i : Int))
    (hi : i + 1 < env.spectrumSize) (hsize : env.spectrumSize < 2 ^ 31)
    (h01 : (m.spectrum 0)[i]? = some v01) (h11 : (m.spectrum 1)[i]? = some v11)
    (h02 : (m.spectrum 0)[i + 1]? = some v02) (h12 : (m.spectrum 1)[i + 1]? = some v12) :
    getInterpolatedSpectrumAtFrequency env m (Flt.fin f) =
      Except.ok (Flt.add (Flt.div (Flt.add v01 v11) (Flt.fin 2))
        (Flt.mul
          (Flt.div
            (Flt.sub (env.fastLog10 (Flt.fin f))
              (env.fastLog10 (Flt.fin ((i : K) * (r / 2 / (env.spectrumSize : K))))))
            (Flt.sub (env.fastLog10 (Flt.fin (((i : K) + 1) * (r / 2 / (env.spectrumSize : K)))))
              (env.fastLog10 (Flt.fin ((i : K) * (r / 2 / (env.spectrumSize : K)))))))
          (Flt.sub (Flt.div (Flt.add v02 v12) (Flt.fin 2))
            (Flt.div (Flt.add v01 v11) (Flt.fin 2))))) := by
  have hs : 0 < env.spectrumSize := by omega
  have hj1 : jlimit 0 (env.spectrumSize : Int) (i : Int) = (i : Int) :=
    jlimit_inside env.spectrumSize i (by omega)
  have hj2 : jlimit 0 (env.spectrumSize : Int) ((i : Int) + 1) = (i : Int) + 1 := by
    have := jlimit_inside env.spectrumSize (i + 1) (by omega)
    simpa using this
  have hr01 := readSpectrum_natCast m 0 i _ h01
  have hr11 := readSpectrum_natCast m 1 i _ h11
  have hr02 : readSpectrum m 0 ((i : Int) + 1) = Except.ok v02 := by
    have := readSpectrum_natCast m 0 (i + 1) _ h02
    simpa using this
  have hr12 : readSpectrum m 1 ((i : Int) + 1) = Except.ok v12 := by
    have := readSpectrum_natCast m 1 (i + 1) _ h12
    simpa using this
  have hrt : roundToInt (Flt.fin (f / (r / 2 / (env.spectrumSize : K)))) = (i : Int) := by
    have h := roundToInt_fin (f / (r / 2 / (env.spectrumSize : K)))
      (by rw [hround]; omega) (by rw [hround]; omega)
    rw [h, hround]
  have hsucc : succInt (i : Int) = Except.ok ((i : Int) + 1) := succInt_natCast i (by omega)
  unfold getInterpolatedSpectrumAtFrequency
  simp only [hrate, resolution_eq r _ hs, div_resolution f r _ hr hs, hrt, ok_bind, hj1, hr01,
    hr11, hsucc, hj2, hr02, hr12, pure_eq_ok, Flt.ofInt, Flt.mul, Int.cast_natCast,
    Int.cast_add, Int.cast_one]

/-- The value of the query inside the spectrum when the three logarithms are ordinary
    numbers and those of the two bin frequencies differ. -/
theorem interior_value (env : Env K) (m : AudioMonitor K) (r f : K) (i : Nat)
    (a b a2 b2 lf l1 l2 : K)
    (hrate : m.sampleRate = Flt.fin r) (hr : 0 < r)
    (hround : roundHalfEven (f / (r / 2 / (env.spectrumSize : K))) = (i : Int))
    (hi : i + 1 < env.spectrumSize) (hsize : env.spectrumSize < 2 ^ 31)
    (h01 : (m.spectrum 0)[i]? = some (Flt.fin a))
    (h11 : (m.spectrum 1)[i]? = some (Flt.fin b))
    (h02 : (m.spectrum 0)[i + 1]? = some (Flt.fin a2))
    (h12 : (m.spectrum 1)[i + 1]? = some (Flt.fin b2))
    (hlf : env.fastLog10 (Flt.fin f) = Flt.fin lf)
    (hl1 : env.fastLog10 (Flt.fin ((i : K) * (r / 2 / (env.spectrumSize : K)))) = Flt.fin l1)
    (hl2 : env.fastLog10 (Flt.fin (((i : K) + 1) * (r / 2 / (env.spectrumSize : K)))) =
      Flt.fin l2)
    (hne : l2 ≠ l1) :
    getInterpolatedSpectrumAtFrequency env m (Flt.fin f) =
      Except.ok (Flt.fin ((a + b) / 2 +
        ((lf - l1) / (l2 - l1)) * ((a2 + b2) / 2 - (a + b) / 2))) := by
  have hden : l2 + -l1 ≠ 0 := by
    intro h
    exact hne (by linarith)
  rw [query_interior env m r f i _ _ _ _ hrate hr hround hi hsize h01 h11 h02 h12,
    hlf, hl1, hl2]
  simp only [Flt.sub, Flt.neg, Flt.add, Flt.div, Flt.mul, hden, if_false,
    (two_ne_zero : (2 : K) ≠ 0)]
  simp only [sub_eq_add_neg]

/-- A frequency that rounds to a bin index `i >= 1` is positive, and so are both bin
    frequencies, the second being the larger. -/
theorem bin_frequencies_pos (r f : K) (s i : Nat) (hr : 0 < r) (hs : 0 < s) (h1 : 1 ≤ i)
    (hround : roundHalfEven (f / (r / 2 / (s : K))) = (i : Int)) :
    0 < f ∧ 0 < (i : K) * (r / 2 / (s : K)) ∧
      (i : K) * (r / 2 / (s : K)) < ((i : K) + 1) * (r / 2 / (s : K)) ∧
      f < ((i : K) + 1) * (r / 2 / (s : K)) := by
  have hs0 : (0 : K) < s := by exact_mod_cast hs
  have hres : 0 < r / 2 / (s : K) := by positivity
  have hi1 : (1 : K) ≤ i := by exact_mod_cast h1
  obtain ⟨hlo, hhi⟩ := roundHalfEven_bounds (f / (r / 2 / (s : K)))
  rw [hround] at hlo hhi
  have hcast : (((i : Nat) : Int) : K) = (i : K) := by simp
  rw [hcast] at hlo hhi
  have hq : 0 < f / (r / 2 / (s : K)) := by linarith
  have hf : 0 < f := by
    by_contra hneg
    have : f / (r / 2 / (s : K)) ≤ 0 := div_nonpos_of_nonpos_of_nonneg (not_lt.mp hneg) hres.le
    linarith
  have hlt : f / (r / 2 / (s : K)) < (i : K) + 1 := by linarith
  refine ⟨hf, by positivity, ?_, ?_⟩
  · exact mul_lt_mul_of_pos_right (by linarith) hres
  · exact (div_lt_iff₀ hres).mp hlt

/-- C13: when the frequency rounds to a bin index `i` with `1 <= i` and
    `i + 1 < spectrumSize`, the spectrum values read are ordinary numbers and `fastLog10`
    is an increasing logarithm `lg` on the positive numbers, the query returns
    `y1 + ((lg f - lg f1) / (lg f2 - lg f1)) * (y2 - y1)` with `f1 = i * resolution`,
    `f2 = (i + 1) * resolution`, `y1 = (spectrum[0][i] + spectrum[1][i]) / 2` and
    `y2 = (spectrum[0][i+1] + spectrum[1][i+1]) / 2`. -/
theorem interpolation_formula (env : Env K) (m : AudioMonitor K) (r f : K) (i : Nat)
    (a b a2 b2 : K) (lg : K → K)
    (hrate : m.sampleRate = Flt.fin r) (hr : 0 < r)
    (hround : roundHalfEven (f / (r / 2 / (env.spectrumSize : K))) = (i : Int))
    (h1 : 1 ≤ i) (hi : i + 1 < env.spectrumSize) (hsize : env.spectrumSize < 2 ^ 31)
    (h01 : (m.spectrum 0)[i]? = some (Flt.fin a))
    (h11 : (m.spectrum 1)[i]? = some (Flt.fin b))
    (h02 : (m.spectrum 0)[i + 1]? = some (Flt.fin a2))
    (h12 : (m.spectrum 1)[i + 1]? = some (Flt.fin b2))
    (hlog : ∀ x : K, 0 < x → env.fastLog10 (Flt.fin x) = Flt.fin (lg x))
    (hmono : ∀ x y : K, 0 < x → x < y → lg x < lg y) :
    getInterpolatedSpectrumAtFrequency env m (Flt.fin f) =
      Except.ok (Flt.fin ((a + b) / 2 +
        ((lg f - lg ((i : K) * (r / 2 / (env.spectrumSize : K)))) /
          (lg (((i : K) + 1) * (r / 2 / (env.spectrumSize : K))) -
            lg ((i : K) * (r / 2 / (env.spectrumSize : K))))) *
        ((a2 + b2) / 2 - (a + b) / 2))) := by
  obtain ⟨hf, hf1, hf12, -⟩ :=
    bin_frequencies_pos r f env.spectrumSize i hr (by omega) h1 hround
  have hden : lg (((i : K) + 1) * (r / 2 / (env.spectrumSize : K))) +
      -lg ((i : K) * (r / 2 / (env.spectrumSize : K))) ≠ 0 := by
    have := hmono _ _ hf1 hf12
    intro h
    linarith
  rw [query_interior env m r f i _ _ _ _ hrate hr hround hi hsize h01 h11 h02 h12,
    hlog f hf, hlog _ hf1, hlog _ (lt_trans hf1 hf12)]
  simp only [Flt.sub, Flt.neg, Flt.add, Flt.div, Flt.mul, hden, if_false,
    (two_ne_zero : (2 : K) ≠ 0)]
  simp only [sub_eq_add_neg]

/-- A value `y1 + w * (y2 - y1)` with a weight `w` between 0 and 1 lies between `y1`
    and `y2`. -/
theorem weighted_between (y1 y2 w : K) (h0 : 0 ≤ w) (h1 : w ≤ 1) :
    min y1 y2 ≤ y1 + w * (y2 - y1) ∧ y1 + w * (y2 - y1) ≤ max y1 y2 := by
  rcases le_total y1 y2 with h | h
  · rw [min_eq_left h, max_eq_right h]
    constructor
    · nlinarith [mul_nonneg h0 (sub_nonneg.mpr h)]
    · nlinarith [mul_nonneg (sub_nonneg.mpr h1) (sub_nonneg.mpr h)]
  · rw [min_eq_right h, max_eq_left h]
    constructor
    · nlinarith [mul_nonneg (sub_nonneg.mpr h1) (sub_nonneg.mpr h)]
    · nlinarith [mul_nonneg h0 (sub_nonneg.mpr h)]

/-- C19, amended: when the frequency rounds to a bin index `i` with `1 <= i` and
    `i + 1 < spectrumSize`, the spectrum values read are ordinary numbers, `fastLog10` is
    an increasing logarithm on the positive numbers and the frequency is not below the
    frequency `i * resolution` of the first bin (the rounding went down), the interpolation
    weight lies in `[0, 1]` and the value returned lies between the averaged values `y1`
    and `y2` of the two bins. -/
theorem interpolation_between_bins (env : Env K) (m : AudioMonitor K) (r f : K) (i : Nat)
    (a b a2 b2 : K) (lg : K → K)
    (hrate : m.sampleRate = Flt.fin r) (hr : 0 < r)
    (hround : roundHalfEven (f / (r / 2 / (env.spectrumSize : K))) = (i : Int))
    (h1 : 1 ≤ i) (hi : i + 1 < env.spectrumSize) (hsize : env.spectrumSize < 2 ^ 31)
    (h01 : (m.spectrum 0)[i]? = some (Flt.fin a))
    (h11 : (m.spectrum 1)[i]? = some (Flt.fin b))
    (h02 : (m.spectrum 0)[i + 1]? = some (Flt.fin a2))
    (h12 : (m.spectrum 1)[i + 1]? = some (Flt.fin b2))
    (hlog : ∀ x : K, 0 < x → env.fastLog10 (Flt.fin x) = Flt.fin (lg x))
    (hmono : ∀ x y : K, 0 < x → x < y → lg x < lg y)
    (hlow : (i : K) * (r / 2 / (env.spectrumSize : K)) ≤ f) :
    ∃ v : K, getInterpolatedSpectrumAtFrequency env m (Flt.fin f) = Except.ok (Flt.fin v) ∧
      min ((a + b) / 2) ((a2 + b2) / 2) ≤ v ∧ v ≤ max ((a + b) / 2) ((a2 + b2) / 2) := by
  obtain ⟨hf, hf1, hf12, hf2⟩ :=
    bin_frequencies_pos r f env.spectrumSize i hr (by omega) h1 hround
  have hl12 := hmono _ _ hf1 hf12
  have hlf2 := hmono _ _ hf hf2
  have hl1f : lg ((i : K) * (r / 2 / (env.spectrumSize : K))) ≤ lg f := by
    rcases eq_or_lt_of_le hlow with h | h
    · rw [h]
    · exact (hmono _ _ hf1 h).le
  have hden : 0 < lg (((i : K) + 1) * (r / 2 / (env.spectrumSize : K))) -
      lg ((i : K) * (r / 2 / (env.spectrumSize : K))) := by linarith
  have hw0 : 0 ≤ (lg f - lg ((i : K) * (r / 2 / (env.spectrumSize : K)))) /
      (lg (((i : K) + 1) * (r / 2 / (env.spectrumSize : K))) -
        lg ((i : K) * (r / 2 / (env.spectrumSize : K)))) :=
    div_nonneg (by linarith) hden.le
  have hw1 : (lg f - lg ((i : K) * (r / 2 / (env.spectrumSize : K)))) /
      (lg (((i : K) + 1) * (r / 2 / (env.spectrumSize : K))) -
        lg ((i : K) * (r / 2 / (env.spectrumSize : K)))) ≤ 1 := by
    rw [div_le_one hden]
    linarith
  refine ⟨_, interior_value env m r f i a b a2 b2 _ _ _ hrate hr hround hi hsize h01 h11 h02 h12
    (hlog f hf) (hlog _ hf1) (hlog _ (lt_trans hf1 hf12)) (ne_of_gt hl12), ?_⟩
  exact weighted_between _ _ _ hw0 hw1

theorem Flt.sub_self_zero_or_nan (a : Flt K) :
    Flt.sub a a = Flt.fin 0 ∨ Flt.sub a a = Flt.nan := by
  cases a <;> simp [Flt.sub, Flt.neg, Flt.add]

theorem Flt.div_zero_not_finite (x d : Flt K) (hd : d = Flt.fin 0 ∨ d = Flt.nan) :
    (Flt.div x d).isFinite = false := by
  rcases hd with rfl | rfl
  · cases x with
    | fin y =>
      simp only [Flt.div, if_true]
      split_ifs <;> rfl
    | nan => rfl
    | posInf => simp [Flt.div, Flt.isFinite]
    | negInf => simp [Flt.div, Flt.isFinite]
  · cases x <;> rfl

theorem Flt.mul_not_finite (a b : Flt K) (ha : a.isFinite = false) :
    (Flt.mul a b).isFinite = false := by
  cases a <;> cases b <;> simp [Flt.isFinite] at ha <;>
    simp [Flt.mul, Flt.infTimes, Flt.isFinite] <;> split_ifs <;> rfl

theorem Flt.add_not_finite (a b : Flt K) (hb : b.isFinite = false) :
    (Flt.add a b).isFinite = false := by
  cases a <;> cases b <;> simp [Flt.isFinite] at hb <;> rfl

/-- The quotient by a resolution of 0 is no ordinary number, and its conversion is 0. -/
theorem roundToInt_div_zero (x : Flt K) : roundToInt (Flt.div x (Flt.fin 0)) = 0 := by
  cases x with
  | fin y =>
    simp only [Flt.div, if_true]
    split_ifs <;> rfl
  | nan => rfl
  | posInf => simp [Flt.div, roundToInt]
  | negInf => simp [Flt.div, roundToInt]

/-- At the sample rate 0 the resolution is 0, `roundToInt` yields the index 0 and both bin
    frequencies are 0: the denominator of the interpolation fraction is `l - l` for the one
    value `l` of `fastLog10` at 0, which is 0 or NaN, so the fraction and the result of the
    query are NaN or an infinity, whatever `fastLog10` and the spectrum values are. -/
theorem zero_rate_not_finite (env : Env K) (m : AudioMonitor K) (frequency : Flt K)
    (v01 v11 v02 v12 : Flt K)
    (hrate : m.sampleRate = Flt.fin 0) (hs : 1 < env.spectrumSize)
    (h01 : (m.spectrum 0)[0]? = some v01) (h11 : (m.spectrum 1)[0]? = some v11)
    (h02 : (m.spectrum 0)[1]? = some v02) (h12 : (m.spectrum 1)[1]? = some v12) :
    ∃ w : Flt K, getInterpolatedSpectrumAtFrequency env m frequency = Except.ok w ∧
      w.isFinite = false := by
  have hs0 : (env.spectrumSize : K) ≠ 0 := by
    have : (0 : K) < env.spectrumSize := by exact_mod_cast (by omega : 0 < env.spectrumSize)
    exact ne_of_gt this
  have hres : Flt.div (Flt.div (Flt.fin (0 : K)) (Flt.fin 2)) (Flt.ofNat env.spectrumSize) =
      Flt.fin 0 := by
    simp [Flt.div, Flt.ofNat, hs0]
  have hj1 : jlimit 0 (env.spectrumSize : Int) 0 = 0 := by
    have := jlimit_inside env.spectrumSize 0 (by omega)
    simpa using this
  have hj2 : jlimit 0 (env.spectrumSize : Int) (0 + 1) = 1 := by
    have := jlimit_inside env.spectrumSize 1 (by omega)
    simpa using this
  have hr01 : readSpectrum m 0 0 = Except.ok v01 := by
    have := readSpectrum_natCast m 0 0 _ h01
    simpa using this
  have hr11 : readSpectrum m 1 0 = Except.ok v11 := by
    have := readSpectrum_natCast m 1 0 _ h11
    simpa using this
  have hr02 : readSpectrum m 0 1 = Except.ok v02 := by
    have := readSpectrum_natCast m 0 1 _ h02
    simpa using this
  have hr12 : readSpectrum m 1 1 = Except.ok v12 := by
    have := readSpectrum_natCast m 1 1 _ h12
    simpa using this
  have hsucc : succInt 0 = Except.ok (0 + 1) := by
    unfold succInt
    rw [if_pos (by norm_num)]
  have hf1 : Flt.mul (Flt.ofInt 0) (Flt.fin (0 : K)) = Flt.fin 0 := by
    simp [Flt.ofInt, Flt.mul]
  have hf2 : Flt.mul (Flt.ofInt (0 + 1)) (Flt.fin (0 : K)) = Flt.fin 0 := by
    simp [Flt.ofInt, Flt.mul]
  unfold getInterpolatedSpectrumAtFrequency
  simp only [hrate, hres, roundToInt_div_zero, hj1, hr01, hr11, ok_bind, hsucc, hj2, hr02, hr12,
    pure_eq_ok, hf1, hf2]
  refine ⟨_, rfl, ?_⟩
  exact Flt.add_not_finite _ _ (Flt.mul_not_finite _ _
    (Flt.div_zero_not_finite _ _ (Flt.sub_self_zero_or_nan _)))

/-- C14, amended: at a positive sample rate, for a frequency that rounds to a bin index `i`
    with `i + 1 < spectrumSize` and ordinary numbers in the spectrum, the query returns an
    ordinary number when the interpolation fraction is defined, that is when the three
    values of `fastLog10` are ordinary numbers and those at the two bin frequencies differ.
    There is no fallback to the value of the lower bin: with the same spectrum and the same
    `fastLog10`, at the sample rate 0, where the resolution and both bin frequencies are 0
    and the fraction is undefined, the query returns NaN or an infinity. -/
theorem query_finite_no_fallback (env : Env K) (m : AudioMonitor K) (r f : K) (i : Nat)
    (a b a2 b2 lf l1 l2 : K)
    (hrate : m.sampleRate = Flt.fin r) (hr : 0 < r)
    (hround : roundHalfEven (f / (r / 2 / (env.spectrumSize : K))) = (i : Int))
    (hi : i + 1 < env.spectrumSize) (hsize : env.spectrumSize < 2 ^ 31)
    (h01 : (m.spectrum 0)[i]? = some (Flt.fin a))
    (h11 : (m.spectrum 1)[i]? = some (Flt.fin b))
    (h02 : (m.spectrum 0)[i + 1]? = some (Flt.fin a2))
    (h12 : (m.spectrum 1)[i + 1]? = some (Flt.fin b2))
    (hlf : env.fastLog10 (Flt.fin f) = Flt.fin lf)
    (hl1 : env.fastLog10 (Flt.fin ((i : K) * (r / 2 / (env.spectrumSize : K)))) = Flt.fin l1)
    (hl2 : env.fastLog10 (Flt.fin (((i : K) + 1) * (r / 2 / (env.spectrumSize : K)))) =
      Flt.fin l2)
    (hne : l2 ≠ l1) :
    (∃ v : K, getInterpolatedSpectrumAtFrequency env m (Flt.fin f) = Except.ok (Flt.fin v)) ∧
    (∃ w : Flt K,
      getInterpolatedSpectrumAtFrequency env { m with sampleRate := Flt.fin 0 } (Flt.fin f) =
        Except.ok w ∧ w.isFinite = false) := by
  refine ⟨⟨_, interior_value env m r f i a b a2 b2 lf l1 l2 hrate hr hround hi hsize
    h01 h11 h02 h12 hlf hl1 hl2 hne⟩, ?_⟩
  have hlen0 : i + 1 < (m.spectrum 0).length := (List.getElem?_eq_some.mp h02).1
  have hlen1 : i + 1 < (m.spectrum 1).length := (List.getElem?_eq_some.mp h12).1
  exact zero_rate_not_finite env { m with sampleRate := Flt.fin 0 } (Flt.fin f) _ _ _ _ rfl
    (by omega)
    (List.getElem?_eq_getElem (by omega : 0 < (m.spectrum 0).length))
    (List.getElem?_eq_getElem (by omega : 0 < (m.spectrum 1).length))
    (List.getElem?_eq_getElem (by omega : 1 < (m.spectrum 0).length))
    (List.getElem?_eq_getElem (by omega : 1 < (m.spectrum 1).length))

end Interpolation

section InterpolationExamples

/-- The logarithm of `envLog` at a positive number. -/
theorem envLog_fastLog10 (K : Type) [LinearOrderedField K] (sq lg : K → K) (x : K)
    (hx : 0 < x) : (envLog K sq lg).fastLog10 (Flt.fin x) = Flt.fin (lg x) := by
  simp [envLog, Flt.log10, not_lt.mpr hx.le, ne_of_gt hx]

/-- C13 at the frequency `6 / 5`, which rounds to bin 1 of 4 at the sample rate 8, with
    the base-10 logarithm of the real numbers. -/
theorem interpolation_formula_witness :
    (monitorOf ℝ 7).sampleRate = Flt.fin 8 ∧ (0 : ℝ) < 8 ∧
    roundHalfEven ((6 / 5 : ℝ) /
      (8 / 2 / ((envLog ℝ Real.sqrt (Real.logb 10)).spectrumSize : ℝ))) = ((1 : Nat) : Int) ∧
    1 ≤ 1 ∧ 1 + 1 < (envLog ℝ Real.sqrt (Real.logb 10)).spectrumSize ∧
    (envLog ℝ Real.sqrt (Real.logb 10)).spectrumSize < 2 ^ 31 ∧
    ((monitorOf ℝ 7).spectrum 0)[1]? = some (Flt.fin 2) ∧
    ((monitorOf ℝ 7).spectrum 1)[1]? = some (Flt.fin 2) ∧
    ((monitorOf ℝ 7).spectrum 0)[1 + 1]? = some (Flt.fin 3) ∧
    ((monitorOf ℝ 7).spectrum 1)[1 + 1]? = some (Flt.fin 3) ∧
    (∀ x : ℝ, 0 < x →
      (envLog ℝ Real.sqrt (Real.logb 10)).fastLog10 (Flt.fin x) = Flt.fin (Real.logb 10 x)) ∧
    (∀ x y : ℝ, 0 < x → x < y → Real.logb 10 x < Real.logb 10 y) ∧
    getInterpolatedSpectrumAtFrequency (envLog ℝ Real.sqrt (Real.logb 10)) (monitorOf ℝ 7)
        (Flt.fin (6 / 5)) =
      Except.ok (Flt.fin ((2 + 2) / 2 +
        ((Real.logb 10 (6 / 5) - Real.logb 10 (((1 : Nat) : ℝ) *
            (8 / 2 / ((envLog ℝ Real.sqrt (Real.logb 10)).spectrumSize : ℝ)))) /
          (Real.logb 10 ((((1 : Nat) : ℝ) + 1) *
              (8 / 2 / ((envLog ℝ Real.sqrt (Real.logb 10)).spectrumSize : ℝ))) -
            Real.logb 10 (((1 : Nat) : ℝ) *
              (8 / 2 / ((envLog ℝ Real.sqrt (Real.logb 10)).spectrumSize : ℝ))))) *
        ((3 + 3) / 2 - (2 + 2) / 2))) := by
  have hround : roundHalfEven ((6 / 5 : ℝ) /
      (8 / 2 / ((envLog ℝ Real.sqrt (Real.logb 10)).spectrumSize : ℝ))) = ((1 : Nat) : Int) := by
    apply roundHalfEven_of_near <;> norm_num [envLog, envOf]
  have hmono : ∀ x y : ℝ, 0 < x → x < y → Real.logb 10 x < Real.logb 10 y :=
    fun x y hx hxy => Real.logb_lt_logb (by norm_num) hx hxy
  exact ⟨rfl, by norm_num, hround, le_refl 1, by simp [envLog, envOf],
    by simp [envLog, envOf], rfl, rfl, rfl, rfl,
    envLog_fastLog10 ℝ Real.sqrt (Real.logb 10), hmono,
    interpolation_formula (envLog ℝ Real.sqrt (Real.logb 10)) (monitorOf ℝ 7) 8 (6 / 5) 1
      2 2 3 3 (Real.logb 10) rfl (by norm_num) hround (le_refl 1) (by simp [envLog, envOf])
      (by simp [envLog, envOf]) rfl rfl rfl rfl
      (envLog_fastLog10 ℝ Real.sqrt (Real.logb 10)) hmono⟩

/-- C19, amended, at the frequency `6 / 5`, which rounds down to bin 1 of 4 at the sample
    rate 8, with the base-10 logarithm of the real numbers. -/
theorem interpolation_between_bins_witness :
    (monitorOf ℝ 7).sampleRate = Flt.fin 8 ∧ (0 : ℝ) < 8 ∧
    roundHalfEven ((6 / 5 : ℝ) /
      (8 / 2 / ((envLog ℝ Real.sqrt (Real.logb 10)).spectrumSize : ℝ))) = ((1 : Nat) : Int) ∧
    1 ≤ 1 ∧ 1 + 1 < (envLog ℝ Real.sqrt (Real.logb 10)).spectrumSize ∧
    (envLog ℝ Real.sqrt (Real.logb 10)).spectrumSize < 2 ^ 31 ∧
    ((monitorOf ℝ 7).spectrum 0)[1]? = some (Flt.fin 2) ∧
    ((monitorOf ℝ 7).spectrum 1)[1]? = some (Flt.fin 2) ∧
    ((monitorOf ℝ 7).spectrum 0)[1 + 1]? = some (Flt.fin 3) ∧
    ((monitorOf ℝ 7).spectrum 1)[1 + 1]? = some (Flt.fin 3) ∧
    (∀ x : ℝ, 0 < x →
      (envLog ℝ Real.sqrt (Real.logb 10)).fastLog10 (Flt.fin x) = Flt.fin (Real.logb 10 x)) ∧
    (∀ x y : ℝ, 0 < x → x < y → Real.logb 10 x < Real.logb 10 y) ∧
    ((1 : Nat) : ℝ) * (8 / 2 / ((envLog ℝ Real.sqrt (Real.logb 10)).spectrumSize : ℝ)) ≤ 6 / 5 ∧
    ∃ v : ℝ, getInterpolatedSpectrumAtFrequency (envLog ℝ Real.sqrt (Real.logb 10))
        (monitorOf ℝ 7) (Flt.fin (6 / 5)) = Except.ok (Flt.fin v) ∧
      min ((2 + 2) / 2) ((3 + 3) / 2) ≤ v ∧ v ≤ max ((2 + 2) / 2) ((3 + 3) / 2) := by
  have hround : roundHalfEven ((6 / 5 : ℝ) /
      (8 / 2 / ((envLog ℝ Real.sqrt (Real.logb 10)).spectrumSize : ℝ))) = ((1 : Nat) : Int) := by
    apply roundHalfEven_of_near <;> norm_num [envLog, envOf]
  have hmono : ∀ x y : ℝ, 0 < x → x < y → Real.logb 10 x < Real.logb 10 y :=
    fun x y hx hxy => Real.logb_lt_logb (by norm_num) hx hxy
  have hlow : ((1 : Nat) : ℝ) *
      (8 / 2 / ((envLog ℝ Real.sqrt (Real.logb 10)).spectrumSize : ℝ)) ≤ 6 / 5 := by
    norm_num [envLog, envOf]
  exact ⟨rfl, by norm_num, hround, le_refl 1, by simp [envLog, envOf],
    by simp [envLog, envOf], rfl, rfl, rfl, rfl,
    envLog_fastLog10 ℝ Real.sqrt (Real.logb 10), hmono, hlow,
    interpolation_between_bins (envLog ℝ Real.sqrt (Real.logb 10)) (monitorOf ℝ 7) 8 (6 / 5) 1
      2 2 3 3 (Real.logb 10) rfl (by norm_num) hround (le_refl 1) (by simp [envLog, envOf])
      (by simp [envLog, envOf]) rfl rfl rfl rfl
      (envLog_fastLog10 ℝ Real.sqrt (Real.logb 10)) hmono hlow⟩

/-- C19, counterexample: with 4 bins, the sample rate 8, both spectrum rows equal to
    `[1, 2, 3, 4]` and the base-10 logarithm, the frequency `7 / 4` rounds up to bin 2, so
    the bins 2 and 3 are selected, both inside the spectrum and at the positive frequencies
    2 and 3; the frequency is below that of bin 2, the weight is negative and the value
    returned is below both averaged values `3` and `4`. -/
theorem interpolation_outside_bins :
    roundHalfEven ((7 / 4 : ℝ) / (8 / 2 / 4)) = 2 ∧
    ((monitorOf ℝ 7).spectrum 0)[2]? = some (Flt.fin 3) ∧
    ((monitorOf ℝ 7).spectrum 1)[2]? = some (Flt.fin 3) ∧
    ((monitorOf ℝ 7).spectrum 0)[3]? = some (Flt.fin 4) ∧
    ((monitorOf ℝ 7).spectrum 1)[3]? = some (Flt.fin 4) ∧
    ∃ v : ℝ, getInterpolatedSpectrumAtFrequency (envLog ℝ Real.sqrt (Real.logb 10))
        (monitorOf ℝ 7) (Flt.fin (7 / 4)) = Except.ok (Flt.fin v) ∧
      v < min ((3 + 3) / 2) ((4 + 4) / 2) := by
  have hround4 : roundHalfEven ((7 / 4 : ℝ) / (8 / 2 / 4)) = 2 := by
    apply roundHalfEven_of_near <;> norm_num
  have hsz : (((envLog ℝ Real.sqrt (Real.logb 10)).spectrumSize : Nat) : ℝ) = 4 := by
    simp [envLog, envOf]
  have hround : roundHalfEven ((7 / 4 : ℝ) /
      (8 / 2 / ((envLog ℝ Real.sqrt (Real.logb 10)).spectrumSize : ℝ))) = ((2 : Nat) : Int) := by
    rw [hsz]; exact hround4
  have hf1 : ((2 : Nat) : ℝ) *
      (8 / 2 / ((envLog ℝ Real.sqrt (Real.logb 10)).spectrumSize : ℝ)) = 2 := by
    rw [hsz]; norm_num
  have hf2 : (((2 : Nat) : ℝ) + 1) *
      (8 / 2 / ((envLog ℝ Real.sqrt (Real.logb 10)).spectrumSize : ℝ)) = 3 := by
    rw [hsz]; norm_num
  have hl1 : (envLog ℝ Real.sqrt (Real.logb 10)).fastLog10 (Flt.fin (((2 : Nat) : ℝ) *
      (8 / 2 / ((envLog ℝ Real.sqrt (Real.logb 10)).spectrumSize : ℝ)))) =
      Flt.fin (Real.logb 10 2) := by
    rw [hf1]; exact envLog_fastLog10 ℝ _ _ 2 (by norm_num)
  have hl2 : (envLog ℝ Real.sqrt (Real.logb 10)).fastLog10 (Flt.fin ((((2 : Nat) : ℝ) + 1) *
      (8 / 2 / ((envLog ℝ Real.sqrt (Real.logb 10)).spectrumSize : ℝ)))) =
      Flt.fin (Real.logb 10 3) := by
    rw [hf2]; exact envLog_fastLog10 ℝ _ _ 3 (by norm_num)
  have h23 : Real.logb 10 2 < Real.logb 10 3 :=
    Real.logb_lt_logb (by norm_num) (by norm_num) (by norm_num)
  have h742 : Real.logb 10 (7 / 4) < Real.logb 10 2 :=
    Real.logb_lt_logb (by norm_num) (by norm_num) (by norm_num)
  have hq := interior_value (envLog ℝ Real.sqrt (Real.logb 10)) (monitorOf ℝ 7) 8 (7 / 4) 2
    3 3 4 4 _ _ _ rfl (by norm_num) hround (by simp [envLog, envOf]) (by simp [envLog, envOf])
    rfl rfl rfl rfl (envLog_fastLog10 ℝ _ _ (7 / 4) (by norm_num)) hl1 hl2 (ne_of_gt h23)
  refine ⟨hround4, rfl, rfl, rfl, rfl, _, hq, ?_⟩
  have hw : (Real.logb 10 (7 / 4) - Real.logb 10 2) / (Real.logb 10 3 - Real.logb 10 2) < 0 :=
    div_neg_of_neg_of_pos (by linarith) (by linarith)
  have hmin : min (((3 : ℝ) + 3) / 2) ((4 + 4) / 2) = 3 := by norm_num
  rw [hmin]
  nlinarith

/-- C14, amended, at the frequency `6 / 5`, which rounds to bin 1 of 4 at the sample
    rate 8, with the base-10 logarithm of the real numbers. -/
theorem query_finite_no_fallback_witness :
    (monitorOf ℝ 7).sampleRate = Flt.fin 8 ∧ (0 : ℝ) < 8 ∧
    roundHalfEven ((6 / 5 : ℝ) /
      (8 / 2 / ((envLog ℝ Real.sqrt (Real.logb 10)).spectrumSize : ℝ))) = ((1 : Nat) : Int) ∧
    1 + 1 < (envLog ℝ Real.sqrt (Real.logb 10)).spectrumSize ∧
    (envLog ℝ Real.sqrt (Real.logb 10)).spectrumSize < 2 ^ 31 ∧
    ((monitorOf ℝ 7).spectrum 0)[1]? = some (Flt.fin 2) ∧
    ((monitorOf ℝ 7).spectrum 1)[1]? = some (Flt.fin 2) ∧
    ((monitorOf ℝ 7).spectrum 0)[1 + 1]? = some (Flt.fin 3) ∧
    ((monitorOf ℝ 7).spectrum 1)[1 + 1]? = some (Flt.fin 3) ∧
    (envLog ℝ Real.sqrt (Real.logb 10)).fastLog10 (Flt.fin (6 / 5)) =
      Flt.fin (Real.logb 10 (6 / 5)) ∧
    (envLog ℝ Real.sqrt (Real.logb 10)).fastLog10 (Flt.fin (((1 : Nat) : ℝ) *
      (8 / 2 / ((envLog ℝ Real.sqrt (Real.logb 10)).spectrumSize : ℝ)))) =
      Flt.fin (Real.logb 10 1) ∧
    (envLog ℝ Real.sqrt (Real.logb 10)).fastLog10 (Flt.fin ((((1 : Nat) : ℝ) + 1) *
      (8 / 2 / ((envLog ℝ Real.sqrt (Real.logb 10)).spectrumSize : ℝ)))) =
      Flt.fin (Real.logb 10 2) ∧
    Real.logb 10 2 ≠ Real.logb 10 1 ∧
    ((∃ v : ℝ, getInterpolatedSpectrumAtFrequency (envLog ℝ Real.sqrt (Real.logb 10))
        (monitorOf ℝ 7) (Flt.fin (6 / 5)) = Except.ok (Flt.fin v)) ∧
    (∃ w : Flt ℝ, getInterpolatedSpectrumAtFrequency (envLog ℝ Real.sqrt (Real.logb 10))
        { monitorOf ℝ 7 with sampleRate := Flt.fin 0 } (Flt.fin (6 / 5)) = Except.ok w ∧
      w.isFinite = false)) := by
  have hsz : (((envLog ℝ Real.sqrt (Real.logb 10)).spectrumSize : Nat) : ℝ) = 4 := by
    simp [envLog, envOf]
  have hround : roundHalfEven ((6 / 5 : ℝ) /
      (8 / 2 / ((envLog ℝ Real.sqrt (Real.logb 10)).spectrumSize : ℝ))) = ((1 : Nat) : Int) := by
    apply roundHalfEven_of_near <;> norm_num [envLog, envOf]
  have hf1 : ((1 : Nat) : ℝ) *
      (8 / 2 / ((envLog ℝ Real.sqrt (Real.logb 10)).spectrumSize : ℝ)) = 1 := by
    rw [hsz]; norm_num
  have hf2 : (((1 : Nat) : ℝ) + 1) *
      (8 / 2 / ((envLog ℝ Real.sqrt (Real.logb 10)).spectrumSize : ℝ)) = 2 := by
    rw [hsz]; norm_num
  have hlf := envLog_fastLog10 ℝ Real.sqrt (Real.logb 10) (6 / 5) (by norm_num)
  have hl1 : (envLog ℝ Real.sqrt (Real.logb 10)).fastLog10 (Flt.fin (((1 : Nat) : ℝ) *
      (8 / 2 / ((envLog ℝ Real.sqrt (Real.logb 10)).spectrumSize : ℝ)))) =
      Flt.fin (Real.logb 10 1) := by
    rw [hf1]; exact envLog_fastLog10 ℝ _ _ 1 (by norm_num)
  have hl2 : (envLog ℝ Real.sqrt (Real.logb 10)).fastLog10 (Flt.fin ((((1 : Nat) : ℝ) + 1) *
      (8 / 2 / ((envLog ℝ Real.sqrt (Real.logb 10)).spectrumSize : ℝ)))) =
      Flt.fin (Real.logb 10 2) := by
    rw [hf2]; exact envLog_fastLog10 ℝ _ _ 2 (by norm_num)
  have hne : Real.logb 10 2 ≠ Real.logb 10 1 :=
    ne_of_gt (Real.logb_lt_logb (by norm_num) (by norm_num) (by norm_num))
  exact ⟨rfl, by norm_num, hround, by simp [envLog, envOf], by simp [envLog, envOf],
    rfl, rfl, rfl, rfl, hlf, hl1, hl2, hne,
    query_finite_no_fallback (envLog ℝ Real.sqrt (Real.logb 10)) (monitorOf ℝ 7) 8 (6 / 5) 1
      2 2 3 3 _ _ _ rfl (by norm_num) hround (by simp [envLog, envOf]) (by simp [envLog, envOf])
      rfl rfl rfl rfl hlf hl1 hl2 hne⟩

/-- C14, counterexample: with 4 bins per row, the ordinary numbers `[1, 2, 3, 4]` in both
    spectrum rows and the sample rate 0, the resolution is 0; at the frequency 1 the quotient
    `1 / 0` is infinite, `roundToInt` yields the index 0, both bin frequencies are 0 and the
    denominator of the fraction is 0 or NaN. Whatever `fastLog10` is, the query returns NaN
    or an infinity and not the averaged value `(1 + 1) / 2` of the lower bin; with the
    identity in the place of `fastLog10` it returns plus infinity. -/
theorem query_undefined_fraction :
    ((monitorQ 7).spectrum 0)[0]? = some (Flt.fin 1) ∧
    ((monitorQ 7).spectrum 1)[0]? = some (Flt.fin 1) ∧
    (∀ lg : Flt ℚ → Flt ℚ, ∃ w : Flt ℚ,
      getInterpolatedSpectrumAtFrequency { envQ with fastLog10 := lg }
        { monitorQ 7 with sampleRate := Flt.fin 0 } (Flt.fin 1) = Except.ok w ∧
      w.isFinite = false ∧ w ≠ Flt.fin ((1 + 1) / 2)) ∧
    getInterpolatedSpectrumAtFrequency envQ { monitorQ 7 with sampleRate := Flt.fin 0 }
      (Flt.fin 1) = Except.ok Flt.posInf := by
  refine ⟨rfl, rfl, ?_, ?_⟩
  · intro lg
    obtain ⟨w, hw, hfin⟩ := zero_rate_not_finite { envQ with fastLog10 := lg }
      { monitorQ 7 with sampleRate := Flt.fin 0 } (Flt.fin 1) (Flt.fin 1) (Flt.fin 1)
      (Flt.fin 2) (Flt.fin 2) rfl (by simp [envQ, envOf]) rfl rfl rfl rfl
    refine ⟨w, hw, hfin, ?_⟩
    intro h
    rw [h] at hfin
    exact absurd hfin (by simp [Flt.isFinite])
  · have hres : Flt.div (Flt.div (Flt.fin (0 : ℚ)) (Flt.fin 2)) (Flt.ofNat envQ.spectrumSize) =
        Flt.fin 0 := by
      simp [Flt.div, Flt.ofNat, envQ, envOf]
    have hdiv : Flt.div (Flt.fin (1 : ℚ)) (Flt.fin 0) = Flt.posInf := by
      simp [Flt.div]
    have hj1 : jlimit 0 (envQ.spectrumSize : Int) 0 = 0 := by decide
    have hj2 : jlimit 0 (envQ.spectrumSize : Int) (0 + 1) = 1 := by decide
    have hsucc : succInt 0 = Except.ok (0 + 1) := by
      unfold succInt
      rw [if_pos (by norm_num)]
    unfold getInterpolatedSpectrumAtFrequency
    simp only [hres, hdiv, roundToInt_posInf, hj1, hj2, hsucc, ok_bind]
    norm_num [readSpectrum, monitorQ, monitorOf, envQ, envOf, Flt.ofInt, Flt.mul, Flt.sub,
      Flt.neg, Flt.add, Flt.div, Flt.infTimes, ok_bind, pure_eq_ok]

end InterpolationExamples

/-! ## Levels of the latest block -/

section LatestBlock

variable {K : Type} [LinearOrderedField K]

/-- C15: after two consecutive callbacks the peak and the rms of a channel monitored by
    the second one are the values computed from the second block alone; a run from another
    prior state and another first block, with the same second block, gives the same peak
    and the same rms. -/
theorem levels_depend_on_last_block (env : Env K) (m m' : AudioMonitor K)
    (out1 out1' out2 : List (List (Flt K))) (no1 n1 no1' n1' no2 n2 c : Nat)
    (hc : c < jmin numChannels no2) :
    ((audioDeviceIOCallback env (audioDeviceIOCallback env m out1 no1 n1).monitor
        out2 no2 n2).monitor.getPeak c = (meterLoop (blockOf out2 c n2)).2 ∧
      (audioDeviceIOCallback env (audioDeviceIOCallback env m out1 no1 n1).monitor
        out2 no2 n2).monitor.getRootMeanSquare c =
          rootMeanSquareOf env (blockOf out2 c n2) n2) ∧
    (audioDeviceIOCallback env (audioDeviceIOCallback env m out1 no1 n1).monitor
        out2 no2 n2).monitor.getPeak c =
      (audioDeviceIOCallback env (audioDeviceIOCallback env m' out1' no1' n1').monitor
        out2 no2 n2).monitor.getPeak c ∧
    (audioDeviceIOCallback env (audioDeviceIOCallback env m out1 no1 n1).monitor
        out2 no2 n2).monitor.getRootMeanSquare c =
      (audioDeviceIOCallback env (audioDeviceIOCallback env m' out1' no1' n1').monitor
        out2 no2 n2).monitor.getRootMeanSquare c := by
  refine ⟨⟨getPeak_after _ _ _ _ _ _ hc, getRootMeanSquare_after _ _ _ _ _ _ hc⟩, ?_, ?_⟩
  · rw [getPeak_after _ _ _ _ _ _ hc, getPeak_after _ _ _ _ _ _ hc]
  · rw [getRootMeanSquare_after _ _ _ _ _ _ hc, getRootMeanSquare_after _ _ _ _ _ _ hc]

/-- C15 at two runs with different first blocks and different prior states. -/
theorem levels_depend_on_last_block_witness :
    0 < jmin numChannels 1 ∧
    (((audioDeviceIOCallback envQ (audioDeviceIOCallback envQ (monitorQ 7)
        [[Flt.fin 5]] 1 1).monitor [[Flt.fin 1, Flt.fin 2]] 1 2).monitor.getPeak 0 =
        (meterLoop (blockOf [[(Flt.fin 1 : Flt ℚ), Flt.fin 2]] 0 2)).2 ∧
      (audioDeviceIOCallback envQ (audioDeviceIOCallback envQ (monitorQ 7)
        [[Flt.fin 5]] 1 1).monitor [[Flt.fin 1, Flt.fin 2]] 1 2).monitor.getRootMeanSquare 0 =
          rootMeanSquareOf envQ (blockOf [[(Flt.fin 1 : Flt ℚ), Flt.fin 2]] 0 2) 2) ∧
    (audioDeviceIOCallback envQ (audioDeviceIOCallback envQ (monitorQ 7)
        [[Flt.fin 5]] 1 1).monitor [[Flt.fin 1, Flt.fin 2]] 1 2).monitor.getPeak 0 =
      (audioDeviceIOCallback envQ (audioDeviceIOCallback envQ (monitorQ 9)
        [[Flt.fin (-3)], [Flt.fin 8]] 2 1).monitor
          [[Flt.fin 1, Flt.fin 2]] 1 2).monitor.getPeak 0 ∧
    (audioDeviceIOCallback envQ (audioDeviceIOCallback envQ (monitorQ 7)
        [[Flt.fin 5]] 1 1).monitor [[Flt.fin 1, Flt.fin 2]] 1 2).monitor.getRootMeanSquare 0 =
      (audioDeviceIOCallback envQ (audioDeviceIOCallback envQ (monitorQ 9)
        [[Flt.fin (-3)], [Flt.fin 8]] 2 1).monitor
          [[Flt.fin 1, Flt.fin 2]] 1 2).monitor.getRootMeanSquare 0) :=
  ⟨by decide,
    levels_depend_on_last_block envQ (monitorQ 7) (monitorQ 9) [[Flt.fin 5]]
      [[Flt.fin (-3)], [Flt.fin 8]] [[Flt.fin 1, Flt.fin 2]] 1 1 2 1 1 2 0 (by decide)⟩

/-- The running maximum, started at a number that is not negative, is a number that is
    not negative or plus infinity, whatever the samples are. -/
theorem meterFold_peak_nonneg (block : List (Flt K)) (a p : Flt K)
    (hp : (∃ q : K, 0 ≤ q ∧ p = Flt.fin q) ∨ p = Flt.posInf) :
    (∃ q : K, 0 ≤ q ∧ (block.foldl meterStep (a, p)).2 = Flt.fin q) ∨
      (block.foldl meterStep (a, p)).2 = Flt.posInf := by
  induction block generalizing a p with
  | nil => exact hp
  | cons x block ih =>
    rw [List.foldl_cons]
    apply ih
    simp only [meterStep, jmax]
    rcases hp with ⟨q, hq, rfl⟩ | rfl
    · cases x with
      | nan => left; exact ⟨q, hq, by simp [Flt.lt]⟩
      | negInf => left; exact ⟨q, hq, by simp [Flt.lt]⟩
      | posInf => right; simp [Flt.lt]
      | fin x0 =>
        by_cases h : q < x0
        · left; exact ⟨x0, le_trans hq h.le, by simp [Flt.lt, h]⟩
        · left; exact ⟨q, hq, by simp [Flt.lt, h]⟩
    · right
      cases x <;> simp [Flt.lt]

/-- C20: for every callback and every monitored channel the stored peak is never negative
    (an ordinary number that is at least 0, or plus infinity); for a block of ordinary
    numbers it is the greatest of 0 and the samples, so it is 0 when every sample is at
    most 0, and such a block makes no clipping trigger when `clipThreshold` is not
    negative. -/
theorem peak_running_max_from_zero (env : Env K) (m : AudioMonitor K)
    (out : List (List (Flt K))) (no n c : Nat)
    (hc : c < jmin numChannels no) (hclip : 0 ≤ env.clipThreshold) :
    ((∃ q : K, 0 ≤ q ∧ (audioDeviceIOCallback env m out no n).monitor.getPeak c = Flt.fin q) ∨
      (audioDeviceIOCallback env m out no n).monitor.getPeak c = Flt.posInf) ∧
    (∀ xs : List K, blockOf out c n = xs.map Flt.fin →
      ∃ p : K, (audioDeviceIOCallback env m out no n).monitor.getPeak c = Flt.fin p ∧
        0 ≤ p ∧ (∀ x ∈ xs, x ≤ p) ∧ (p = 0 ∨ p ∈ xs) ∧
        ((∀ x ∈ xs, x ≤ 0) → p = 0 ∧
          (audioDeviceIOCallback env m out no n).triggers.count
            { channel := c, kind := Warning.clipping } = 0)) := by
  constructor
  · rw [getPeak_after _ _ _ _ _ _ hc]
    exact meterFold_peak_nonneg _ _ _ (Or.inl ⟨0, le_refl 0, rfl⟩)
  · intro xs hblock
    refine ⟨xs.foldl max 0, ?_, foldl_max_ge xs 0, foldl_max_mem_le xs 0, foldl_max_mem xs 0, ?_⟩
    · rw [getPeak_after _ _ _ _ _ _ hc, hblock, meterLoop_fin]
    · intro hneg
      have hp0 : xs.foldl max 0 = 0 := by
        rcases foldl_max_mem xs 0 with h | h
        · exact h
        · exact le_antisymm (hneg _ h) (foldl_max_ge xs 0)
      refine ⟨hp0, ?_⟩
      rw [triggers_after, rangeTriggers_count_clipping, hblock, meterLoop_fin, hp0]
      simp [clipTest, Flt.gt, Flt.lt, hclip]

/-- C20 at the block `[-5, -1000]`. -/
theorem peak_running_max_from_zero_witness :
    0 < jmin numChannels 1 ∧ 0 ≤ envQ.clipThreshold ∧
    (((∃ q : ℚ, 0 ≤ q ∧ (audioDeviceIOCallback envQ (monitorQ 7)
        [[Flt.fin (-5), Flt.fin (-1000)]] 1 2).monitor.getPeak 0 = Flt.fin q) ∨
      (audioDeviceIOCallback envQ (monitorQ 7)
        [[Flt.fin (-5), Flt.fin (-1000)]] 1 2).monitor.getPeak 0 = Flt.posInf) ∧
    (∀ xs : List ℚ, blockOf [[(Flt.fin (-5) : Flt ℚ), Flt.fin (-1000)]] 0 2 = xs.map Flt.fin →
      ∃ p : ℚ, (audioDeviceIOCallback envQ (monitorQ 7)
          [[Flt.fin (-5), Flt.fin (-1000)]] 1 2).monitor.getPeak 0 = Flt.fin p ∧
        0 ≤ p ∧ (∀ x ∈ xs, x ≤ p) ∧ (p = 0 ∨ p ∈ xs) ∧
        ((∀ x ∈ xs, x ≤ 0) → p = 0 ∧
          (audioDeviceIOCallback envQ (monitorQ 7)
            [[Flt.fin (-5), Flt.fin (-1000)]] 1 2).triggers.count
              { channel := 0, kind := Warning.clipping } = 0))) :=
  ⟨by decide, by simp [envQ, envOf],
    peak_running_max_from_zero envQ (monitorQ 7) [[Flt.fin (-5), Flt.fin (-1000)]] 1 2 0
      (by decide) (by simp [envQ, envOf])⟩

end LatestBlock

/-! ## Independence of the two dispatchers -/

section Independence

variable {K : Type} [LinearOrderedField K]

theorem updater_setUpdater_other (m : AudioMonitor K) (kind other : Warning)
    (u : AsyncUpdater) (hne : other ≠ kind) :
    (m.setUpdater kind u).updater other = m.updater other := by
  cases kind <;> cases other <;> first | rfl | exact absurd rfl hne

theorem drain_kind (kind : Warning) (m : AudioMonitor K) :
    ∀ x ∈ (drain kind m).2, x.kind = kind := by
  intro x hx
  unfold drain at hx
  split_ifs at hx
  · simp only [handleAsyncUpdate, listenerCall, AudioMonitor.getListeners, List.mem_map] at hx
    obtain ⟨l, -, rfl⟩ := hx
    rfl
  · simp at hx

theorem meterChannel_updater_other (env : Env K) (out : List (List (Flt K))) (n : Nat)
    (st : CallbackState K) (c : Nat) (other : Warning)
    (h : ∀ t ∈ channelTriggers env out n c, t.kind ≠ other) :
    (meterChannel env out n st c).1.updater other = st.1.updater other := by
  unfold channelTriggers at h
  unfold meterChannel
  simp only at h ⊢
  by_cases hcl : clipTest env (meterLoop (blockOf out c n)).2 = true <;>
  by_cases hos : oversaturationTest env (meterLoop (blockOf out c n)).2
      (rootMeanSquareOf env (blockOf out c n) n) = true
  · exact absurd rfl (h { channel := c, kind := other } (by cases other <;> simp [hcl, hos]))
  · rw [if_pos hcl, if_neg hos]
    cases other
    · exact absurd rfl (h { channel := c, kind := Warning.clipping } (by simp [hcl]))
    · rfl
  · rw [if_neg hcl, if_pos hos]
    cases other
    · rfl
    · exact absurd rfl (h { channel := c, kind := Warning.oversaturation } (by simp [hos]))
  · rw [if_neg hcl, if_neg hos]
    cases other <;> rfl

theorem meterFold_updater_other (env : Env K) (out : List (List (Flt K))) (n k : Nat)
    (st : CallbackState K) (other : Warning)
    (h : ∀ t ∈ (List.range k).flatMap (channelTriggers env out n), t.kind ≠ other) :
    ((List.range k).foldl (meterChannel env out n) st).1.updater other =
      st.1.updater other := by
  induction k with
  | zero => rfl
  | succ k ih =>
    rw [List.range_succ, List.flatMap_append] at h
    rw [List.range_succ, List.foldl_append, List.foldl_cons, List.foldl_nil,
      meterChannel_updater_other env out n _ k other
        (fun t ht => h t (List.mem_append_right _ (by simpa using ht))),
      ih (fun t ht => h t (List.mem_append_left _ ht))]

theorem spectrumFold_updater (env : Env K) (out : List (List (Flt K))) (no n k : Nat)
    (m : AudioMonitor K) (kind : Warning) :
    ((List.range k).foldl (spectrumChannel env out no n) m).updater kind = m.updater kind := by
  induction k with
  | zero => rfl
  | succ k ih =>
    rw [List.range_succ, List.foldl_append, List.foldl_cons, List.foldl_nil]
    cases kind <;> exact ih

/-- A callback that makes no trigger of a kind leaves the dispatcher of that kind as it
    was. -/
theorem updater_after_untouched (env : Env K) (m : AudioMonitor K)
    (out : List (List (Flt K))) (no n : Nat) (other : Warning)
    (h : ∀ t ∈ (audioDeviceIOCallback env m out no n).triggers, t.kind ≠ other) :
    (audioDeviceIOCallback env m out no n).monitor.updater other = m.updater other := by
  rw [triggers_after] at h
  simp only [audioDeviceIOCallback]
  rw [meterFold_updater_other env out n _ _ other h, spectrumFold_updater]

/-- C16: the two dispatchers are independent. Draining the dispatcher of one kind, when
    Pending, calls the method of that kind on every registered listener and no method of
    the other kind; triggering or draining one kind leaves the dispatcher of the other kind
    as it was, and so does an audio callback in which only the one kind is triggered. -/
theorem dispatchers_independent (kind other : Warning) (m : AudioMonitor K)
    (hne : other ≠ kind) :
    ((m.updater kind).pending = true →
      (drain kind m).2 = m.clippingListeners.map (fun l => { listener := l, kind := kind })) ∧
    (∀ x ∈ (drain kind m).2, x.kind = kind ∧ x.kind ≠ other) ∧
    (trigger kind m).updater other = m.updater other ∧
    (drain kind m).1.updater other = m.updater other ∧
    (∀ (env : Env K) (out : List (List (Flt K))) (no n : Nat),
      (∀ t ∈ (audioDeviceIOCallback env m out no n).triggers, t.kind = kind) →
      (audioDeviceIOCallback env m out no n).monitor.updater other = m.updater other) := by
  refine ⟨fun hp => ?_, fun x hx => ?_, ?_, ?_, fun env out no n h => ?_⟩
  · rw [drain_pending kind m hp]
    rfl
  · have hk := drain_kind kind m x hx
    exact ⟨hk, fun h => hne (h.symm.trans hk)⟩
  · unfold trigger
    exact updater_setUpdater_other m kind other _ hne
  · unfold drain
    split_ifs
    · exact updater_setUpdater_other m kind other _ hne
    · rfl
  · exact updater_after_untouched env m out no n other
      (fun t ht hk => hne (hk.symm.trans (h t ht)))

/-- C16 at the clipping dispatcher against the oversaturation dispatcher. -/
theorem dispatchers_independent_witness :
    Warning.oversaturation ≠ Warning.clipping ∧
    ((((monitorQ 7).updater Warning.clipping).pending = true →
      (drain Warning.clipping (monitorQ 7)).2 =
        (monitorQ 7).clippingListeners.map
          (fun l => { listener := l, kind := Warning.clipping })) ∧
    (∀ x ∈ (drain Warning.clipping (monitorQ 7)).2,
      x.kind = Warning.clipping ∧ x.kind ≠ Warning.oversaturation) ∧
    (trigger Warning.clipping (monitorQ 7)).updater Warning.oversaturation =
      (monitorQ 7).updater Warning.oversaturation ∧
    (drain Warning.clipping (monitorQ 7)).1.updater Warning.oversaturation =
      (monitorQ 7).updater Warning.oversaturation ∧
    (∀ (env : Env ℚ) (out : List (List (Flt ℚ))) (no n : Nat),
      (∀ t ∈ (audioDeviceIOCallback env (monitorQ 7) out no n).triggers,
        t.kind = Warning.clipping) →
      (audioDeviceIOCallback env (monitorQ 7) out no n).monitor.updater
          Warning.oversaturation =
        (monitorQ 7).updater Warning.oversaturation)) :=
  ⟨by decide, dispatchers_independent Warning.clipping Warning.oversaturation (monitorQ 7)
    (by decide)⟩

end Independence

/-! ## Order of the calls -/

section RegistrationOrder

variable {K : Type}

theorem updater_addClippingListener (m : AudioMonitor K) (l : ClippingListener)
    (kind : Warning) : (m.addClippingListener l).updater kind = m.updater kind := by
  cases kind <;> rfl

theorem updater_removeClippingListener (m : AudioMonitor K) (l : ClippingListener)
    (kind : Warning) : (m.removeClippingListener l).updater kind = m.updater kind := by
  cases kind <;> rfl

theorem foldl_add_updater (ls : List ClippingListener) (m : AudioMonitor K) (kind : Warning) :
    (ls.foldl AudioMonitor.addClippingListener m).updater kind = m.updater kind := by
  induction ls generalizing m with
  | nil => rfl
  | cons l ls ih => rw [List.foldl_cons, ih, updater_addClippingListener]

/-- Listeners that are registered one after the other, each for the first time, stand in
    the registry in the order of their registration, behind those already there. -/
theorem foldl_add_registry (ls : List ClippingListener) (m : AudioMonitor K)
    (h : (m.clippingListeners ++ ls).Nodup) :
    (ls.foldl AudioMonitor.addClippingListener m).clippingListeners =
      m.clippingListeners ++ ls := by
  induction ls generalizing m with
  | nil => simp
  | cons l ls ih =>
    have hl : l ∉ m.clippingListeners := by
      intro hmem
      have := List.nodup_append.mp h
      exact this.2.2 hmem (List.mem_cons_self _ _)
    have hstep : (m.addClippingListener l).clippingListeners = m.clippingListeners ++ [l] := by
      simp [AudioMonitor.addClippingListener, listenerAdd, hl]
    rw [List.foldl_cons, ih]
    · rw [hstep]; simp
    · rw [hstep]; simpa using h

/-- C17: when the listeners `ls`, all different, have been registered in this order with
    `addClippingListener` on an empty registry and the dispatcher of a kind of warning is
    Pending, its drain calls the method of that kind once on each listener, in the order
    `ls`; after `removeClippingListener` the drain calls the remaining listeners, still in
    the order of their registration. -/
theorem drain_calls_in_registration_order (kind : Warning) (m0 : AudioMonitor K)
    (ls : List ClippingListener) (removed : ClippingListener)
    (hempty : m0.clippingListeners = []) (hnodup : ls.Nodup)
    (hp : (m0.updater kind).pending = true) :
    (drain kind (ls.foldl AudioMonitor.addClippingListener m0)).2 =
      ls.map (fun l => { listener := l, kind := kind }) ∧
    (∀ l ∈ ls, (drain kind (ls.foldl AudioMonitor.addClippingListener m0)).2.count
      { listener := l, kind := kind } = 1) ∧
    (drain kind ((ls.foldl AudioMonitor.addClippingListener m0).removeClippingListener
      removed)).2 = (ls.erase removed).map (fun l => { listener := l, kind := kind }) := by
  have hreg : (ls.foldl AudioMonitor.addClippingListener m0).clippingListeners = ls := by
    rw [foldl_add_registry ls m0 (by rw [hempty]; simpa using hnodup), hempty]
    simp
  have hpend : ((ls.foldl AudioMonitor.addClippingListener m0).updater kind).pending = true := by
    rw [foldl_add_updater]; exact hp
  have h1 : (drain kind (ls.foldl AudioMonitor.addClippingListener m0)).2 =
      ls.map (fun l => { listener := l, kind := kind }) := by
    rw [drain_pending kind _ hpend, hreg]
    rfl
  refine ⟨h1, fun l hl => ?_, ?_⟩
  · rw [h1]
    exact listenerCall_count ls kind hnodup l hl
  · have hpend2 : (((ls.foldl AudioMonitor.addClippingListener m0).removeClippingListener
        removed).updater kind).pending = true := by
      rw [updater_removeClippingListener]; exact hpend
    rw [drain_pending kind _ hpend2]
    simp only [AudioMonitor.removeClippingListener, listenerRemove, hreg]
    rfl

/-- C17 at the registration of the listeners 3, 1 and 2, in this order. -/
theorem drain_calls_in_registration_order_witness :
    (monitorPending ℚ).clippingListeners = [] ∧ [3, 1, 2].Nodup ∧
    ((monitorPending ℚ).updater Warning.clipping).pending = true ∧
    ((drain Warning.clipping
        ([3, 1, 2].foldl AudioMonitor.addClippingListener (monitorPending ℚ))).2 =
      [3, 1, 2].map (fun l => { listener := l, kind := Warning.clipping }) ∧
    (∀ l ∈ [3, 1, 2], (drain Warning.clipping
        ([3, 1, 2].foldl AudioMonitor.addClippingListener (monitorPending ℚ))).2.count
      { listener := l, kind := Warning.clipping } = 1) ∧
    (drain Warning.clipping
      (([3, 1, 2].foldl AudioMonitor.addClippingListener
        (monitorPending ℚ)).removeClippingListener 1)).2 =
      ([3, 1, 2].erase 1).map (fun l => { listener := l, kind := Warning.clipping })) :=
  ⟨rfl, by decide, rfl,
    drain_calls_in_registration_order Warning.clipping (monitorPending ℚ) [3, 1, 2] 1 rfl
      (by decide) rfl⟩

end RegistrationOrder

/-! ## Slots that a callback leaves alone -/

section Frame

variable {K : Type} [LinearOrderedField K]

theorem meterChannel_rest (env : Env K) (out : List (List (Flt K))) (n : Nat)
    (st : CallbackState K) (c : Nat) :
    (meterChannel env out n st c).1.spectrum = st.1.spectrum ∧
    (meterChannel env out n st c).1.sampleRate = st.1.sampleRate := by
  unfold meterChannel
  simp only
  split_ifs <;> exact ⟨rfl, rfl⟩

theorem meterFold_rest (env : Env K) (out : List (List (Flt K))) (n k : Nat)
    (st : CallbackState K) :
    ((List.range k).foldl (meterChannel env out n) st).1.spectrum = st.1.spectrum ∧
    ((List.range k).foldl (meterChannel env out n) st).1.sampleRate = st.1.sampleRate := by
  induction k with
  | zero => exact ⟨rfl, rfl⟩
  | succ k ih =>
    rw [List.range_succ, List.foldl_append, List.foldl_cons, List.foldl_nil]
    obtain ⟨h1, h2⟩ := meterChannel_rest env out n
      ((List.range k).foldl (meterChannel env out n) st) k
    exact ⟨h1.trans ih.1, h2.trans ih.2⟩

theorem spectrumFold_rest (env : Env K) (out : List (List (Flt K))) (no n k : Nat)
    (m : AudioMonitor K) (c : Nat) (hc : k ≤ c) :
    ((List.range k).foldl (spectrumChannel env out no n) m).spectrum c = m.spectrum c ∧
    ((List.range k).foldl (spectrumChannel env out no n) m).sampleRate = m.sampleRate := by
  induction k with
  | zero => exact ⟨rfl, rfl⟩
  | succ k ih =>
    rw [List.range_succ, List.foldl_append, List.foldl_cons, List.foldl_nil]
    obtain ⟨h1, h2⟩ := ih (by omega)
    refine ⟨?_, h2⟩
    simp only [spectrumChannel]
    rw [Function.update_noteq (by omega), h1]

theorem channelTriggers_channel (env : Env K) (out : List (List (Flt K))) (n d : Nat) :
    ∀ t ∈ channelTriggers env out n d, t.channel = d := by
  intro t ht
  unfold channelTriggers at ht
  simp only [List.mem_append] at ht
  rcases ht with ht | ht
  · split_ifs at ht
    · rw [List.mem_singleton.mp ht]
    · simp at ht
  · split_ifs at ht
    · rw [List.mem_singleton.mp ht]
    · simp at ht

/-- Every trigger of a callback is made for a monitored channel. -/
theorem triggers_channel_lt (env : Env K) (m : AudioMonitor K) (out : List (List (Flt K)))
    (no n : Nat) :
    ∀ t ∈ (audioDeviceIOCallback env m out no n).triggers, t.channel < jmin numChannels no := by
  intro t ht
  rw [triggers_after, List.mem_flatMap] at ht
  obtain ⟨d, hd, htd⟩ := ht
  rw [channelTriggers_channel env out n d t htd]
  exact List.mem_range.mp hd

/-- C21: a callback writes the peak, the rms and the spectrum only of the channels below
    `min (numChannels, numOutputChannels)`: for every other channel slot the peak, the rms
    and the spectrum row after the call are those from before, the sample rate is the one
    from before, and no trigger is made for that channel; with `numOutputChannels <= 1`
    this holds for slot 1, and with `numOutputChannels = 0` for every slot, and then no
    trigger is made at all. -/
theorem unmonitored_slots_unchanged (env : Env K) (m : AudioMonitor K)
    (out : List (List (Flt K))) (no n c : Nat) (hc : ¬ c < jmin numChannels no) :
    (audioDeviceIOCallback env m out no n).monitor.getPeak c = m.getPeak c ∧
    (audioDeviceIOCallback env m out no n).monitor.getRootMeanSquare c =
      m.getRootMeanSquare c ∧
    (audioDeviceIOCallback env m out no n).monitor.spectrum c = m.spectrum c ∧
    (audioDeviceIOCallback env m out no n).monitor.sampleRate = m.sampleRate ∧
    (∀ t ∈ (audioDeviceIOCallback env m out no n).triggers, t.channel ≠ c) ∧
    (no ≤ 1 → (audioDeviceIOCallback env m out no n).monitor.getPeak 1 = m.getPeak 1 ∧
      (audioDeviceIOCallback env m out no n).monitor.getRootMeanSquare 1 =
        m.getRootMeanSquare 1) ∧
    (no = 0 → (audioDeviceIOCallback env m out no n).triggers = []) := by
  have hpeak : ∀ d, ¬ d < jmin numChannels no →
      (audioDeviceIOCallback env m out no n).monitor.getPeak d = m.getPeak d ∧
      (audioDeviceIOCallback env m out no n).monitor.getRootMeanSquare d =
        m.getRootMeanSquare d := by
    intro d hd
    simp only [audioDeviceIOCallback, AudioMonitor.getPeak, AudioMonitor.getRootMeanSquare]
    rw [meterFold_peak, meterFold_rms, if_neg hd, if_neg hd]
    obtain ⟨h1, h2⟩ := spectrumFold_peak env out no n (jmin numChannels no) m
    simp only [h1, h2, and_self]
  refine ⟨(hpeak c hc).1, (hpeak c hc).2, ?_, ?_, ?_, ?_, ?_⟩
  · simp only [audioDeviceIOCallback]
    rw [(meterFold_rest env out n _ _).1]
    exact (spectrumFold_rest env out no n _ m c (not_lt.mp hc)).1
  · simp only [audioDeviceIOCallback]
    rw [(meterFold_rest env out n _ _).2]
    exact (spectrumFold_rest env out no n _ m c (not_lt.mp hc)).2
  · intro t ht h
    exact hc (h ▸ triggers_channel_lt env m out no n t ht)
  · intro h1
    apply hpeak
    unfold jmin numChannels
    split_ifs <;> omega
  · intro h0
    subst h0
    rw [triggers_after]
    rfl

/-- C21 at one output channel, for slot 1. -/
theorem unmonitored_slots_unchanged_witness :
    ¬ 1 < jmin numChannels 1 ∧
    ((audioDeviceIOCallback envQ (monitorQ 7) [[Flt.fin 2]] 1 1).monitor.getPeak 1 =
        (monitorQ 7).getPeak 1 ∧
    (audioDeviceIOCallback envQ (monitorQ 7) [[Flt.fin 2]] 1 1).monitor.getRootMeanSquare 1 =
      (monitorQ 7).getRootMeanSquare 1 ∧
    (audioDeviceIOCallback envQ (monitorQ 7) [[Flt.fin 2]] 1 1).monitor.spectrum 1 =
      (monitorQ 7).spectrum 1 ∧
    (audioDeviceIOCallback envQ (monitorQ 7) [[Flt.fin 2]] 1 1).monitor.sampleRate =
      (monitorQ 7).sampleRate ∧
    (∀ t ∈ (audioDeviceIOCallback envQ (monitorQ 7) [[Flt.fin 2]] 1 1).triggers,
      t.channel ≠ 1) ∧
    (1 ≤ 1 → (audioDeviceIOCallback envQ (monitorQ 7) [[Flt.fin 2]] 1 1).monitor.getPeak 1 =
        (monitorQ 7).getPeak 1 ∧
      (audioDeviceIOCallback envQ (monitorQ 7) [[Flt.fin 2]] 1 1).monitor.getRootMeanSquare 1 =
        (monitorQ 7).getRootMeanSquare 1) ∧
    (1 = 0 → (audioDeviceIOCallback envQ (monitorQ 7) [[Flt.fin 2]] 1 1).triggers = [])) :=
  ⟨by decide, unmonitored_slots_unchanged envQ (monitorQ 7) [[Flt.fin 2]] 1 1 1 (by decide)⟩

end Frame

/-! ## Bin frequencies of the interpolation -/

section BinFrequencies

variable {K : Type} [LinearOrderedField K] [FloorRing K]

/-- Whatever the clamping does to the two array indices, the bin frequencies `f1` and `f2`
    of the interpolation come from the indices as rounded: when the four reads at the
    clamped indices are defined, the query returns the formula of the source with
    `f1 = i * resolution` and `f2 = (i + 1) * resolution`. -/
theorem query_clamped (env : Env K) (m : AudioMonitor K) (r f : K) (i : Nat)
    (v01 v11 v02 v12 : Flt K)
    (hrate : m.sampleRate = Flt.fin r) (hr : 0 < r) (hs : 0 < env.spectrumSize)
    (hround : roundHalfEven (f / (r / 2 / (env.spectrumSize : K))) = (i : Int))
    (hint : i + 1 < 2 ^ 31)
    (h01 : readSpectrum m 0 (jlimit 0 (env.spectrumSize : Int) (i : Int)) = Except.ok v01)
    (h11 : readSpectrum m 1 (jlimit 0 (env.spectrumSize : Int) (i : Int)) = Except.ok v11)
    (h02 : readSpectrum m 0 (jlimit 0 (env.spectrumSize : Int) ((i : Int) + 1)) =
      Except.ok v02)
    (h12 : readSpectrum m 1 (jlimit 0 (env.spectrumSize : Int) ((i : Int) + 1)) =
      Except.ok v12) :
    getInterpolatedSpectrumAtFrequency env m (Flt.fin f) =
      Except.ok (Flt.add (Flt.div (Flt.add v01 v11) (Flt.fin 2))
        (Flt.mul
          (Flt.div
            (Flt.sub (env.fastLog10 (Flt.fin f))
              (env.fastLog10 (Flt.fin ((i : K) * (r / 2 / (env.spectrumSize : K))))))
            (Flt.sub (env.fastLog10 (Flt.fin (((i : K) + 1) * (r / 2 / (env.spectrumSize : K)))))
              (env.fastLog10 (Flt.fin ((i : K) * (r / 2 / (env.spectrumSize : K)))))))
          (Flt.sub (Flt.div (Flt.add v02 v12) (Flt.fin 2))
            (Flt.div (Flt.add v01 v11) (Flt.fin 2))))) := by
  have hrt : roundToInt (Flt.fin (f / (r / 2 / (env.spectrumSize : K)))) = (i : Int) := by
    have h := roundToInt_fin (f / (r / 2 / (env.spectrumSize : K)))
      (by rw [hround]; omega) (by rw [hround]; omega)
    rw [h, hround]
  have hsucc : succInt (i : Int) = Except.ok ((i : Int) + 1) := succInt_natCast i hint
  unfold getInterpolatedSpectrumAtFrequency
  simp only [hrate, resolution_eq r _ hs, div_resolution f r _ hr hs, hrt, ok_bind, h01,
    h11, hsucc, h02, h12, pure_eq_ok, Flt.ofInt, Flt.mul, Int.cast_natCast,
    Int.cast_add, Int.cast_one]

/-- C22: at a positive sample rate, for a frequency that rounds to a bin index `i >= 1`,
    the bin frequencies of the source are `f1 = i * resolution` and
    `f2 = (i + 1) * resolution`, taken from the indices before clamping; both are positive
    and `f2 - f1 = resolution`, so with an increasing logarithm the denominator
    `lg f2 - lg f1` is positive; and whenever the four reads at the clamped indices are
    defined and give ordinary numbers, the division is defined and the query returns
    `y1 + ((lg f - lg f1) / (lg f2 - lg f1)) * (y2 - y1)`, also when the two clamped
    indices coincide. -/
theorem bin_frequencies_unclamped (env : Env K) (m : AudioMonitor K) (r f : K) (i : Nat)
    (lg : K → K)
    (hrate : m.sampleRate = Flt.fin r) (hr : 0 < r) (hs : 0 < env.spectrumSize)
    (hround : roundHalfEven (f / (r / 2 / (env.spectrumSize : K))) = (i : Int))
    (h1 : 1 ≤ i)
    (hlog : ∀ x : K, 0 < x → env.fastLog10 (Flt.fin x) = Flt.fin (lg x))
    (hmono : ∀ x y : K, 0 < x → x < y → lg x < lg y) :
    Flt.mul (Flt.ofInt (i : Int))
        (Flt.div (Flt.div m.sampleRate (Flt.fin 2)) (Flt.ofNat env.spectrumSize)) =
      Flt.fin ((i : K) * (r / 2 / (env.spectrumSize : K))) ∧
    Flt.mul (Flt.ofInt ((i : Int) + 1))
        (Flt.div (Flt.div m.sampleRate (Flt.fin 2)) (Flt.ofNat env.spectrumSize)) =
      Flt.fin (((i : K) + 1) * (r / 2 / (env.spectrumSize : K))) ∧
    0 < (i : K) * (r / 2 / (env.spectrumSize : K)) ∧
    0 < ((i : K) + 1) * (r / 2 / (env.spectrumSize : K)) ∧
    ((i : K) + 1) * (r / 2 / (env.spectrumSize : K)) -
      (i : K) * (r / 2 / (env.spectrumSize : K)) = r / 2 / (env.spectrumSize : K) ∧
    Flt.sub (env.fastLog10 (Flt.fin (((i : K) + 1) * (r / 2 / (env.spectrumSize : K)))))
        (env.fastLog10 (Flt.fin ((i : K) * (r / 2 / (env.spectrumSize : K))))) =
      Flt.fin (lg (((i : K) + 1) * (r / 2 / (env.spectrumSize : K))) -
        lg ((i : K) * (r / 2 / (env.spectrumSize : K)))) ∧
    0 < lg (((i : K) + 1) * (r / 2 / (env.spectrumSize : K))) -
      lg ((i : K) * (r / 2 / (env.spectrumSize : K))) ∧
    (∀ a b a2 b2 : K, i + 1 < 2 ^ 31 →
      readSpectrum m 0 (jlimit 0 (env.spectrumSize : Int) (i : Int)) = Except.ok (Flt.fin a) →
      readSpectrum m 1 (jlimit 0 (env.spectrumSize : Int) (i : Int)) = Except.ok (Flt.fin b) →
      readSpectrum m 0 (jlimit 0 (env.spectrumSize : Int) ((i : Int) + 1)) =
        Except.ok (Flt.fin a2) →
      readSpectrum m 1 (jlimit 0 (env.spectrumSize : Int) ((i : Int) + 1)) =
        Except.ok (Flt.fin b2) →
      getInterpolatedSpectrumAtFrequency env m (Flt.fin f) =
        Except.ok (Flt.fin ((a + b) / 2 +
          ((lg f - lg ((i : K) * (r / 2 / (env.spectrumSize : K)))) /
            (lg (((i : K) + 1) * (r / 2 / (env.spectrumSize : K))) -
              lg ((i : K) * (r / 2 / (env.spectrumSize : K))))) *
          ((a2 + b2) / 2 - (a + b) / 2)))) := by
  obtain ⟨hf, hf1, hf12, -⟩ := bin_frequencies_pos r f env.spectrumSize i hr hs h1 hround
  have hf2 := lt_trans hf1 hf12
  have hlt := hmono _ _ hf1 hf12
  have hres := resolution_eq r env.spectrumSize hs
  refine ⟨?_, ?_, hf1, hf2, by ring, ?_, by linarith, ?_⟩
  · rw [hrate, hres]
    simp [Flt.ofInt, Flt.mul]
  · rw [hrate, hres]
    simp [Flt.ofInt, Flt.mul]
  · rw [hlog _ hf1, hlog _ hf2]
    simp only [Flt.sub, Flt.neg, Flt.add, sub_eq_add_neg]
  · intro a b a2 b2 hint h01 h11 h02 h12
    have hden : lg (((i : K) + 1) * (r / 2 / (env.spectrumSize : K))) +
        -lg ((i : K) * (r / 2 / (env.spectrumSize : K))) ≠ 0 := by
      intro h
      linarith
    rw [query_clamped env m r f i _ _ _ _ hrate hr hs hround hint h01 h11 h02 h12,
      hlog f hf, hlog _ hf1, hlog _ hf2]
    simp only [Flt.sub, Flt.neg, Flt.add, Flt.div, Flt.mul, hden, if_false,
      (two_ne_zero : (2 : K) ≠ 0)]
    simp only [sub_eq_add_neg]

end BinFrequencies

section BinFrequenciesExamples

/-- C22 at the frequency `6 / 5`, which rounds to bin 1 of 4 at the sample rate 8, with
    the base-10 logarithm of the real numbers. -/
theorem bin_frequencies_unclamped_witness :
    (monitorOf ℝ 7).sampleRate = Flt.fin 8 ∧ (0 : ℝ) < 8 ∧
    0 < (envLog ℝ Real.sqrt (Real.logb 10)).spectrumSize ∧
    roundHalfEven ((6 / 5 : ℝ) /
      (8 / 2 / ((envLog ℝ Real.sqrt (Real.logb 10)).spectrumSize : ℝ))) = ((1 : Nat) : Int) ∧
    1 ≤ 1 ∧
    (∀ x : ℝ, 0 < x →
      (envLog ℝ Real.sqrt (Real.logb 10)).fastLog10 (Flt.fin x) = Flt.fin (Real.logb 10 x)) ∧
    (∀ x y : ℝ, 0 < x → x < y → Real.logb 10 x < Real.logb 10 y) ∧
    (0 : ℝ) < ((1 : Nat) : ℝ) *
      (8 / 2 / ((envLog ℝ Real.sqrt (Real.logb 10)).spectrumSize : ℝ)) ∧
    0 < Real.logb 10 ((((1 : Nat) : ℝ) + 1) *
        (8 / 2 / ((envLog ℝ Real.sqrt (Real.logb 10)).spectrumSize : ℝ))) -
      Real.logb 10 (((1 : Nat) : ℝ) *
        (8 / 2 / ((envLog ℝ Real.sqrt (Real.logb 10)).spectrumSize : ℝ))) := by
  have hround : roundHalfEven ((6 / 5 : ℝ) /
      (8 / 2 / ((envLog ℝ Real.sqrt (Real.logb 10)).spectrumSize : ℝ))) = ((1 : Nat) : Int) := by
    apply roundHalfEven_of_near <;> norm_num [envLog, envOf]
  have hmono : ∀ x y : ℝ, 0 < x → x < y → Real.logb 10 x < Real.logb 10 y :=
    fun x y hx hxy => Real.logb_lt_logb (by norm_num) hx hxy
  have h := bin_frequencies_unclamped (envLog ℝ Real.sqrt (Real.logb 10)) (monitorOf ℝ 7) 8
    (6 / 5) 1 (Real.logb 10) rfl (by norm_num) (by simp [envLog, envOf]) hround (le_refl 1)
    (envLog_fastLog10 ℝ Real.sqrt (Real.logb 10)) hmono
  exact ⟨rfl, by norm_num, by simp [envLog, envOf], hround, le_refl 1,
    envLog_fastLog10 ℝ Real.sqrt (Real.logb 10), hmono, h.2.2.1, h.2.2.2.2.2.2.1⟩

end BinFrequenciesExamples

/-! ## Links of the automation track map -/

section TrackMapInvariant

open AutomationTrackMap

/-- The elements of an array after `Array::insert`. -/
theorem insertAt_get (xs : List EventComponent) (k : Nat) (c : EventComponent) (j : Nat)
    (hk : k ≤ xs.length) :
    (insertAt xs k c)[j]? = if j < k then xs[j]? else if j = k then some c else xs[j - 1]? := by
  unfold insertAt
  have hlen : (xs.take k).length = k := by simp [hk]
  rw [List.getElem?_append]
  simp only [hlen]
  split_ifs with h1 h2
  · exact List.getElem?_take_of_lt h1
  · subst h2; simp
  · obtain ⟨d, hd⟩ : ∃ d, j - k = d + 1 := ⟨j - k - 1, by omega⟩
    rw [hd, List.getElem?_cons_succ, List.getElem?_drop]
    congr 1
    omega

theorem take_takeWhile_length (p : EventComponent → Bool) (xs : List EventComponent) :
    xs.take (xs.takeWhile p).length = xs.takeWhile p ∧
    xs.drop (xs.takeWhile p).length = xs.dropWhile p := by
  induction xs with
  | nil => simp
  | cons x xs ih =>
    by_cases h : p x = true
    · simp [List.takeWhile_cons, List.dropWhile_cons, h, ih.1, ih.2]
    · simp [List.takeWhile_cons, List.dropWhile_cons, h]


theorem getNext_natCast (tm : AutomationTrackMap) (i : Nat) :
    tm.getNextEventComponent (i : Int) = tm.eventComponents[i + 1]? := by
  unfold getNextEventComponent isPositiveAndBelow
  simp only
  by_cases h : i + 1 < tm.eventComponents.length
  · have h1 : (0 : Int) ≤ (i : Int) + 1 := by omega
    have h2 : (i : Int) + 1 < (tm.eventComponents.length : Int) := by omega
    have h3 : ((i : Int) + 1).toNat = i + 1 := by omega
    simp [h1, h2, h3]
  · have h2 : ¬ ((i : Int) + 1 < (tm.eventComponents.length : Int)) := by omega
    simp [h2, List.getElem?_eq_none (not_lt.mp h)]

theorem getPrevious_zero (tm : AutomationTrackMap) :
    tm.getPreviousEventComponent 0 = none := by
  unfold getPreviousEventComponent isPositiveAndBelow
  simp

theorem getPrevious_succ (tm : AutomationTrackMap) (i : Nat) :
    tm.getPreviousEventComponent ((i : Int) + 1) = tm.eventComponents[i]? := by
  unfold getPreviousEventComponent isPositiveAndBelow
  simp only
  by_cases h : i < tm.eventComponents.length
  · have h1 : (0 : Int) ≤ (i : Int) + 1 - 1 := by omega
    have h2 : (i : Int) + 1 - 1 < (tm.eventComponents.length : Int) := by omega
    have h3 : ((i : Int) + 1 - 1).toNat = i := by omega
    simp [h1, h2, h3]
  · have h2 : ¬ ((i : Int) + 1 - 1 < (tm.eventComponents.length : Int)) := by omega
    simp [h2, List.getElem?_eq_none (not_lt.mp h)]

theorem getPrevious_natCast (tm : AutomationTrackMap) (k : Nat) :
    tm.getPreviousEventComponent (k : Int) =
      if k = 0 then none else tm.eventComponents[k - 1]? := by
  cases k with
  | zero => simpa using getPrevious_zero tm
  | succ j =>
    have := getPrevious_succ tm j
    simpa using this

/-- What `addComponent` leaves in the track map: the new component is put at the insert
    index, its next neighbour is the component behind it and it is the next neighbour of the
    component before it. -/
theorem addComponent_fields (tm : AutomationTrackMap) (event : AutomationEvent) (k : Nat)
    (hk : findInsertIndexInSortedArray (Function.update tm.beat tm.allocated event.beat)
      tm.eventComponents event.beat = k) :
    (tm.addComponent event).eventComponents = insertAt tm.eventComponents k tm.allocated ∧
    (tm.addComponent event).beat = Function.update tm.beat tm.allocated event.beat ∧
    (tm.addComponent event).allocated = tm.allocated + 1 ∧
    (tm.addComponent event).nextNeighbour =
      match (if k = 0 then none else (insertAt tm.eventComponents k tm.allocated)[k - 1]?) with
      | some previous =>
        Function.update (Function.update tm.nextNeighbour tm.allocated
          ((insertAt tm.eventComponents k tm.allocated)[k + 1]?)) previous (some tm.allocated)
      | none => Function.update tm.nextNeighbour tm.allocated
          ((insertAt tm.eventComponents k tm.allocated)[k + 1]?) := by
  refine ⟨?_, ?_, ?_, ?_⟩
  · unfold addComponent
    simp only [hk]
    split <;> rfl
  · unfold addComponent
    simp only
    split <;> rfl
  · unfold addComponent
    simp only
    split <;> rfl
  · unfold addComponent
    simp only [hk, getNext_natCast, getPrevious_natCast, setNextNeighbour]
    cases (if k = 0 then none else (insertAt tm.eventComponents k tm.allocated)[k - 1]?) <;> rfl

theorem mem_of_get_some {xs : List EventComponent} {j : Nat} {d : EventComponent}
    (h : xs[j]? = some d) : d ∈ xs := by
  obtain ⟨hlt, rfl⟩ := List.getElem?_eq_some.mp h
  exact List.getElem_mem hlt

theorem nodup_index_eq {xs : List EventComponent} (hn : xs.Nodup) {i j : Nat}
    {d : EventComponent} (hi : xs[i]? = some d) (hj : xs[j]? = some d) : i = j := by
  obtain ⟨hlt, -⟩ := List.getElem?_eq_some.mp hi
  exact List.getElem?_inj hlt hn (hi.trans hj.symm)

/-- Insertion at an index with the two link updates of `onEventAdded` keeps the links. -/
theorem insertAt_linked (xs : List EventComponent) (next : EventComponent → Option EventComponent)
    (c : EventComponent) (k : Nat) (hk : k ≤ xs.length) (hnodup : xs.Nodup) (hc : c ∉ xs)
    (hlinked : ∀ i d, xs[i]? = some d → next d = xs[i + 1]?)
    (next2 : EventComponent → Option EventComponent)
    (hnext : next2 = match (if k = 0 then none else (insertAt xs k c)[k - 1]?) with
      | some previous => Function.update (Function.update next c ((insertAt xs k c)[k + 1]?))
          previous (some c)
      | none => Function.update next c ((insertAt xs k c)[k + 1]?)) :
    ∀ j d, (insertAt xs k c)[j]? = some d → next2 d = (insertAt xs k c)[j + 1]? := by
  have hafter : (insertAt xs k c)[k + 1]? = xs[k]? := by
    rw [insertAt_get xs k c (k + 1) hk, if_neg (by omega), if_neg (by omega)]; rfl
  rw [hafter] at hnext
  intro j d hj
  rw [insertAt_get xs k c j hk] at hj
  rw [insertAt_get xs k c (j + 1) hk]
  by_cases hk0 : k = 0
  · subst hk0
    simp only [if_true] at hnext
    subst hnext
    rw [if_neg (by omega)] at hj
    rw [if_neg (by omega), if_neg (by omega)]
    by_cases hj0 : j = 0
    · subst hj0
      simp only [if_true, Option.some.injEq] at hj
      subst hj
      simp
    · rw [if_neg hj0] at hj
      have hd : d ≠ c := fun h => hc (h ▸ mem_of_get_some hj)
      rw [Function.update_noteq hd, hlinked _ _ hj]
      congr 1; omega
  · have hlt : k - 1 < xs.length := by omega
    have hprev : (insertAt xs k c)[k - 1]? = some (xs.get ⟨k - 1, hlt⟩) := by
      rw [insertAt_get xs k c (k - 1) hk, if_pos (by omega)]
      exact List.getElem?_eq_getElem hlt
    rw [if_neg hk0, hprev] at hnext
    simp only at hnext
    subst hnext
    have hpx : xs[k - 1]? = some (xs.get ⟨k - 1, hlt⟩) := List.getElem?_eq_getElem hlt
    have hpc : xs.get ⟨k - 1, hlt⟩ ≠ c := fun h => hc (h ▸ List.get_mem xs _ _)
    by_cases h1 : j < k
    · rw [if_pos h1] at hj
      by_cases h2 : j + 1 = k
      · have hd : d = xs.get ⟨k - 1, hlt⟩ := by
          have : j = k - 1 := by omega
          subst this
          exact Option.some.inj (hj.symm.trans hpx)
        rw [if_neg (by omega), if_pos h2, hd, Function.update_same]
      · rw [if_pos (by omega)]
        have hd : d ≠ c := fun h => hc (h ▸ mem_of_get_some hj)
        have hdp : d ≠ xs.get ⟨k - 1, hlt⟩ := by
          intro h
          have := nodup_index_eq hnodup hj (h ▸ hpx)
          omega
        rw [Function.update_noteq hdp, Function.update_noteq hd, hlinked _ _ hj]
    · rw [if_neg h1] at hj
      rw [if_neg (by omega), if_neg (by omega)]
      by_cases h2 : j = k
      · rw [if_pos h2] at hj
        have hd : d = c := (Option.some.inj hj).symm
        subst hd
        rw [Function.update_noteq (Ne.symm hpc), Function.update_same, h2]
        rfl
      · rw [if_neg h2] at hj
        have hd : d ≠ c := fun h => hc (h ▸ mem_of_get_some hj)
        have hdp : d ≠ xs.get ⟨k - 1, hlt⟩ := by
          intro h
          have := nodup_index_eq hnodup hj (h ▸ hpx)
          omega
        rw [Function.update_noteq hdp, Function.update_noteq hd, hlinked _ _ hj]
        congr 1; omega

theorem addComponent_linked (tm : AutomationTrackMap) (event : AutomationEvent)
    (hnodup : tm.eventComponents.Nodup) (hfresh : ∀ c ∈ tm.eventComponents, c < tm.allocated)
    (hlinked : tm.NeighbourLinked) : (tm.addComponent event).NeighbourLinked := by
  obtain ⟨hcomp, -, -, hnext⟩ := addComponent_fields tm event _ rfl
  have hk : findInsertIndexInSortedArray (Function.update tm.beat tm.allocated event.beat)
      tm.eventComponents event.beat ≤ tm.eventComponents.length :=
    (List.takeWhile_sublist _).length_le
  intro j d hj
  rw [hcomp] at hj ⊢
  exact insertAt_linked tm.eventComponents tm.nextNeighbour tm.allocated _ hk hnodup
    (fun h => lt_irrefl _ (hfresh _ h)) hlinked _ hnext j d hj

theorem insertAt_perm (xs : List EventComponent) (k : Nat) (c : EventComponent) :
    (insertAt xs k c).Perm (c :: xs) := by
  unfold insertAt
  refine List.perm_middle.trans ?_
  rw [List.take_append_drop]

/-- Insertion at the index of `findInsertIndexInSortedArray` keeps the array sorted. -/
theorem findInsertIndex_sorted (beat : EventComponent → Int) (xs : List EventComponent)
    (c : EventComponent) (hsorted : xs.Pairwise (fun a b => beat a ≤ beat b)) :
    (insertAt xs (findInsertIndexInSortedArray beat xs (beat c)) c).Pairwise
      (fun a b => beat a ≤ beat b) := by
  unfold insertAt findInsertIndexInSortedArray
  obtain ⟨htake, hdrop⟩ := take_takeWhile_length (fun x => decide (beat x ≤ beat c)) xs
  rw [htake, hdrop]
  have hpre : ∀ a ∈ xs.takeWhile (fun x => decide (beat x ≤ beat c)), beat a ≤ beat c := by
    intro a ha
    simpa using List.mem_takeWhile_imp ha
  have hpost : ∀ b ∈ xs.dropWhile (fun x => decide (beat x ≤ beat c)), beat c ≤ beat b := by
    intro b hb
    have hs : (xs.dropWhile (fun x => decide (beat x ≤ beat c))).Pairwise
        (fun a b => beat a ≤ beat b) := hsorted.sublist (List.dropWhile_sublist _)
    cases hdw : xs.dropWhile (fun x => decide (beat x ≤ beat c)) with
    | nil => rw [hdw] at hb; cases hb
    | cons hd tl =>
      have hhd : ¬ beat hd ≤ beat c := by
        have := List.head_dropWhile_not (fun x => decide (beat x ≤ beat c)) xs
          (by rw [hdw]; exact List.cons_ne_nil _ _)
        simp only [hdw, List.head_cons] at this
        simpa using this
      rw [hdw] at hb hs
      rcases List.mem_cons.mp hb with rfl | hmem
      · omega
      · have := (List.pairwise_cons.mp hs).1 b hmem
        omega
  refine List.pairwise_append.mpr ⟨hsorted.sublist (List.takeWhile_sublist _),
    List.pairwise_cons.mpr ⟨hpost, hsorted.sublist (List.dropWhile_sublist _)⟩, ?_⟩
  intro a ha b hb
  rcases List.mem_cons.mp hb with rfl | hmem
  · exact hpre a ha
  · exact le_trans (hpre a ha) (hpost b hmem)

/-- The component made for one event keeps the track map well formed. -/
theorem addComponent_wellFormed (tm : AutomationTrackMap) (event : AutomationEvent)
    (h : tm.WellFormed) : (tm.addComponent event).WellFormed := by
  obtain ⟨hnodup, hfresh, hsorted, hlinked⟩ := h
  have hc : tm.allocated ∉ tm.eventComponents := fun h => lt_irrefl _ (hfresh _ h)
  obtain ⟨hcomp, hbeat, halloc, -⟩ := addComponent_fields tm event _ rfl
  refine ⟨?_, ?_, ?_, addComponent_linked tm event hnodup hfresh hlinked⟩
  · rw [hcomp]
    exact (insertAt_perm _ _ _).nodup_iff.mpr (List.nodup_cons.mpr ⟨hc, hnodup⟩)
  · intro d hd
    rw [hcomp] at hd
    rw [halloc]
    rcases List.mem_cons.mp ((insertAt_perm _ _ _).mem_iff.mp hd) with rfl | hmem
    · exact Nat.lt_succ_self _
    · exact Nat.lt_succ_of_lt (hfresh d hmem)
  · unfold SortedByBeat
    rw [hcomp, hbeat]
    have hs : tm.eventComponents.Pairwise (fun a b =>
        Function.update tm.beat tm.allocated event.beat a ≤
          Function.update tm.beat tm.allocated event.beat b) := by
      refine List.Pairwise.imp_of_mem ?_ hsorted
      intro a b ha hb hab
      have hac : a ≠ tm.allocated := fun h => hc (h ▸ ha)
      have hbc : b ≠ tm.allocated := fun h => hc (h ▸ hb)
      rw [Function.update_noteq hac, Function.update_noteq hbc]
      exact hab
    have := findInsertIndex_sorted (Function.update tm.beat tm.allocated event.beat)
      tm.eventComponents tm.allocated hs
    rw [Function.update_same] at this
    exact this

/-- After `onEventAdded` the array is sorted and linked. -/
theorem onEventAdded_wellFormed (tm : AutomationTrackMap) (event : AutomationEvent)
    (h : tm.WellFormed) : (tm.onEventAdded event).WellFormed := by
  unfold onEventAdded
  split
  · exact addComponent_wellFormed tm event h
  · exact h

theorem foldl_addComponent_wellFormed (events : List AutomationEvent) :
    ∀ tm : AutomationTrackMap, tm.WellFormed → (events.foldl addComponent tm).WellFormed := by
  induction events with
  | nil => intro tm h; exact h
  | cons e es ih => intro tm h; exact ih _ (addComponent_wellFormed tm e h)

/-- After `reloadTrack` the array is sorted and linked, whatever the map was before. -/
theorem reloadTrack_wellFormed (tm : AutomationTrackMap) (events : List AutomationEvent) :
    (tm.reloadTrack events).WellFormed := by
  unfold reloadTrack
  refine foldl_addComponent_wellFormed events _ ⟨List.nodup_nil, ?_, List.Pairwise.nil, ?_⟩
  · intro c hc; cases hc
  · intro i c hc; simp at hc

theorem erase_eq_eraseIdx_indexOf (xs : List EventComponent) (c : EventComponent) :
    xs.erase c = xs.eraseIdx (xs.indexOf c) := by
  induction xs with
  | nil => rfl
  | cons x xs ih =>
    by_cases h : x = c
    · subst h
      simp
    · rw [List.erase_cons_tail (by simpa using h), List.indexOf_cons_ne _ h, List.eraseIdx_cons_succ, ih]

/-- Removal at an index with the link update of `onEventRemoved` keeps the links. -/
theorem eraseIdx_linked (xs : List EventComponent) (next : EventComponent → Option EventComponent)
    (i : Nat) (hnodup : xs.Nodup)
    (hlinked : ∀ j d, xs[j]? = some d → next d = xs[j + 1]?)
    (next2 : EventComponent → Option EventComponent)
    (hnext : next2 = match (if i = 0 then none else xs[i - 1]?) with
      | some previous => Function.update next previous (xs[i + 1]?)
      | none => next) :
    ∀ j d, (xs.eraseIdx i)[j]? = some d → next2 d = (xs.eraseIdx i)[j + 1]? := by
  intro j d hj
  rw [List.getElem?_eraseIdx] at hj ⊢
  by_cases hi0 : i = 0
  · subst hi0
    simp only [if_true] at hnext
    subst hnext
    rw [if_neg (by omega)] at hj ⊢
    exact hlinked _ _ hj
  · rw [if_neg hi0] at hnext
    cases hprev : xs[i - 1]? with
    | none =>
      rw [hprev] at hnext
      simp only at hnext
      subst hnext
      have hlen : xs.length ≤ i - 1 := List.getElem?_eq_none_iff.mp hprev
      have hjn : j < i := by
        by_contra hge
        rw [if_neg hge] at hj
        have := (List.getElem?_eq_some.mp hj).1
        omega
      rw [if_pos hjn] at hj
      have := (List.getElem?_eq_some.mp hj).1
      rw [if_pos (by omega)]
      exact hlinked _ _ hj
    | some p =>
      rw [hprev] at hnext
      simp only at hnext
      subst hnext
      by_cases h1 : j + 1 < i
      · rw [if_pos (by omega)] at hj
        rw [if_pos h1]
        have hdp : d ≠ p := by
          intro h
          have := nodup_index_eq hnodup hj (h ▸ hprev)
          omega
        rw [Function.update_noteq hdp, hlinked _ _ hj]
      · rw [if_neg h1]
        by_cases h2 : j < i
        · rw [if_pos h2] at hj
          have hji : j = i - 1 := by omega
          subst hji
          have hd : d = p := Option.some.inj (hj.symm.trans hprev)
          rw [hd, Function.update_same]
          congr 1; omega
        · rw [if_neg h2] at hj
          have hdp : d ≠ p := by
            intro h
            have := nodup_index_eq hnodup hj (h ▸ hprev)
            omega
          rw [Function.update_noteq hdp, hlinked _ _ hj]

theorem indexOfSorted_mem (xs : List EventComponent) (c : EventComponent) (h : c ∈ xs) :
    indexOfSorted xs c = (xs.indexOf c : Int) := by
  unfold indexOfSorted
  rw [if_pos h]

theorem indexOfSorted_not_mem (xs : List EventComponent) (c : EventComponent) (h : c ∉ xs) :
    indexOfSorted xs c = -1 := by
  unfold indexOfSorted
  rw [if_neg h]

theorem getPrevious_neg (tm : AutomationTrackMap) :
    tm.getPreviousEventComponent (-1) = none := by
  unfold getPreviousEventComponent isPositiveAndBelow
  simp

theorem removeComponent_wellFormed (tm : AutomationTrackMap) (component : EventComponent)
    (hash : List (AutomationEvent × EventComponent)) (h : tm.WellFormed) :
    let tm1 : AutomationTrackMap := { tm with eventsHash := hash }
    let indexOfSorted := Helio.indexOfSorted tm1.eventComponents component
    let tm2 :=
      match tm1.getPreviousEventComponent indexOfSorted with
      | some previous =>
        tm1.setNextNeighbour previous (tm1.getNextEventComponent indexOfSorted)
      | none => tm1
    WellFormed { tm2 with eventComponents := tm2.eventComponents.erase component } := by
  obtain ⟨hnodup, hfresh, hsorted, hlinked⟩ := h
  intro tm1 idx tm2
  have hcomp : tm2.eventComponents = tm.eventComponents := by
    show (match tm1.getPreviousEventComponent idx with
      | some previous => tm1.setNextNeighbour previous (tm1.getNextEventComponent idx)
      | none => tm1).eventComponents = _
    cases tm1.getPreviousEventComponent idx <;> rfl
  have hbeat : tm2.beat = tm.beat := by
    show (match tm1.getPreviousEventComponent idx with
      | some previous => tm1.setNextNeighbour previous (tm1.getNextEventComponent idx)
      | none => tm1).beat = _
    cases tm1.getPreviousEventComponent idx <;> rfl
  have halloc : tm2.allocated = tm.allocated := by
    show (match tm1.getPreviousEventComponent idx with
      | some previous => tm1.setNextNeighbour previous (tm1.getNextEventComponent idx)
      | none => tm1).allocated = _
    cases tm1.getPreviousEventComponent idx <;> rfl
  refine ⟨?_, ?_, ?_, ?_⟩
  · show (tm2.eventComponents.erase component).Nodup
    rw [hcomp]; exact hnodup.erase _
  · intro c hc
    show c < tm2.allocated
    rw [halloc]
    have hc2 : c ∈ tm2.eventComponents.erase component := hc
    rw [hcomp] at hc2
    exact hfresh c (List.mem_of_mem_erase hc2)
  · show (tm2.eventComponents.erase component).Pairwise (fun a b => tm2.beat a ≤ tm2.beat b)
    rw [hcomp, hbeat]
    exact hsorted.sublist (List.erase_sublist _ _)
  · show ∀ j d, (tm2.eventComponents.erase component)[j]? = some d →
      tm2.nextNeighbour d = (tm2.eventComponents.erase component)[j + 1]?
    rw [hcomp]
    by_cases hmem : component ∈ tm.eventComponents
    · have hidx : idx = (tm.eventComponents.indexOf component : Int) :=
        indexOfSorted_mem _ _ hmem
      rw [erase_eq_eraseIdx_indexOf]
      refine eraseIdx_linked tm.eventComponents tm.nextNeighbour _ hnodup hlinked _ ?_
      show (match tm1.getPreviousEventComponent idx with
        | some previous => tm1.setNextNeighbour previous (tm1.getNextEventComponent idx)
        | none => tm1).nextNeighbour = _
      rw [hidx, getPrevious_natCast, getNext_natCast]
      show _ = match (if tm.eventComponents.indexOf component = 0 then none
          else tm.eventComponents[tm.eventComponents.indexOf component - 1]?) with
        | some previous => Function.update tm.nextNeighbour previous
            (tm.eventComponents[tm.eventComponents.indexOf component + 1]?)
        | none => tm.nextNeighbour
      cases (if tm.eventComponents.indexOf component = 0 then none
          else tm.eventComponents[tm.eventComponents.indexOf component - 1]?) <;> rfl
    · have hidx : idx = -1 := indexOfSorted_not_mem _ _ hmem
      have hnext : tm2.nextNeighbour = tm.nextNeighbour := by
        show (match tm1.getPreviousEventComponent idx with
          | some previous => tm1.setNextNeighbour previous (tm1.getNextEventComponent idx)
          | none => tm1).nextNeighbour = _
        rw [hidx, getPrevious_neg]
      rw [hnext, List.erase_of_not_mem hmem]
      exact hlinked

/-- After `onEventRemoved` the array is sorted and linked. -/
theorem onEventRemoved_wellFormed (tm : AutomationTrackMap) (event : AutomationEvent)
    (h : tm.WellFormed) : (tm.onEventRemoved event).WellFormed := by
  unfold onEventRemoved
  split
  · split
    · exact removeComponent_wellFormed tm _ _ h
    · exact h
  · exact h

theorem insertByBeat_mem (beat : EventComponent → Int) (c : EventComponent)
    (xs : List EventComponent) (d : EventComponent) :
    d ∈ insertByBeat beat c xs ↔ d = c ∨ d ∈ xs := by
  induction xs with
  | nil => simp [insertByBeat]
  | cons x xs ih =>
    unfold insertByBeat
    split
    · simp
    · simp only [List.mem_cons, ih]
      tauto

theorem insertByBeat_sorted (beat : EventComponent → Int) (c : EventComponent)
    (xs : List EventComponent) (h : xs.Pairwise (fun a b => beat a ≤ beat b)) :
    (insertByBeat beat c xs).Pairwise (fun a b => beat a ≤ beat b) := by
  induction xs with
  | nil => simp [insertByBeat]
  | cons x xs ih =>
    obtain ⟨hx, hxs⟩ := List.pairwise_cons.mp h
    unfold insertByBeat
    split
    · rename_i hlt
      refine List.pairwise_cons.mpr ⟨?_, h⟩
      intro d hd
      rcases List.mem_cons.mp hd with rfl | hmem
      · exact le_of_lt hlt
      · exact le_trans (le_of_lt hlt) (hx d hmem)
    · rename_i hge
      refine List.pairwise_cons.mpr ⟨?_, ih hxs⟩
      intro d hd
      rcases (insertByBeat_mem beat c xs d).mp hd with rfl | hmem
      · exact not_lt.mp hge
      · exact hx d hmem

theorem sortByBeat_sorted (beat : EventComponent → Int) (xs : List EventComponent) :
    (sortByBeat beat xs).Pairwise (fun a b => beat a ≤ beat b) := by
  induction xs with
  | nil => exact List.Pairwise.nil
  | cons x xs ih => exact insertByBeat_sorted beat x _ ih

/-- After `onEventChanged` the array is sorted: it is sorted anew as a whole. -/
theorem onEventChanged_sorted (tm : AutomationTrackMap) (oldEvent newEvent : AutomationEvent)
    (h : tm.SortedByBeat) : (tm.onEventChanged oldEvent newEvent).SortedByBeat := by
  unfold onEventChanged
  split
  · split
    · rename_i component _
      unfold SortedByBeat
      have := sortByBeat_sorted (Function.update tm.beat component newEvent.beat)
        tm.eventComponents
      simp only [setNextNeighbour]
      split <;> split <;> (try split) <;> exact this
    · exact h
  · exact h

end TrackMapInvariant

section TrackMapExamples

theorem fourEvents_components : fourEvents.eventComponents = [0, 1, 2, 3] := by decide

/-- The track map of four events, as `reloadTrack` builds it, is sorted and linked. -/
theorem fourEvents_linked : fourEvents.SortedByBeat ∧ fourEvents.NeighbourLinked := by
  constructor
  · unfold AutomationTrackMap.SortedByBeat
    rw [fourEvents_components]
    decide
  · intro i c h
    rw [fourEvents_components] at h ⊢
    rcases i with _ | _ | _ | _ | i <;> simp at h <;> subst h <;> decide

/-- A change that moves an event by one position leaves the array sorted and linked. -/
theorem changed_by_one_position_linked :
    (fourEvents.onEventChanged (eventAt 1 20) (eventAt 1 35)).eventComponents = [0, 2, 1, 3] ∧
    (fourEvents.onEventChanged (eventAt 1 20) (eventAt 1 35)).NeighbourLinked := by
  have hc : (fourEvents.onEventChanged (eventAt 1 20) (eventAt 1 35)).eventComponents =
      [0, 2, 1, 3] := by decide
  refine ⟨hc, ?_⟩
  intro i c h
  rw [hc] at h ⊢
  rcases i with _ | _ | _ | _ | i <;> simp at h <;> subst h <;> decide

/-- C23, at a failing input: the track map holds four components, for events at the beats
    10, 20, 30 and 40, sorted and linked; the event at beat 20 is changed to beat 45 and so
    moves by two positions. After `onEventChanged` the array is `[0, 2, 3, 1]`, but the
    next neighbour of `eventComponents[0]` is still the moved component 1 and not
    `eventComponents[1]`, which is 2: the links are not those of the array. -/
theorem changed_event_leaves_stale_link :
    fourEvents.SortedByBeat ∧ fourEvents.NeighbourLinked ∧
    (fourEvents.onEventChanged (eventAt 1 20) (eventAt 1 45)).eventComponents = [0, 2, 3, 1] ∧
    (fourEvents.onEventChanged (eventAt 1 20) (eventAt 1 45)).nextNeighbour 0 = some 1 ∧
    (fourEvents.onEventChanged (eventAt 1 20) (eventAt 1 45)).eventComponents[0 + 1]? =
      some 2 ∧
    ¬ (fourEvents.onEventChanged (eventAt 1 20) (eventAt 1 45)).NeighbourLinked := by
  have hc : (fourEvents.onEventChanged (eventAt 1 20) (eventAt 1 45)).eventComponents =
      [0, 2, 3, 1] := by decide
  have hn : (fourEvents.onEventChanged (eventAt 1 20) (eventAt 1 45)).nextNeighbour 0 =
      some 1 := by decide
  refine ⟨fourEvents_linked.1, fourEvents_linked.2, hc, hn, by rw [hc]; rfl, ?_⟩
  intro hlinked
  have h := hlinked 0 0 (by rw [hc]; rfl)
  rw [hn, hc] at h
  exact absurd h (by decide)

end TrackMapExamples

/-! ## Removal of an event from its layer -/

section RemoveEvent

variable {L : Type}

/-- C24: `removeEventIfPossible` never empties a layer. When the layer of the event holds
    at most one event the call changes nothing; when it holds more than one, the call makes
    a checkpoint and removes the event, after which the layer holds one event less, and at
    least one, if the event was in the layer; and a layer that is not empty is not empty
    after any sequence of calls. Of the layer it is used that a checkpoint changes neither
    the number of events nor which events are in the layer, and that a removal takes away
    the event when it is in the layer and at most one event otherwise. -/
theorem remove_keeps_layer_inhabited (ops : AutomationLayerOps L) (autoLayer : L)
    (e : AutomationEvent)
    (hcheckpoint : ∀ l, ops.size (ops.checkpoint l) = ops.size l)
    (hcontains : ∀ l x, ops.contains (ops.checkpoint l) x = ops.contains l x)
    (hremove : ∀ l x, ops.contains l x = true → ops.size (ops.remove l x) + 1 = ops.size l)
    (hatmost : ∀ l x, ops.size l ≤ ops.size (ops.remove l x) + 1) :
    (ops.size autoLayer ≤ 1 → removeEventIfPossible ops autoLayer e = autoLayer) ∧
    (1 < ops.size autoLayer →
      removeEventIfPossible ops autoLayer e = ops.remove (ops.checkpoint autoLayer) e ∧
      1 ≤ ops.size (removeEventIfPossible ops autoLayer e) ∧
      (ops.contains autoLayer e = true →
        ops.size (removeEventIfPossible ops autoLayer e) = ops.size autoLayer - 1)) ∧
    (∀ es : List AutomationEvent, 1 ≤ ops.size autoLayer →
      1 ≤ ops.size (es.foldl (removeEventIfPossible ops) autoLayer)) := by
  have hstep : ∀ (l : L) (x : AutomationEvent), 1 ≤ ops.size l →
      1 ≤ ops.size (removeEventIfPossible ops l x) := by
    intro l x hl
    unfold removeEventIfPossible
    split_ifs with h
    · have h1 := hatmost (ops.checkpoint l) x
      rw [hcheckpoint] at h1
      omega
    · exact hl
  refine ⟨fun h => ?_, fun h => ⟨?_, ?_, fun hin => ?_⟩, fun es => ?_⟩
  · unfold removeEventIfPossible
    rw [if_neg (by omega)]
  · unfold removeEventIfPossible
    rw [if_pos h]
  · exact hstep autoLayer e (by omega)
  · unfold removeEventIfPossible
    rw [if_pos h]
    have h1 := hremove (ops.checkpoint autoLayer) e (by rw [hcontains]; exact hin)
    rw [hcheckpoint] at h1
    omega
  · induction es generalizing autoLayer with
    | nil => exact fun h => h
    | cons x es ih =>
      intro h
      rw [List.foldl_cons]
      exact ih _ (hstep autoLayer x h)

theorem listLayer_erase_length (l : ListLayer) (x : AutomationEvent) :
    l.events.length ≤ (l.events.erase x).length + 1 := by
  rw [List.length_erase]
  split_ifs <;> omega

/-- C24 at a layer that is the list of two events. -/
theorem remove_keeps_layer_inhabited_witness :
    (∀ l, listLayerOps.size (listLayerOps.checkpoint l) = listLayerOps.size l) ∧
    (∀ l x, listLayerOps.contains (listLayerOps.checkpoint l) x = listLayerOps.contains l x) ∧
    (∀ l x, listLayerOps.contains l x = true →
      listLayerOps.size (listLayerOps.remove l x) + 1 = listLayerOps.size l) ∧
    (∀ l x, listLayerOps.size l ≤ listLayerOps.size (listLayerOps.remove l x) + 1) ∧
    (1 < listLayerOps.size { events := [eventAt 0 10, eventAt 1 20], checkpoints := 0 } →
      removeEventIfPossible listLayerOps
          { events := [eventAt 0 10, eventAt 1 20], checkpoints := 0 } (eventAt 0 10) =
        listLayerOps.remove (listLayerOps.checkpoint
          { events := [eventAt 0 10, eventAt 1 20], checkpoints := 0 }) (eventAt 0 10) ∧
      1 ≤ listLayerOps.size (removeEventIfPossible listLayerOps
          { events := [eventAt 0 10, eventAt 1 20], checkpoints := 0 } (eventAt 0 10)) ∧
      (listLayerOps.contains { events := [eventAt 0 10, eventAt 1 20], checkpoints := 0 }
          (eventAt 0 10) = true →
        listLayerOps.size (removeEventIfPossible listLayerOps
          { events := [eventAt 0 10, eventAt 1 20], checkpoints := 0 } (eventAt 0 10)) =
          listLayerOps.size { events := [eventAt 0 10, eventAt 1 20], checkpoints := 0 } - 1)) := by
  have h1 : ∀ l, listLayerOps.size (listLayerOps.checkpoint l) = listLayerOps.size l :=
    fun _ => rfl
  have h2 : ∀ l x, listLayerOps.contains (listLayerOps.checkpoint l) x =
      listLayerOps.contains l x := fun _ _ => rfl
  have h3 : ∀ l x, listLayerOps.contains l x = true →
      listLayerOps.size (listLayerOps.remove l x) + 1 = listLayerOps.size l := by
    intro l x hx
    have hmem : x ∈ l.events := by simpa [listLayerOps] using hx
    simp only [listLayerOps]
    rw [List.length_erase_of_mem hmem]
    have : 0 < l.events.length := List.length_pos_of_mem hmem
    omega
  have h4 : ∀ l x, listLayerOps.size l ≤ listLayerOps.size (listLayerOps.remove l x) + 1 :=
    fun l x => listLayer_erase_length l x
  exact ⟨h1, h2, h3, h4,
    (remove_keeps_layer_inhabited listLayerOps
      { events := [eventAt 0 10, eventAt 1 20], checkpoints := 0 } (eventAt 0 10)
      h1 h2 h3 h4).2.1⟩

end RemoveEvent

/-! ## The oversaturation test at an rms of 0 -/

section RoundedCallback

variable {K : Type} [LinearOrderedField K]

/-- With the identity as rounding the callback is that of exact arithmetic. -/
theorem audioDeviceIOCallbackWith_id (env : Env K) (m : AudioMonitor K)
    (out : List (List (Flt K))) (no n : Nat) :
    audioDeviceIOCallbackWith id env m out no n = audioDeviceIOCallback env m out no n := rfl

end RoundedCallback

section RoundedExamples

end RoundedExamples

end Helio
